import Mathlib

/-!
# LÖVR virtual filesystem: container reader and archive index

A shallow embedding of `src/core/zip.c` and of the archive part of
`src/modules/filesystem/filesystem.c`.

Conventions of the embedding.

* A byte buffer (`uint8_t* data`, `size_t size`) is a `List Nat`; its length is
  `size`, and every element is used modulo 256.  A pointer into the buffer is
  the index of the byte it points at.
* `size_t` and `uint64_t` are 64 bits wide (the header says little endian
  only); sums that the C code computes in `size_t` are taken modulo `2 ^ 64`.
* A C function is embedded as a function into `Run α = Except Fault α`.
  `Except.error` records that the C code reads or writes outside the object
  it was handed (undefined behaviour in C); `Except.ok` carries the value the
  function returns together with what it stores through its out-parameters.
* A C string argument is the list of its characters without the final NUL.
-/

namespace Lovr

/-! ## Faults -/

/-- Ways in which the C code leaves the objects it was given. -/
inductive Fault where
  /-- a read or write outside a buffer or array -/
  | outOfBounds
  /-- a read through a null pointer -/
  | nullDeref
  /-- a loop of the model ran out of its iteration bound -/
  | diverge
  /-- a read of an object that was never initialised -/
  | uninitialized
  deriving DecidableEq, Repr

/-- Outcome of running a C function. -/
abbrev Run (α : Type) := Except Fault α

/-! ## `core/zip.c` -/

/-- The little-endian load of `n` bytes at index `i`, as done by
`memcpy(&x, p, sizeof(x))` on a little-endian machine. -/
def readle (data : List Nat) (i : Nat) : Nat → Run Nat
  | 0 => .ok 0
  | n + 1 =>
    match data[i]? with
    | none => .error .outOfBounds
    | some b =>
      match readle data (i + 1) n with
      | .error e => .error e
      | .ok r => .ok (b % 256 + 256 * r)

/-- Source: `readu16`. -/
def readu16 (data : List Nat) (i : Nat) : Run Nat := readle data i 2

/-- Source: `readu32`. -/
def readu32 (data : List Nat) (i : Nat) : Run Nat := readle data i 4

/-- Source: `readu64`. -/
def readu64 (data : List Nat) (i : Nat) : Run Nat := readle data i 8

/-- The tail of `zip_open`: count and cursor of the legacy end-of-index
record, whose first byte is at index `p`. -/
def zip_open_legacy (data : List Nat) (p : Nat) : Run (Option (Nat × Nat)) :=
  match readu16 data (p + 10) with
  | .error e => .error e
  | .ok count =>
    match readu32 data (p + 16) with
    | .error e => .error e
    | .ok cursor => .ok (some (cursor, count))

/-- Source: `zip_open`.  `.ok none` is the return value `false`;
`.ok (some (cursor, count))` is `true` with the two out-parameters. -/
def zip_open (data : List Nat) : Run (Option (Nat × Nat)) :=
  let size := data.length
  let p := size - 22
  if size < 22 then .ok none else
  match readu32 data p with
  | .error e => .error e
  | .ok sig =>
    if sig ≠ 0x06054b50 then .ok none else
    let q := size - 42
    if size ≥ 42 then
      match readu32 data q with
      | .error e => .error e
      | .ok sig64 =>
        if sig64 = 0x07064b50 then
          match readu64 data (q + 8) with
          | .error e => .error e
          | .ok offset =>
            if size ≥ (offset + 56) % 2 ^ 64 then
              match readu32 data offset with
              | .error e => .error e
              | .ok sigrec =>
                if sigrec = 0x06064b50 then
                  match readu64 data (offset + 32) with
                  | .error e => .error e
                  | .ok count =>
                    match readu64 data (offset + 48) with
                    | .error e => .error e
                    | .ok cursor => .ok (some (cursor, count))
                else zip_open_legacy data p
            else zip_open_legacy data p
        else zip_open_legacy data p
    else zip_open_legacy data p

/-- The calendar record `struct tm` of the C library. -/
structure tm where
  tm_sec : Int
  tm_min : Int
  tm_hour : Int
  tm_mday : Int
  tm_mon : Int
  tm_year : Int
  tm_isdst : Int
  deriving DecidableEq, Repr

/-- Lines 38 to 48 of `zip_next`: the calendar record built from the DOS
time word `mtime` and date word `mdate`. -/
def zip_tm (mtime mdate : Nat) : tm :=
  { tm_sec := (((mtime <<< 1) &&& 62 : Nat) : Int)
    tm_min := (((mtime >>> 5) &&& 63 : Nat) : Int)
    tm_hour := (((mtime >>> 11) &&& 31 : Nat) : Int)
    tm_mday := ((mdate &&& 31 : Nat) : Int)
    tm_mon := (((mdate >>> 5) &&& 15 : Nat) : Int) - 1
    tm_year := (((mdate >>> 9) &&& 127 : Nat) : Int) + 80
    tm_isdst := -1 }

/-- Source: `zip_info`.  The field `name` is the index of the first byte of
the file name in the buffer (the C field is a pointer into the buffer). -/
structure zip_info where
  offset : Nat
  size : Nat
  modtime : Nat
  name : Nat
  length : Nat
  deriving DecidableEq, Repr

/-- Source: `zip_next`.  `mktime` is the C library routine (its result
already converted to `uint64_t`).  `.ok none` is the early `return false`,
which stores nothing; `.ok (some (r, cursor, info))` is the return value `r`
with the advanced cursor and the entry that were stored. -/
def zip_next (mktime : tm → Nat) (data : List Nat) (cursor : Nat) :
    Run (Option (Bool × Nat × zip_info)) :=
  let size := data.length
  let p := cursor
  if size < (cursor + 46) % 2 ^ 64 then .ok none else
  match readu32 data p with
  | .error e => .error e
  | .ok sig =>
    if sig ≠ 0x02014b50 then .ok none else
    match readu16 data (p + 12), readu16 data (p + 14), readu32 data (p + 24),
      readu16 data (p + 28), readu32 data (p + 42), readu16 data (p + 30),
      readu16 data (p + 32) with
    | .ok mtime, .ok mdate, .ok usize, .ok length, .ok offset, .ok extra, .ok comment =>
      let info : zip_info :=
        { offset := offset, size := usize, modtime := mktime (zip_tm mtime mdate),
          name := p + 46, length := length }
      let next := (cursor + (46 + length + extra + comment)) % 2 ^ 64
      .ok (some (decide (next < size), next, info))
    | _, _, _, _, _, _, _ => .error .outOfBounds

/-- Source: `zip_load`.  `.ok none` is the return value `NULL`;
`.ok (some (payload, csize, compressed))` is the index of the first payload
byte with the two out-parameters. -/
def zip_load (data : List Nat) (offset : Nat) : Run (Option (Nat × Nat × Bool)) :=
  let size := data.length
  let p := offset
  if (offset + 30) % 2 ^ 64 ≥ size then .ok none else
  match readu32 data p with
  | .error e => .error e
  | .ok sig =>
    if sig ≠ 0x04034b50 then .ok none else
    match readu16 data (p + 8) with
    | .error e => .error e
    | .ok compression =>
      let compressed := decide (compression ≠ 0)
      if compression ≠ 0 ∧ compression ≠ 8 then .ok none else
      match readu32 data (p + 18), readu16 data (p + 26), readu16 data (p + 28) with
      | .ok csize, .ok nameLength, .ok extraLength =>
        let skip := (nameLength + extraLength) % 2 ^ 32
        if (offset + 30 + skip + csize) % 2 ^ 64 ≤ size then
          .ok (some (p + 30 + skip, csize, compressed))
        else .ok none
      | _, _, _ => .error .outOfBounds

/-! ## `modules/filesystem/filesystem.c`: the container archive

The headers `filesystem.h`, `core/fs.h`, `core/map.h`, `core/hash.h` and
`core/arr.h` are not among the sources.  What the archive code needs from them
is either taken as a parameter (`hash64`, `mktime`, the result of `fs_map`) or
modelled from the spec under a doc comment that says so.  Growable arrays
(`arr_t`) are lists; a string handle into the string pool is the string it
designates. -/

/-- Modelled from the spec: `LOVR_PATH_MAX` is defined in `filesystem.h`,
which is missing; the spec calls it the fixed maximum path length, and
`filesystem.c` passes it as the size of its `char[1024]` buffers. -/
def LOVR_PATH_MAX : Nat := 1024

/-- The largest `size_t`. -/
def SIZE_MAX : Nat := 2 ^ 64 - 1

/-- The largest `uint32_t`. -/
def UINT32_MAX : Nat := 2 ^ 32 - 1

/-- The sentinel `~0u` that ends a child chain. -/
def NONE : Nat := 2 ^ 32 - 1

/-- Modelled from the spec: the file type of `FileInfo` (`core/fs.h` is
missing): Regular or Directory. -/
inductive FileType where
  | FILE_REGULAR
  | FILE_DIRECTORY
  deriving DecidableEq, Repr

/-- Modelled from the spec: `FileInfo` of the missing `core/fs.h`:
type, size and modification time. -/
structure FileInfo where
  size : Nat
  lastModified : Nat
  type : FileType
  deriving DecidableEq, Repr

/-- Source: `zip_node`.  `filename` is `none` for the null pointer. -/
structure zip_node where
  firstChild : Nat
  nextSibling : Nat
  filename : Option (List Nat)
  offset : Nat
  info : FileInfo
  deriving DecidableEq, Repr

/-- Modelled from the spec: `map_t` of the missing `core/map.h`, a map
from 64-bit path hashes to node indices. -/
abbrev map_t := List (Nat × Nat)

/-- Modelled from the spec: the value `map_get` returns for an absent key
(`MAP_NIL` of the missing `core/map.h`). -/
def MAP_NIL : Nat := 2 ^ 64 - 1

/-- Modelled from the spec: `map_get` of the missing `core/map.h`: the
value last stored under `hash`, or `MAP_NIL`. -/
def map_get : map_t → Nat → Nat
  | [], _ => MAP_NIL
  | (k, v) :: rest, hash => if k = hash then v else map_get rest hash

/-- Modelled from the spec: `map_set` of the missing `core/map.h`. -/
def map_set (m : map_t) (hash value : Nat) : map_t := (hash, value) :: m

/-- The container part of `Archive`: the node array, the lookup map and the
mapped file. -/
structure Archive where
  nodes : List zip_node
  lookup : map_t
  data : List Nat
  deriving DecidableEq, Repr

/-- The byte `p[i]` of the object that starts at `p` and consists of `obj`. -/
def byte_at (obj : List Nat) (i : Nat) : Run Nat :=
  match obj[i]? with
  | none => .error .outOfBounds
  | some b => .ok (b % 256)

/-- Source: `normalize`, first loop: `while (path[i] == '/') i++`. -/
def normalize_lead (path : List Nat) : Nat → Nat → Run Nat
  | 0, _ => .error .diverge
  | fuel + 1, i =>
    match byte_at path i with
    | .error e => .error e
    | .ok c => if c = 47 then normalize_lead path fuel (i + 1) else .ok i

/-- Source: `normalize`, inner loop:
`while (path[i] == '/' && (path[i + 1] == '/' || path[i + 1] == '\0')) i++`. -/
def normalize_skip (path : List Nat) : Nat → Nat → Run Nat
  | 0, _ => .error .diverge
  | fuel + 1, i =>
    match byte_at path i with
    | .error e => .error e
    | .ok c =>
      if c = 47 then
        match byte_at path (i + 1) with
        | .error e => .error e
        | .ok d => if d = 47 ∨ d = 0 then normalize_skip path fuel (i + 1) else .ok i
      else .ok i

/-- Source: `normalize`, outer loop `while (i < length)`; `buffer` is what
has been written so far. -/
def normalize_copy (path : List Nat) (length : Nat) : Nat → Nat → List Nat → Run (List Nat)
  | 0, _, _ => .error .diverge
  | fuel + 1, i, buffer =>
    if i < length then
      match byte_at path i with
      | .error e => .error e
      | .ok c =>
        match normalize_skip path (path.length + 1) (i + 1) with
        | .error e => .error e
        | .ok j => normalize_copy path length fuel j (buffer ++ [c])
    else .ok buffer

/-- Source: `normalize`.  `path` is the object the source pointer points
into (for a C string: its characters and the final NUL).  The result is the
string written to `buffer`; the returned `n` is its length. -/
def normalize (path : List Nat) (length : Nat) : Run (List Nat) :=
  match normalize_lead path (path.length + 1) 0 with
  | .error e => .error e
  | .ok i => normalize_copy path length (length + 1) i []

/-- Source: `zip_lookup`.  The result is the index of the node (the C code
returns its address), `none` for `NULL`. -/
def zip_lookup (hash64 : List Nat → Nat) (archive : Archive) (path : List Nat) :
    Run (Option Nat) :=
  let length := path.length
  if length > LOVR_PATH_MAX then .ok none else
  match normalize (path ++ [0]) length with
  | .error e => .error e
  | .ok buffer =>
    if buffer.length ≥ LOVR_PATH_MAX then .error .outOfBounds else
    let index := map_get archive.lookup (hash64 buffer)
    if index = MAP_NIL then .ok none else .ok (some index)

/-- Source: `zip_stat`.  `.ok none` is the return value `false`. -/
def zip_stat (hash64 : List Nat → Nat) (archive : Archive) (path : List Nat) :
    Run (Option FileInfo) :=
  match zip_lookup hash64 archive path with
  | .error e => .error e
  | .ok none => .ok none
  | .ok (some index) =>
    match archive.nodes[index]? with
    | none => .error .outOfBounds
    | some node => .ok (some node.info)

/-- Source: the loop of `zip_list`, from child index `i`: the file names
handed to the callback, in call order. -/
def zip_list_loop (nodes : List zip_node) : Nat → Nat → Run (List (Option (List Nat)))
  | 0, _ => .error .diverge
  | fuel + 1, i =>
    if i ≠ NONE then
      match nodes[i]? with
      | none => .error .outOfBounds
      | some child =>
        match zip_list_loop nodes fuel child.nextSibling with
        | .error e => .error e
        | .ok rest => .ok (child.filename :: rest)
    else .ok []

/-- Source: `zip_list`.  The result is the list of callback arguments.  A
chain that visits more nodes than the array holds has a cycle, on which the C
loop does not end. -/
def zip_list (hash64 : List Nat → Nat) (archive : Archive) (path : List Nat) :
    Run (List (Option (List Nat))) :=
  match zip_lookup hash64 archive path with
  | .error e => .error e
  | .ok none => .ok []
  | .ok (some index) =>
    match archive.nodes[index]? with
    | none => .error .outOfBounds
    | some node =>
      if node.info.type ≠ .FILE_DIRECTORY then .ok []
      else zip_list_loop archive.nodes (archive.nodes.length + 1) node.firstChild

/-- Source: `zip_init`, `while (length && path[length - 1] != '/') length--`. -/
def zip_segment (path : List Nat) : Nat → Nat
  | 0 => 0
  | n + 1 => if path[n]? ≠ some 47 then zip_segment path n else n + 1

/-- Source: `zip_init`, the loop `while (length != SIZE_MAX)` that walks the
canonical path `path` upward.  `node` is the pending node, `nodes` and
`lookup` are `archive->nodes` and `archive->lookup`. -/
def zip_walk (hash64 : List Nat → Nat) (path : List Nat) :
    Nat → Nat → Nat → zip_node → List zip_node → map_t → Run (List zip_node × map_t)
  | 0, _, _, _, _, _ => .error .diverge
  | fuel + 1, length, slash, node, nodes, lookup =>
    if length ≠ SIZE_MAX then
      let hash := hash64 (path.take length)
      let index := map_get lookup hash
      if index = MAP_NIL then
        let index := nodes.length
        let lookup := map_set lookup hash index
        let nodes := nodes ++ [node]
        let node := { node with
          firstChild := index % 2 ^ 32
          info := { node.info with type := .FILE_DIRECTORY } }
        let length := zip_segment path length
        match nodes[index]? with
        | none => .error .outOfBounds
        | some stored =>
          let nodes := nodes.set index
            { stored with filename := some ((path.drop length).take (slash - length)) }
          let length := (length + (2 ^ 64 - 1)) % 2 ^ 64
          zip_walk hash64 path fuel length length node nodes lookup
      else
        let childIndex := node.firstChild
        match nodes[index]?, nodes[childIndex]? with
        | some parent, some child =>
          let nodes := nodes.set childIndex { child with nextSibling := parent.firstChild }
          match nodes[index]? with
          | none => .error .outOfBounds
          | some parent => .ok (nodes.set index { parent with firstChild := childIndex }, lookup)
        | _, _ => .error .outOfBounds
    else .ok (nodes, lookup)

/-- Source: `zip_init`, `memcmp(info.name, root, rootLength)` is nonzero. -/
def zip_root_differs (data : List Nat) (name : Nat) (root : List Nat) (rootLength : Nat) :
    Run Bool :=
  if name + rootLength > data.length then .error .outOfBounds
  else .ok (decide (((data.drop name).take rootLength).map (· % 256) ≠ root.take rootLength))

/-- Source: `zip_init`, the body of the `for` loop after `zip_next`: one
entry `info` is classified, filtered and indexed.  `mount` is the content of
`path` up to `mountpointLength` (the normalized mountpoint and a slash),
`root` the stripped root (`none` for `NULL`) of length `rootLength`. -/
def zip_index (hash64 : List Nat → Nat) (data mount : List Nat) (root : Option (List Nat))
    (rootLength : Nat) (info : zip_info) (nodes : List zip_node) (lookup : map_t) :
    Run (List zip_node × map_t) :=
  let node : zip_node :=
    { firstChild := NONE, nextSibling := NONE, filename := none, offset := info.offset,
      info := { size := info.size, lastModified := info.modtime, type := .FILE_REGULAR } }
  match byte_at data (info.name + info.length - 1) with
  | .error e => .error e
  | .ok last =>
    let node := if last = 47 then
      { node with info := { node.info with type := .FILE_DIRECTORY } } else node
    let length := if last = 47 then (info.length + (2 ^ 16 - 1)) % 2 ^ 16 else info.length
    if (mount.length + length + (2 ^ 64 - rootLength)) % 2 ^ 64 ≥ LOVR_PATH_MAX then
      .ok (nodes, lookup)
    else
      let skip : Run Bool :=
        match root with
        | none => .ok false
        | some r =>
          if length < rootLength then .ok true else zip_root_differs data info.name r rootLength
      match skip with
      | .error e => .error e
      | .ok true => .ok (nodes, lookup)
      | .ok false =>
        match normalize (data.drop (info.name + rootLength)) (length - rootLength) with
        | .error e => .error e
        | .ok rest =>
          let path := mount ++ rest
          let length := rest.length + mount.length
          zip_walk hash64 path (length + 2) length length node nodes lookup

/-- Modelled from the spec: `arr_free` of the missing `core/arr.h`, which
releases the storage of an array.  The array is `none` when its members were
never initialised (no `arr_init` ran on it): releasing it reads them. -/
def arr_free {α : Type} (a : Option (List α)) : Run Unit :=
  match a with
  | none => .error .uninitialized
  | some _ => .ok ()

/-- Modelled from the spec: `map_free` of the missing `core/map.h`, which
releases the storage of a map.  The map is `none` when its members were never
initialised (no `map_init` ran on it). -/
def map_free (m : Option map_t) : Run Unit :=
  match m with
  | none => .error .uninitialized
  | some _ => .ok ()

/-- Source: `zip_close` on an archive whose `nodes` and `lookup` are in the
given state.  The value returned is that of `fs_unmap` (`core/fs.h` is
missing); no caller reads it, and it is left out. -/
def zip_close (nodes : Option (List zip_node)) (lookup : Option map_t) : Run Unit :=
  match arr_free nodes with
  | .error e => .error e
  | .ok _ => map_free lookup

/-- Source: `zip_init`, `zip_close(archive); return false;`. -/
def zip_init_fail (nodes : Option (List zip_node)) (lookup : Option map_t) :
    Run (Option Archive) :=
  match zip_close nodes lookup with
  | .error e => .error e
  | .ok _ => .ok none

/-- Source: `zip_init`, the `for` loop over `count` entries from `cursor`,
after `arr_init` and `map_init`.  `.ok none` is the return value `false`. -/
def zip_init_loop (hash64 : List Nat → Nat) (mktime : tm → Nat) (data mount : List Nat)
    (root : Option (List Nat)) (rootLength : Nat) :
    Nat → Nat → List zip_node → map_t → Run (Option Archive)
  | 0, _, nodes, lookup => .ok (some { nodes := nodes, lookup := lookup, data := data })
  | count + 1, cursor, nodes, lookup =>
    match zip_next mktime data cursor with
    | .error e => .error e
    | .ok none => zip_init_fail (some nodes) (some lookup)
    | .ok (some (false, _, _)) => zip_init_fail (some nodes) (some lookup)
    | .ok (some (true, cursor, info)) =>
      match zip_index hash64 data mount root rootLength info nodes lookup with
      | .error e => .error e
      | .ok (nodes, lookup) =>
        zip_init_loop hash64 mktime data mount root rootLength count cursor nodes lookup

/-- Source: `zip_init`, `while (root && root[rootLength - 1] == '/')
rootLength--` on the root whose leading slashes were skipped.  With
`rootLength = 0` the loop reads in front of the pointer, where only the
skipped slashes lie, and runs out of the string. -/
def zip_root_trim (root : List Nat) : Nat → Run Nat
  | 0 => .error .outOfBounds
  | n + 1 => if root[n]? = some 47 then zip_root_trim root n else .ok (n + 1)

/-- Source: `zip_init`, lines 545 to 548: the stripped root and its length. -/
def zip_root : Option (List Nat) → Run (Option (List Nat) × Nat)
  | none => .ok (none, 0)
  | some r =>
    let r := r.dropWhile (fun c => decide (c = 47))
    match zip_root_trim r r.length with
    | .error e => .error e
    | .ok rootLength => .ok (some r, rootLength)

/-- Source: `zip_init`.  `file` is the result of `fs_map(filename)` (`none`
for `NULL`), `mountpoint` and `root` are the two C strings (`none` for
`NULL`).  `.ok none` is the return value `false`; `.ok (some archive)` is
`true` with the archive that was built.  `archive` is the object declared in
`lovrFilesystemMount`, the only caller: of its members only `strings` is
initialised at the call, `nodes` and `lookup` are initialised by `arr_init`
and `map_init` after `zip_open`, so the `zip_close` that follows a failing
`zip_open` releases them uninitialised. -/
def zip_init (hash64 : List Nat → Nat) (mktime : tm → Nat) (file : Option (List Nat))
    (mountpoint root : Option (List Nat)) : Run (Option Archive) :=
  let mountpointLength := match mountpoint with
    | some m => m.length
    | none => 0
  if mountpointLength + 1 ≥ LOVR_PATH_MAX then .ok none else
  match mountpoint with
  | none => .error .nullDeref
  | some m =>
    match normalize (m ++ [0]) mountpointLength with
    | .error e => .error e
    | .ok normalized =>
      let mount := normalized ++ [47]
      match zip_root root with
      | .error e => .error e
      | .ok (root, rootLength) =>
        match file with
        | none => .ok none
        | some data =>
          match zip_open data with
          | .error e => .error e
          | .ok none => zip_init_fail none none
          | .ok (some (cursor, count)) =>
            if count > UINT32_MAX then zip_init_fail none none else
            zip_init_loop hash64 mktime data mount root rootLength count cursor [] []

/-! ## `modules/filesystem/filesystem.c`: path checks -/

/-- Source: `valid`, the `do ... while (c != '\0')` loop with `path` at index
`i`.  The byte `*path` after the increment is read only when `c` is a dot. -/
def valid_loop (path : List Nat) : Nat → Nat → Run Bool
  | 0, _ => .error .diverge
  | fuel + 1, i =>
    match byte_at path i with
    | .error e => .error e
    | .ok c =>
      if c = 58 ∨ c = 92 then .ok false
      else if c = 46 then
        match byte_at path (i + 1) with
        | .error e => .error e
        | .ok d =>
          if d = 46 then .ok false
          else if c ≠ 0 then valid_loop path fuel (i + 1) else .ok true
      else if c ≠ 0 then valid_loop path fuel (i + 1) else .ok true

/-- Source: `valid`.  `path` is the object the pointer points into. -/
def valid (path : List Nat) : Run Bool := valid_loop path path.length 0

/-- The path without leading slashes, every later run of slashes reduced to
one slash, and no slash at the end: the function that `normalize` is shown
to compute. -/
def squeeze : List Nat → List Nat
  | [] => []
  | c :: l =>
    if c = 47 then squeeze l
    else
      match l with
      | [] => [c]
      | d :: _ =>
        if d = 47 then (if squeeze l = [] then [c] else c :: 47 :: squeeze l)
        else c :: squeeze l

/-- The rest of a string after the inner loop of `normalize`: slashes that
are followed by a slash or by the end of the string are passed over. -/
def skip_slashes : List Nat → List Nat
  | [] => []
  | c :: l =>
    if c = 47 then
      match l with
      | [] => []
      | d :: _ => if d = 47 then skip_slashes l else c :: l
    else c :: l

/-- The words of the spec for `normalize`: the non-empty segments between
slashes, in order, joined by single slashes. -/
def normalize_spec (p : List Nat) : List Nat :=
  List.intercalate [47] ((p.splitOn 47).filter (fun seg => decide (seg ≠ [])))

/-! ## `modules/filesystem/filesystem.c`: the mount table

The host file system (`core/fs.h`), the allocator and the inflate routine of
`lib/stb` are outside the sources; the archive code is embedded over a `Host`
that supplies them. -/

/-- The C library routine `memcpy(dst, src, n)`, as the `n` bytes it copies
from the start of the object `src`. -/
def memcpy (src : List Nat) (n : Nat) : Run (List Nat) :=
  if n ≤ src.length then .ok ((src.take n).map (fun b => b % 256)) else .error .outOfBounds

/-- The C library routine `strncmp(s1, s2, n)` from index `i` on: the
difference of the first pair of bytes that differ, 0 when `n` bytes agree or
both strings end. -/
def strncmp (s1 s2 : List Nat) : Nat → Nat → Run Int
  | 0, _ => .ok 0
  | n + 1, i =>
    match byte_at s1 i, byte_at s2 i with
    | .ok c1, .ok c2 =>
      if c1 ≠ c2 then .ok ((c1 : Int) - (c2 : Int))
      else if c1 = 0 then .ok 0
      else strncmp s1 s2 n (i + 1)
    | _, _ => .error .outOfBounds

/-- The C library routine `strcmp(s1, s2)`: `strncmp` without a bound; the
comparison ends at the latest at the last byte of the object `s1`. -/
def strcmp (s1 s2 : List Nat) : Run Int := strncmp s1 s2 s1.length 0

/-- Source: `concat`.  `p1` and `p2` are the objects the two pointers point
into; the result is the string written to `buffer` (`char[LOVR_PATH_MAX]` at
every call), `none` for the return value `false`.  The test is computed in
`size_t`. -/
def concat (p1 : List Nat) (length1 : Nat) (p2 : List Nat) (length2 : Nat) :
    Run (Option (List Nat)) :=
  if (length1 + 1 + length2) % 2 ^ 64 ≥ LOVR_PATH_MAX then .ok none else
  if length1 + 1 + length2 ≥ LOVR_PATH_MAX then .error .outOfBounds else
  match memcpy p2 length2, memcpy p1 length1 with
  | .ok s2, .ok s1 => .ok (some (s1 ++ [47] ++ s2))
  | _, _ => .error .outOfBounds

/-- Source: `Archive`, as an entry of the mount table.  `zip` is `none` when
`dir_init` has installed `dir_stat`, `dir_list`, `dir_read` and `dir_close`,
and `some a` when `zip_init` has installed the `zip_*` functions and built
the container part `a`.  `mountpoint` is `none` for `NULL`. -/
structure MountedArchive where
  zip : Option Archive
  path : List Nat
  pathLength : Nat
  mountpoint : Option (List Nat)
  mountpointLength : Nat
  deriving DecidableEq, Repr

/-- Modelled from the spec: the services of the missing `core/fs.h`
(`fs_stat`, `fs_map`, `fs_open` for reading, `fs_read`), of the allocator
(`malloc` returns a buffer or `NULL`) and of the missing `lib/stb`
(`stbi_zlib_decode_noheader_buffer`, here `inflate`: the decoded bytes for a
source and an output size, `none` for a negative return value).  `fs_read`
takes the handle and the number of bytes asked for and gives the bytes read,
at most as many as were asked for; `inflate` gives at most as many bytes as
the output size. -/
structure Host where
  fs_stat : List Nat → Option FileInfo
  fs_map : List Nat → Option (List Nat)
  fs_open : List Nat → Option Nat
  fs_read : Nat → Nat → Option (List Nat)
  malloc : Nat → Bool
  inflate : List Nat → Nat → Option (List Nat)

/-- What a `read` function of an archive leaves in its out-parameters when
it returns `true`: `*data` (`none` for `NULL`, otherwise the bytes of the
allocated buffer, `none` for a byte that was never written) and
`*bytesRead`. -/
structure ReadResult where
  data : Option (List (Option Nat))
  bytesRead : Nat
  deriving DecidableEq, Repr

/-- A buffer of `size` bytes whose first bytes are `written`. -/
def filled (written : List Nat) (size : Nat) : List (Option Nat) :=
  written.map (fun b => some (b % 256)) ++ List.replicate (size - written.length) none

/-- Source: `dir_resolve`.  The result is the string written to `buffer`,
`none` for the return value `false`. -/
def dir_resolve (archive : MountedArchive) (path : List Nat) : Run (Option (List Nat)) :=
  let length := path.length
  match archive.mountpoint with
  | some m =>
    match strncmp (path ++ [0]) (m ++ [0]) archive.mountpointLength 0 with
    | .error e => .error e
    | .ok r =>
      if r ≠ 0 then .ok none
      else
        concat (archive.path ++ [0]) archive.pathLength
          ((path ++ [0]).drop archive.mountpointLength)
          ((length + (2 ^ 64 - archive.mountpointLength)) % 2 ^ 64)
  | none => concat (archive.path ++ [0]) archive.pathLength (path ++ [0]) length

/-- Source: `dir_stat`.  `.ok none` is the return value `false`. -/
def dir_stat (host : Host) (archive : MountedArchive) (path : List Nat) :
    Run (Option FileInfo) :=
  match dir_resolve archive path with
  | .error e => .error e
  | .ok none => .ok none
  | .ok (some resolved) => .ok (host.fs_stat resolved)

/-- Source: `dir_read`.  `bytesRead` is what `*bytesRead` holds at the
call. -/
def dir_read (host : Host) (archive : MountedArchive) (path : List Nat)
    (bytes bytesRead : Nat) : Run (Option ReadResult) :=
  match dir_resolve archive path with
  | .error e => .error e
  | .ok none => .ok none
  | .ok (some resolved) =>
    match host.fs_open resolved with
    | none => .ok none
    | some file =>
      let size : Option Nat :=
        if bytes = SIZE_MAX then (host.fs_stat resolved).map (fun info => info.size)
        else some bytes
      match size with
      | none => .ok none
      | some bytes =>
        if host.malloc bytes = false then .ok (some { data := none, bytesRead := bytesRead })
        else
          match host.fs_read file bytes with
          | none => .ok (some { data := none, bytesRead := bytesRead })
          | some content =>
            .ok (some { data := some (filled content bytes), bytesRead := content.length })

/-- Source: `dir_init`: the return value. -/
def dir_init (host : Host) (path : List Nat) : Bool :=
  match host.fs_stat path with
  | none => false
  | some info => decide (info.type = .FILE_DIRECTORY)

/-- Source: `zip_read`.  `bytes` is the byte limit, `bytesRead` is what
`*bytesRead` holds at the call.  `.ok none` is the return value `false`.  In
the stored case `memcpy(*dst, src, bytes)` copies `bytes` bytes from the
payload into the buffer of `dstSize` bytes. -/
def zip_read (host : Host) (hash64 : List Nat → Nat) (archive : Archive) (path : List Nat)
    (bytes bytesRead : Nat) : Run (Option ReadResult) :=
  match zip_lookup hash64 archive path with
  | .error e => .error e
  | .ok none => .ok none
  | .ok (some index) =>
    match archive.nodes[index]? with
    | none => .error .outOfBounds
    | some node =>
      if node.info.type = .FILE_DIRECTORY then
        .ok (some { data := none, bytesRead := bytesRead })
      else
        let dstSize := node.info.size
        match zip_load archive.data node.offset with
        | .error e => .error e
        | .ok none => .ok (some { data := none, bytesRead := bytesRead })
        | .ok (some (src, srcSize, compressed)) =>
          if host.malloc dstSize = false then
            .ok (some { data := none, bytesRead := bytesRead })
          else
            let bytesRead := if bytes = SIZE_MAX ∨ bytes > dstSize then dstSize else bytes
            if compressed then
              match host.inflate ((archive.data.drop src).take srcSize) dstSize with
              | none => .ok (some { data := none, bytesRead := bytesRead })
              | some out =>
                .ok (some { data := some (filled out dstSize), bytesRead := bytesRead })
            else
              if bytes > dstSize ∨ src + bytes > archive.data.length then .error .outOfBounds
              else
                .ok (some { data := some (filled ((archive.data.drop src).take bytes) dstSize),
                            bytesRead := bytesRead })

/-- The call `archive->stat(archive, path, info)` through the function
pointer. -/
def archive_stat (host : Host) (hash64 : List Nat → Nat) (archive : MountedArchive)
    (path : List Nat) : Run (Option FileInfo) :=
  match archive.zip with
  | none => dir_stat host archive path
  | some a => zip_stat hash64 a path

/-- The call `archive->read(archive, path, bytes, bytesRead, data)` through
the function pointer. -/
def archive_read (host : Host) (hash64 : List Nat → Nat) (archive : MountedArchive)
    (path : List Nat) (bytes bytesRead : Nat) : Run (Option ReadResult) :=
  match archive.zip with
  | none => dir_read host archive path bytes bytesRead
  | some a => zip_read host hash64 a path bytes bytesRead

/-- Source: `archiveStat`, the `FOREACH_ARCHIVE` loop from table index `i`
on: the index of the archive that is returned with the `FileInfo` it
stored, `none` for `NULL`. -/
def archiveStat_loop (host : Host) (hash64 : List Nat → Nat) (path : List Nat) :
    List MountedArchive → Nat → Run (Option (Nat × FileInfo))
  | [], _ => .ok none
  | archive :: rest, i =>
    match archive_stat host hash64 archive path with
    | .error e => .error e
    | .ok (some info) => .ok (some (i, info))
    | .ok none => archiveStat_loop host hash64 path rest (i + 1)

/-- Source: `archiveStat` on the mount table `archives`. -/
def archiveStat (host : Host) (hash64 : List Nat → Nat) (archives : List MountedArchive)
    (path : List Nat) : Run (Option (Nat × FileInfo)) :=
  match valid (path ++ [0]) with
  | .error e => .error e
  | .ok false => .ok none
  | .ok true => archiveStat_loop host hash64 path archives 0

/-- Source: `lovrFilesystemRead`, the `FOREACH_ARCHIVE` loop. -/
def lovrFilesystemRead_loop (host : Host) (hash64 : List Nat → Nat) (path : List Nat)
    (bytes bytesRead : Nat) : List MountedArchive → Run ReadResult
  | [] => .ok { data := none, bytesRead := bytesRead }
  | archive :: rest =>
    match archive_read host hash64 archive path bytes bytesRead with
    | .error e => .error e
    | .ok (some r) => .ok r
    | .ok none => lovrFilesystemRead_loop host hash64 path bytes bytesRead rest

/-- Source: `lovrFilesystemRead` on the mount table `archives`: the pointer
it returns (`data`, `none` for `NULL`) and what `*bytesRead` holds
afterwards. -/
def lovrFilesystemRead (host : Host) (hash64 : List Nat → Nat) (archives : List MountedArchive)
    (path : List Nat) (bytes bytesRead : Nat) : Run ReadResult :=
  match valid (path ++ [0]) with
  | .error e => .error e
  | .ok false => .ok { data := none, bytesRead := bytesRead }
  | .ok true => lovrFilesystemRead_loop host hash64 path bytes bytesRead archives

/-- Source: `lovrFilesystemMount`, the fields of `archive` that are filled
in after the initialisation: the source path and the mountpoint with their
lengths. -/
def lovrFilesystemMount_archive (zip : Option Archive) (path : List Nat)
    (mountpoint : Option (List Nat)) : MountedArchive :=
  { zip := zip
    path := path
    pathLength := path.length
    mountpoint := mountpoint
    mountpointLength := match mountpoint with
      | some m => m.length
      | none => 0 }

/-- Source: `lovrFilesystemMount` on the mount table `archives`: the return
value and the table afterwards.  `zip_init` is only called when `dir_init`
returns `false`. -/
def lovrFilesystemMount (host : Host) (hash64 : List Nat → Nat) (mktime : tm → Nat)
    (archives : List MountedArchive) (path : List Nat) (mountpoint : Option (List Nat))
    (append : Bool) (root : Option (List Nat)) : Run (Bool × List MountedArchive) :=
  let init : Run (Option (Option Archive)) :=
    if dir_init host path then .ok (some none)
    else
      match zip_init hash64 mktime (host.fs_map path) mountpoint root with
      | .error e => .error e
      | .ok none => .ok none
      | .ok (some a) => .ok (some (some a))
  match init with
  | .error e => .error e
  | .ok none => .ok (false, archives)
  | .ok (some zip) =>
    let archive := lovrFilesystemMount_archive zip path mountpoint
    if append then .ok (true, archives ++ [archive]) else .ok (true, archive :: archives)

/-- Source: `lovrFilesystemUnmount` on the mount table `archives`: the
return value and the table afterwards (`arr_splice` takes the matching entry
out). -/
def lovrFilesystemUnmount (path : List Nat) :
    List MountedArchive → Run (Bool × List MountedArchive)
  | [] => .ok (false, [])
  | archive :: rest =>
    match strcmp (archive.path ++ [0]) (path ++ [0]) with
    | .error e => .error e
    | .ok r =>
      if r = 0 then .ok (true, rest)
      else
        match lovrFilesystemUnmount path rest with
        | .error e => .error e
        | .ok (found, rest) => .ok (found, archive :: rest)

/-! ## Sample buffers -/

/-- The `n` little-endian bytes of `v`. -/
def le_bytes : Nat → Nat → List Nat
  | 0, _ => []
  | n + 1, v => v % 256 :: le_bytes n (v / 256)

/-- A legacy end-of-index record (22 bytes) announcing `count` entries whose
index starts at `cursor`. -/
def sample_eocd (count cursor : Nat) : List Nat :=
  le_bytes 4 0x06054b50 ++ le_bytes 4 0 ++ le_bytes 2 count ++ le_bytes 2 count ++
    le_bytes 4 0 ++ le_bytes 4 cursor ++ le_bytes 2 0

/-- A central-index record (46 bytes, then the name) for a stored entry. -/
def sample_central (name : List Nat) (mtime mdate usize offset : Nat) : List Nat :=
  le_bytes 4 0x02014b50 ++ le_bytes 2 20 ++ le_bytes 2 20 ++ le_bytes 2 0 ++ le_bytes 2 0 ++
    le_bytes 2 mtime ++ le_bytes 2 mdate ++ le_bytes 4 0 ++ le_bytes 4 usize ++
    le_bytes 4 usize ++ le_bytes 2 name.length ++ le_bytes 2 0 ++ le_bytes 2 0 ++
    le_bytes 2 0 ++ le_bytes 2 0 ++ le_bytes 4 0 ++ le_bytes 4 offset ++ name

/-- A local header (30 bytes, then the name) followed by the payload, for an
entry with storage method `method`. -/
def sample_local (name payload : List Nat) (method : Nat) : List Nat :=
  le_bytes 4 0x04034b50 ++ le_bytes 2 20 ++ le_bytes 2 0 ++ le_bytes 2 method ++
    le_bytes 2 0 ++ le_bytes 2 0 ++ le_bytes 4 0 ++ le_bytes 4 payload.length ++
    le_bytes 4 payload.length ++ le_bytes 2 name.length ++ le_bytes 2 0 ++ name ++ payload

/-- The bytes of a string literal. -/
def str (s : String) : List Nat := s.toList.map Char.toNat

/-- A container with two empty stored entries named `n1` and `n2`: two
local headers, the two central-index records, the legacy end-of-index
record. -/
def sample_zip (n1 n2 : List Nat) : List Nat :=
  sample_local n1 [] 0 ++ sample_local n2 [] 0 ++
    sample_central n1 0x6000 0x5821 0 0 ++
    sample_central n2 0x6000 0x5821 0 (sample_local n1 [] 0).length ++
    sample_eocd 2 ((sample_local n1 [] 0).length + (sample_local n2 [] 0).length)

/-- A container whose 64-bit end-of-index record announces one entry at the
cursor `2 ^ 64 - 46`: the 64-bit record (56 bytes), its locator (20 bytes),
the legacy record (22 bytes). -/
def sample_zip64_wrap : List Nat :=
  le_bytes 4 0x06064b50 ++ le_bytes 8 44 ++ le_bytes 2 45 ++ le_bytes 2 45 ++
    le_bytes 4 0 ++ le_bytes 4 0 ++ le_bytes 8 1 ++ le_bytes 8 1 ++ le_bytes 8 0 ++
    le_bytes 8 (2 ^ 64 - 46) ++
    (le_bytes 4 0x07064b50 ++ le_bytes 4 0 ++ le_bytes 8 0 ++ le_bytes 4 1) ++
    sample_eocd 0xffff 0xffffffff

/-- A stand-in for the C library routine `mktime`, used on sample buffers. -/
def sample_mktime (t : tm) : Nat := t.tm_year.toNat

/-- The 64-bit FNV-1a hash, a stand-in for `hash64` on sample buffers. -/
def sample_hash64 (s : List Nat) : Nat :=
  s.foldl (fun h c => ((h ^^^ c) * 0x100000001b3) % 2 ^ 64) 0xcbf29ce484222325

/-- A container with one stored entry named `name` with the payload
`payload`: the local header with the payload, the central-index record, the
legacy end-of-index record. -/
def sample_zip1 (name payload : List Nat) : List Nat :=
  sample_local name payload 0 ++
    sample_central name 0x6000 0x5821 payload.length 0 ++
    sample_eocd 1 (sample_local name payload 0).length

/-- A host with the directory `/data`, the containers `x.zip` and `y.zip`
(each with one stored entry `readme.txt`, of different content) and the file
`junk.bin`, which is no container; every allocation succeeds. -/
def sample_host : Host where
  fs_stat := fun p =>
    if p = str "/data" then some ⟨0, 0, .FILE_DIRECTORY⟩
    else if p = str "/data//readme.txt" then some ⟨2, 0, .FILE_REGULAR⟩
    else none
  fs_map := fun p =>
    if p = str "y.zip" then some (sample_zip1 (str "readme.txt") [1, 2, 3])
    else if p = str "x.zip" then some (sample_zip1 (str "readme.txt") [4, 5, 6])
    else if p = str "junk.bin" then some [1, 2, 3]
    else none
  fs_open := fun p => if p = str "/data//readme.txt" then some 3 else none
  fs_read := fun _ n => some ([7, 8].take n)
  malloc := fun _ => true
  inflate := fun _ _ => none

/-- The index that `zip_init` builds for the container with the one entry
`readme.txt` of content `payload`, mounted at `m`. -/
def sample_index (payload : List Nat) : Archive :=
  { nodes := [⟨NONE, NONE, some (str "readme.txt"), 0, ⟨payload.length, 124, .FILE_REGULAR⟩⟩,
      ⟨0, NONE, some (str "m"), 0, ⟨payload.length, 124, .FILE_DIRECTORY⟩⟩]
    lookup := [(sample_hash64 (str "m"), 1), (sample_hash64 (str "m/readme.txt"), 0)]
    data := sample_zip1 (str "readme.txt") payload }

/-- The entry of the mount table for the container `source` of the sample
host, mounted at `m`. -/
def sample_mounted (source payload : List Nat) : MountedArchive :=
  { zip := some (sample_index payload)
    path := source
    pathLength := source.length
    mountpoint := some (str "m")
    mountpointLength := 1 }

/-- The mount table with `y.zip` in front of `x.zip`. -/
def sample_table : List MountedArchive :=
  [sample_mounted (str "y.zip") [1, 2, 3], sample_mounted (str "x.zip") [4, 5, 6]]

/-! ## The index builder: paths, parents and child chains

What the index builder is shown to maintain is stated with the notions below:
the canonical path of an entry, the parent of a path as the upward walk
computes it, and the child chain that `zip_list` runs down. -/

/-- Source: the test `index == MAP_NIL` of `zip_init` and `zip_lookup`,
negated: the hash of `path` is in the lookup map. -/
def zip_indexed (hash64 : List Nat → Nat) (lookup : map_t) (path : List Nat) : Prop :=
  map_get lookup (hash64 path) ≠ MAP_NIL

/-- An entry name of 1023 bytes: `d`, 1021 slashes, `b`. -/
def sample_slashes : List Nat := str "d" ++ List.replicate 1021 47 ++ str "b"

/-! ## Lemmas on buffer reads -/

theorem readle_ok_of_le (data : List Nat) :
    ∀ (n i : Nat), i + n ≤ data.length → ∃ v, readle data i n = .ok v := by
  intro n
  induction n with
  | zero => intro i _; exact ⟨0, rfl⟩
  | succ n ih =>
    intro i h
    obtain ⟨r, hr⟩ := ih (i + 1) (by omega)
    have hi : i < data.length := by omega
    refine ⟨data[i] % 256 + 256 * r, ?_⟩
    simp [readle, hr, List.getElem?_eq_getElem hi]

theorem readle_le_of_ok (data : List Nat) :
    ∀ (n i v : Nat), 0 < n → readle data i n = .ok v → i + n ≤ data.length := by
  intro n
  induction n with
  | zero => intro i v h; omega
  | succ n ih =>
    intro i v _ h
    unfold readle at h
    cases hb : data[i]? with
    | none => simp [hb] at h
    | some b =>
      have hi : i < data.length := by
        by_contra hc
        rw [List.getElem?_eq_none (by omega)] at hb
        cases hb
      rcases Nat.eq_zero_or_pos n with hn | hn
      · omega
      · cases hr : readle data (i + 1) n with
        | error e => simp [hb, hr] at h
        | ok r => have := ih (i + 1) r hn hr; omega

theorem readle_lt (data : List Nat) :
    ∀ (n i v : Nat), readle data i n = .ok v → v < 256 ^ n := by
  intro n
  induction n with
  | zero => intro i v h; simp [readle] at h; omega
  | succ n ih =>
    intro i v h
    unfold readle at h
    cases hb : data[i]? with
    | none => simp [hb] at h
    | some b =>
      cases hr : readle data (i + 1) n with
      | error e => simp [hb, hr] at h
      | ok r =>
        simp [hb, hr] at h
        have := ih (i + 1) r hr
        have hb256 : b % 256 < 256 := Nat.mod_lt _ (by decide)
        rw [pow_succ]
        omega

theorem readle_error (data : List Nat) :
    ∀ (n i : Nat) (e : Fault), readle data i n = .error e → e = .outOfBounds := by
  intro n
  induction n with
  | zero => intro i e h; simp [readle] at h
  | succ n ih =>
    intro i e h
    unfold readle at h
    cases hb : data[i]? with
    | none => simp [hb] at h; exact h.symm
    | some b =>
      cases hr : readle data (i + 1) n with
      | error e2 =>
        simp [hb, hr] at h
        rw [← h]; exact ih (i + 1) e2 hr
      | ok r => simp [hb, hr] at h

theorem readu16_lt {data : List Nat} {i v : Nat} (h : readu16 data i = .ok v) :
    v < 65536 := readle_lt data 2 i v h

theorem readu32_lt {data : List Nat} {i v : Nat} (h : readu32 data i = .ok v) :
    v < 4294967296 := readle_lt data 4 i v h

theorem readu16_le {data : List Nat} {i v : Nat} (h : readu16 data i = .ok v) :
    i + 2 ≤ data.length := readle_le_of_ok data 2 i v (by decide) h

theorem readu32_le {data : List Nat} {i v : Nat} (h : readu32 data i = .ok v) :
    i + 4 ≤ data.length := readle_le_of_ok data 4 i v (by decide) h

theorem readu16_ok (data : List Nat) (i : Nat) (h : i + 2 ≤ data.length) :
    ∃ v, readu16 data i = .ok v := readle_ok_of_le data 2 i h

theorem readu32_ok (data : List Nat) (i : Nat) (h : i + 4 ≤ data.length) :
    ∃ v, readu32 data i = .ok v := readle_ok_of_le data 4 i h

theorem readu64_ok (data : List Nat) (i : Nat) (h : i + 8 ≤ data.length) :
    ∃ v, readu64 data i = .ok v := readle_ok_of_le data 8 i h

/-! ## `zip_open` -/

theorem zip_open_legacy_ne_false (data : List Nat) (p : Nat) :
    zip_open_legacy data p ≠ .ok none := by
  unfold zip_open_legacy
  cases readu16 data (p + 10) with
  | error e => simp
  | ok c =>
    cases readu32 data (p + 16) with
    | error e => simp
    | ok k => simp

/-- C3. `zip_open` returns `false` exactly when the buffer has fewer than 22
bytes or the little-endian 32-bit word 22 bytes before its end is not the
legacy end-of-index signature `0x06054b50`.  Trailing bytes after the legacy
record therefore make the buffer rejected, unless the word they leave 22 bytes
before the end is again the signature. -/
theorem zip_open_false_iff (data : List Nat) :
    zip_open data = .ok none ↔
      (data.length < 22 ∨ readu32 data (data.length - 22) ≠ .ok 0x06054b50) := by
  unfold zip_open
  by_cases hs : data.length < 22
  · simp [hs]
  · obtain ⟨sig, hsig⟩ := readu32_ok data (data.length - 22) (by omega)
    simp only [hs, hsig, if_false, false_or]
    by_cases hsg : sig = 0x06054b50
    · subst hsg
      simp only [ne_eq, not_true_eq_false, if_false, iff_false]
      have hl := zip_open_legacy_ne_false data (data.length - 22)
      repeat' split
      all_goals first | exact hl | simp
    · simp [hsg]

/-- When the length and signature checks of `zip_next` pass, it stores the
entry read from the fixed record and the advanced cursor. -/
theorem zip_next_of_checks (mktime : tm → Nat) (data : List Nat) (c : Nat)
    (hsize : data.length < 2 ^ 63) (hlen : c + 46 ≤ data.length)
    (hsig : readu32 data c = .ok 0x02014b50) :
    ∃ t d usize n off e k,
      readu16 data (c + 12) = .ok t ∧ readu16 data (c + 14) = .ok d ∧
      readu32 data (c + 24) = .ok usize ∧ readu16 data (c + 28) = .ok n ∧
      readu32 data (c + 42) = .ok off ∧ readu16 data (c + 30) = .ok e ∧
      readu16 data (c + 32) = .ok k ∧
      zip_next mktime data c =
        .ok (some (decide (c + 46 + n + e + k < data.length), c + 46 + n + e + k,
          { offset := off, size := usize, modtime := mktime (zip_tm t d),
            name := c + 46, length := n })) := by
  obtain ⟨t, ht⟩ := readu16_ok data (c + 12) (by omega)
  obtain ⟨d, hd⟩ := readu16_ok data (c + 14) (by omega)
  obtain ⟨usize, hu⟩ := readu32_ok data (c + 24) (by omega)
  obtain ⟨n, hn⟩ := readu16_ok data (c + 28) (by omega)
  obtain ⟨off, ho⟩ := readu32_ok data (c + 42) (by omega)
  obtain ⟨e, he⟩ := readu16_ok data (c + 30) (by omega)
  obtain ⟨k, hk⟩ := readu16_ok data (c + 32) (by omega)
  refine ⟨t, d, usize, n, off, e, k, ht, hd, hu, hn, ho, he, hk, ?_⟩
  have hn16 := readu16_lt hn
  have he16 := readu16_lt he
  have hk16 := readu16_lt hk
  have hsz : (2 : Nat) ^ 63 = 9223372036854775808 := by norm_num
  have hm1 : (c + 46) % 2 ^ 64 = c + 46 := Nat.mod_eq_of_lt (by omega)
  have hm2 : (c + (46 + n + e + k)) % 2 ^ 64 = c + 46 + n + e + k := by
    rw [Nat.mod_eq_of_lt (by omega)]; omega
  unfold zip_next
  simp only [hm1, hm2, hsig, ht, hd, hu, hn, ho, he, hk]
  rw [if_neg (by omega)]
  simp

/-- The checks of `zip_next` have passed whenever it stores an entry. -/
theorem zip_next_some_inv (mktime : tm → Nat) (data : List Nat) (c : Nat)
    (r : Bool) (c2 : Nat) (info : zip_info)
    (h : zip_next mktime data c = .ok (some (r, c2, info))) :
    ¬ data.length < (c + 46) % 2 ^ 64 ∧ readu32 data c = .ok 0x02014b50 ∧
    ∃ t d, readu16 data (c + 12) = .ok t ∧ readu16 data (c + 14) = .ok d ∧
      info.modtime = mktime (zip_tm t d) := by
  unfold zip_next at h
  by_cases h1 : data.length < (c + 46) % 2 ^ 64
  · rw [if_pos h1] at h
    simp at h
  rw [if_neg h1] at h
  cases hs : readu32 data c with
  | error e => simp [hs] at h
  | ok sig =>
    simp only [hs] at h
    by_cases h2 : sig ≠ 0x02014b50
    · simp [h2] at h
    simp only [h2, if_false] at h
    have h2 : sig = 0x02014b50 := by
      by_contra hc
      exact h2 hc
    refine ⟨h1, by rw [h2], ?_⟩
    split at h
    · rename_i t d usize n off e k ht hd _ _ _ _ _
      simp at h
      refine ⟨t, d, ht, hd, ?_⟩
      rw [← h.2.2]
    · simp at h

/-- Whenever `zip_next` returns `true` on a buffer below `2 ^ 63` bytes, the
fixed record, the file name it refers to and the advanced cursor lie inside
the buffer. -/
theorem zip_next_true_inside (mktime : tm → Nat) (data : List Nat) (c c2 : Nat)
    (info : zip_info) (hsize : data.length < 2 ^ 63)
    (h : zip_next mktime data c = .ok (some (true, c2, info))) :
    info.name = c + 46 ∧ info.name + info.length ≤ c2 ∧ c2 < data.length := by
  obtain ⟨hlen, hsig, _⟩ := zip_next_some_inv mktime data c true c2 info h
  have hb := readu32_le hsig
  have hsz : (2 : Nat) ^ 63 = 9223372036854775808 := by norm_num
  have hm : (c + 46) % 2 ^ 64 = c + 46 := Nat.mod_eq_of_lt (by omega)
  rw [hm] at hlen
  obtain ⟨t, d, usize, n, off, e, k, _, _, _, _, _, _, _, hz⟩ :=
    zip_next_of_checks mktime data c hsize (by omega) hsig
  rw [hz] at h
  simp only [Except.ok.injEq, Option.some.injEq, Prod.mk.injEq, decide_eq_true_eq] at h
  obtain ⟨hlt, rfl, rfl⟩ := h
  exact ⟨rfl, by show c + 46 + n ≤ c + 46 + n + e + k; omega, hlt⟩

/-- C5, evaluated at the failing input: with the cursor `2 ^ 64 - 46` that
`zip_open` reads from `sample_zip64_wrap`, no byte of the 98-byte buffer
remains at the cursor, yet `zip_next` does not return `false`: the sum
`cursor + 46` wraps to 0, the length check passes, and the signature is read
outside the buffer. -/
theorem zip_next_wrapped_cursor (mktime : tm → Nat) :
    sample_zip64_wrap.length < (2 ^ 64 - 46) + 46 ∧
    zip_next mktime sample_zip64_wrap (2 ^ 64 - 46) = .error .outOfBounds ∧
    zip_next mktime sample_zip64_wrap (2 ^ 64 - 46) ≠ .ok none :=
  ⟨by decide, rfl, by rw [show zip_next mktime sample_zip64_wrap (2 ^ 64 - 46) =
    .error .outOfBounds from rfl]; simp⟩

/-- What `zip_next` does when `cursor + 46` does not wrap: it returns `false`
when fewer than 46 bytes remain or the signature is absent. -/
theorem zip_next_false_of_no_wrap (mktime : tm → Nat) (data : List Nat) (c : Nat)
    (hc : c + 46 < 2 ^ 64)
    (h : data.length < c + 46 ∨ readu32 data c ≠ .ok 0x02014b50) :
    zip_next mktime data c = .ok none := by
  unfold zip_next
  rw [Nat.mod_eq_of_lt hc]
  by_cases h1 : data.length < c + 46
  · simp [h1]
  · obtain ⟨sig, hs⟩ := readu32_ok data (c) (by omega)
    rcases h with h | h
    · exact absurd h h1
    · have : sig ≠ 0x02014b50 := by
        intro hc2
        rw [hs, hc2] at h
        exact h rfl
      simp [h1, hs, this]

/-- C6. Where `zip_next` passes its length and signature checks at cursor
`c`, the entry it stores has size the 32-bit word at `c + 24`, length the
16-bit word at `c + 28`, offset the 32-bit word at `c + 42` and its name at
byte `c + 46`, and the cursor becomes `c + 46 + nameLength + extraLength +
commentLength`, the last two being the 16-bit words at `c + 30` and `c + 32`. -/
theorem zip_next_entry (mktime : tm → Nat) (data : List Nat) (c : Nat)
    (hsize : data.length < 2 ^ 63) (hlen : c + 46 ≤ data.length)
    (hsig : readu32 data c = .ok 0x02014b50) :
    ∃ usize n off e k r info,
      readu32 data (c + 24) = .ok usize ∧ readu16 data (c + 28) = .ok n ∧
      readu32 data (c + 42) = .ok off ∧ readu16 data (c + 30) = .ok e ∧
      readu16 data (c + 32) = .ok k ∧
      zip_next mktime data c = .ok (some (r, c + 46 + n + e + k, info)) ∧
      info.size = usize ∧ info.length = n ∧ info.offset = off ∧ info.name = c + 46 := by
  obtain ⟨t, d, usize, n, off, e, k, _, _, hu, hn, ho, he, hk, hz⟩ :=
    zip_next_of_checks mktime data c hsize hlen hsig
  exact ⟨usize, n, off, e, k, _, _, hu, hn, ho, he, hk, hz, rfl, rfl, rfl, rfl⟩

set_option maxRecDepth 20000 in
/-- Witness for C6: the first central-index record of a two-entry container. -/
theorem zip_next_entry_witness :
    (sample_zip (str "a/b/c.txt") (str "a/b/d.txt")).length < 2 ^ 63 ∧
    78 + 46 ≤ (sample_zip (str "a/b/c.txt") (str "a/b/d.txt")).length ∧
    ∃ usize n off e k r info,
      readu32 (sample_zip (str "a/b/c.txt") (str "a/b/d.txt")) (78 + 24) = .ok usize ∧
      readu16 (sample_zip (str "a/b/c.txt") (str "a/b/d.txt")) (78 + 28) = .ok n ∧
      readu32 (sample_zip (str "a/b/c.txt") (str "a/b/d.txt")) (78 + 42) = .ok off ∧
      readu16 (sample_zip (str "a/b/c.txt") (str "a/b/d.txt")) (78 + 30) = .ok e ∧
      readu16 (sample_zip (str "a/b/c.txt") (str "a/b/d.txt")) (78 + 32) = .ok k ∧
      zip_next (fun _ => 0) (sample_zip (str "a/b/c.txt") (str "a/b/d.txt")) 78 =
        .ok (some (r, 78 + 46 + n + e + k, info)) ∧
      info.size = usize ∧ info.length = n ∧ info.offset = off ∧ info.name = 78 + 46 :=
  have hlen : (sample_zip (str "a/b/c.txt") (str "a/b/d.txt")).length = 210 := rfl
  ⟨by rw [hlen]; norm_num, by rw [hlen]; norm_num,
    zip_next_entry (fun _ => 0) (sample_zip (str "a/b/c.txt") (str "a/b/d.txt")) 78
      (by rw [hlen]; norm_num) (by rw [hlen]; norm_num) rfl⟩

/-! ## DOS time stamps -/

theorem shiftLeft_and_shiftLeft (a b i : Nat) :
    (a <<< i) &&& (b <<< i) = (a &&& b) <<< i := by
  apply Nat.eq_of_testBit_eq
  intro j
  simp only [Nat.testBit_and, Nat.testBit_shiftLeft]
  by_cases h : j ≥ i <;> simp [h]

theorem zip_tm_fields (t d : Nat) :
    (zip_tm t d).tm_year = ((d / 2 ^ 9 % 2 ^ 7 : Nat) : Int) + 80 ∧
    (zip_tm t d).tm_mon = ((d / 2 ^ 5 % 2 ^ 4 : Nat) : Int) - 1 ∧
    (zip_tm t d).tm_mday = ((d % 2 ^ 5 : Nat) : Int) ∧
    (zip_tm t d).tm_hour = ((t / 2 ^ 11 % 2 ^ 5 : Nat) : Int) ∧
    (zip_tm t d).tm_min = ((t / 2 ^ 5 % 2 ^ 6 : Nat) : Int) ∧
    (zip_tm t d).tm_sec = ((2 * (t % 2 ^ 5) : Nat) : Int) := by
  have h127 : (127 : Nat) = 2 ^ 7 - 1 := by decide
  have h15 : (15 : Nat) = 2 ^ 4 - 1 := by decide
  have h31 : (31 : Nat) = 2 ^ 5 - 1 := by decide
  have h63 : (63 : Nat) = 2 ^ 6 - 1 := by decide
  have h62 : (62 : Nat) = (2 ^ 5 - 1) <<< 1 := by decide
  have hsec : (t <<< 1) &&& 62 = 2 * (t % 2 ^ 5) := by
    rw [h62, shiftLeft_and_shiftLeft, Nat.and_pow_two_sub_one_eq_mod, Nat.shiftLeft_eq]
    omega
  unfold zip_tm
  refine ⟨?_, ?_, ?_, ?_, ?_, ?_⟩
  · show (((d >>> 9) &&& 127 : Nat) : Int) + 80 = _
    rw [h127, Nat.and_pow_two_sub_one_eq_mod, Nat.shiftRight_eq_div_pow]
  · show (((d >>> 5) &&& 15 : Nat) : Int) - 1 = _
    rw [h15, Nat.and_pow_two_sub_one_eq_mod, Nat.shiftRight_eq_div_pow]
  · show ((d &&& 31 : Nat) : Int) = _
    rw [h31, Nat.and_pow_two_sub_one_eq_mod]
  · show (((t >>> 11) &&& 31 : Nat) : Int) = _
    rw [h31, Nat.and_pow_two_sub_one_eq_mod, Nat.shiftRight_eq_div_pow]
  · show (((t >>> 5) &&& 63 : Nat) : Int) = _
    rw [h63, Nat.and_pow_two_sub_one_eq_mod, Nat.shiftRight_eq_div_pow]
  · show (((t <<< 1) &&& 62 : Nat) : Int) = _
    rw [hsec]

/-- C9. The calendar record that `zip_next` hands to the epoch conversion is
built from the 16-bit time word `t` at `cursor + 12` and date word `d` at
`cursor + 14`: the year is 1980 plus bits 9 to 15 of `d` (stored as that value
plus 80, counted from 1900), the one-based month is bits 5 to 8 of `d` (stored
minus one), the day is bits 0 to 4 of `d`, the hour is bits 11 to 15 of `t`,
the minute is bits 5 to 10 of `t`, and the second is twice bits 0 to 4 of `t`,
which is even and at most 62. -/
theorem zip_next_calendar (mktime : tm → Nat) (data : List Nat) (c : Nat)
    (r : Bool) (c2 : Nat) (info : zip_info)
    (h : zip_next mktime data c = .ok (some (r, c2, info))) :
    ∃ t d, readu16 data (c + 12) = .ok t ∧ readu16 data (c + 14) = .ok d ∧
      info.modtime = mktime (zip_tm t d) ∧
      (zip_tm t d).tm_year + 1900 = 1980 + ((d / 2 ^ 9 % 2 ^ 7 : Nat) : Int) ∧
      (zip_tm t d).tm_year = ((d / 2 ^ 9 % 2 ^ 7 : Nat) : Int) + 80 ∧
      (zip_tm t d).tm_mon + 1 = ((d / 2 ^ 5 % 2 ^ 4 : Nat) : Int) ∧
      (zip_tm t d).tm_mday = ((d % 2 ^ 5 : Nat) : Int) ∧
      (zip_tm t d).tm_hour = ((t / 2 ^ 11 % 2 ^ 5 : Nat) : Int) ∧
      (zip_tm t d).tm_min = ((t / 2 ^ 5 % 2 ^ 6 : Nat) : Int) ∧
      (zip_tm t d).tm_sec = ((2 * (t % 2 ^ 5) : Nat) : Int) ∧
      (zip_tm t d).tm_sec % 2 = 0 ∧ (zip_tm t d).tm_sec ≤ 62 := by
  obtain ⟨_, _, t, d, ht, hd, hm⟩ := zip_next_some_inv mktime data c r c2 info h
  obtain ⟨hy, hmo, hda, hh, hmi, hse⟩ := zip_tm_fields t d
  refine ⟨t, d, ht, hd, hm, ?_, hy, ?_, hda, hh, hmi, hse, ?_, ?_⟩
  · rw [hy]; ring
  · rw [hmo]; ring
  · rw [hse]; omega
  · rw [hse]; omega

set_option maxRecDepth 20000 in
/-- Witness for C9: the first central-index record of a two-entry container,
stamped 2024-01-01 12:00:00. -/
theorem zip_next_calendar_witness :
    ∃ t d, readu16 (sample_zip (str "a/b/c.txt") (str "a/b/d.txt")) (78 + 12) = .ok t ∧
      readu16 (sample_zip (str "a/b/c.txt") (str "a/b/d.txt")) (78 + 14) = .ok d ∧
      sample_mktime (zip_tm 0x6000 0x5821) = sample_mktime (zip_tm t d) ∧
      (zip_tm t d).tm_year + 1900 = 1980 + ((d / 2 ^ 9 % 2 ^ 7 : Nat) : Int) ∧
      (zip_tm t d).tm_year = ((d / 2 ^ 9 % 2 ^ 7 : Nat) : Int) + 80 ∧
      (zip_tm t d).tm_mon + 1 = ((d / 2 ^ 5 % 2 ^ 4 : Nat) : Int) ∧
      (zip_tm t d).tm_mday = ((d % 2 ^ 5 : Nat) : Int) ∧
      (zip_tm t d).tm_hour = ((t / 2 ^ 11 % 2 ^ 5 : Nat) : Int) ∧
      (zip_tm t d).tm_min = ((t / 2 ^ 5 % 2 ^ 6 : Nat) : Int) ∧
      (zip_tm t d).tm_sec = ((2 * (t % 2 ^ 5) : Nat) : Int) ∧
      (zip_tm t d).tm_sec % 2 = 0 ∧ (zip_tm t d).tm_sec ≤ 62 :=
  zip_next_calendar sample_mktime
    (sample_zip (str "a/b/c.txt") (str "a/b/d.txt")) 78 true 133
    { offset := 0, size := 0, modtime := sample_mktime (zip_tm 0x6000 0x5821),
      name := 124, length := 9 } rfl

/-! ## `zip_load` -/

/-- C7. `zip_load` returns `NULL` whenever the 16-bit storage method at
`offset + 8` is neither 0 nor 8; and whenever it returns a payload, the
compressed flag it stores is true exactly for method 8 and false exactly for
method 0. -/
theorem zip_load_method (data : List Nat) (offset m : Nat)
    (hm : readu16 data (offset + 8) = .ok m) :
    (m ≠ 0 → m ≠ 8 → zip_load data offset = .ok none) ∧
    (∀ payload csize compressed,
      zip_load data offset = .ok (some (payload, csize, compressed)) →
      (compressed = true ↔ m = 8) ∧ (compressed = false ↔ m = 0)) := by
  have hb := readu16_le hm
  obtain ⟨sig, hs⟩ := readu32_ok data (offset) (by omega)
  constructor
  · intro h0 h8
    unfold zip_load
    by_cases h1 : (offset + 30) % 2 ^ 64 ≥ data.length
    · rw [if_pos h1]
    · rw [if_neg h1]
      simp only [hs, hm]
      by_cases h2 : sig ≠ 0x04034b50
      · rw [if_pos h2]
      · rw [if_neg h2, if_pos ⟨h0, h8⟩]
  · intro payload csize compressed h
    unfold zip_load at h
    by_cases h1 : (offset + 30) % 2 ^ 64 ≥ data.length
    · rw [if_pos h1] at h
      simp at h
    rw [if_neg h1] at h
    simp only [hs, hm] at h
    by_cases h2 : sig ≠ 0x04034b50
    · rw [if_pos h2] at h
      simp at h
    rw [if_neg h2] at h
    by_cases h3 : m ≠ 0 ∧ m ≠ 8
    · rw [if_pos h3] at h
      simp at h
    rw [if_neg h3] at h
    have hm08 : m = 0 ∨ m = 8 := by
      by_cases h0 : m = 0
      · exact Or.inl h0
      · by_cases h8 : m = 8
        · exact Or.inr h8
        · exact absurd ⟨h0, h8⟩ h3
    split at h
    · split at h
      · simp at h
        obtain ⟨_, _, hcmp⟩ := h
        rcases hm08 with rfl | rfl <;> cases compressed <;> simp at hcmp ⊢
      · simp at h
    · simp at h

set_option maxRecDepth 20000 in
/-- Witness for C7: a deflate-marked local header for a three-byte payload. -/
theorem zip_load_method_witness :
    readu16 (sample_local (str "a") [1, 2, 3] 8 ++ [0]) (0 + 8) = .ok 8 ∧
    (∀ payload csize compressed,
      zip_load (sample_local (str "a") [1, 2, 3] 8 ++ [0]) 0 =
        .ok (some (payload, csize, compressed)) →
      (compressed = true ↔ 8 = 8) ∧ (compressed = false ↔ 8 = 0)) ∧
    zip_load (sample_local (str "a") [1, 2, 3] 8 ++ [0]) 0 = .ok (some (31, 3, true)) :=
  ⟨rfl, (zip_load_method (sample_local (str "a") [1, 2, 3] 8 ++ [0]) 0 8 (by rfl)).2, rfl⟩

/-- C8. For a local-header offset that fits in 32 bits, whenever `zip_load`
returns a payload: the word at `offset` is the local-header signature
`0x04034b50`, the payload starts at `offset + 30 + nameLength + extraLength`
(the 16-bit words at `offset + 26` and `offset + 28`), the stored compressed
size is the 32-bit word at `offset + 18`, and the payload ends inside the
buffer. -/
theorem zip_load_payload (data : List Nat) (offset payload csize : Nat) (compressed : Bool)
    (hoff : offset < 2 ^ 32)
    (h : zip_load data offset = .ok (some (payload, csize, compressed))) :
    ∃ n e, readu32 data offset = .ok 0x04034b50 ∧
      readu16 data (offset + 26) = .ok n ∧ readu16 data (offset + 28) = .ok e ∧
      payload = offset + 30 + n + e ∧
      readu32 data (offset + 18) = .ok csize ∧
      payload + csize ≤ data.length := by
  have hp32 : (2 : Nat) ^ 32 = 4294967296 := by norm_num
  unfold zip_load at h
  by_cases h1 : (offset + 30) % 2 ^ 64 ≥ data.length
  · rw [if_pos h1] at h
    simp at h
  rw [if_neg h1] at h
  cases hs : readu32 data offset with
  | error e => simp [hs] at h
  | ok sig =>
    simp only [hs] at h
    by_cases h2 : sig ≠ 0x04034b50
    · rw [if_pos h2] at h
      simp at h
    rw [if_neg h2] at h
    have h2 : sig = 0x04034b50 := by
      by_contra hc
      exact h2 hc
    cases hc : readu16 data (offset + 8) with
    | error e => simp [hc] at h
    | ok m =>
      simp only [hc] at h
      by_cases h3 : m ≠ 0 ∧ m ≠ 8
      · rw [if_pos h3] at h
        simp at h
      rw [if_neg h3] at h
      split at h
      · rename_i cs n e hcs hn he
        have hn16 := readu16_lt hn
        have he16 := readu16_lt he
        have hcs32 := readu32_lt hcs
        have hskip : (n + e) % 2 ^ 32 = n + e := Nat.mod_eq_of_lt (by omega)
        have hsum : (offset + 30 + (n + e) + cs) % 2 ^ 64 = offset + 30 + (n + e) + cs :=
          Nat.mod_eq_of_lt (by omega)
        rw [hskip, hsum] at h
        split at h
        · rename_i hle
          simp at h
          obtain ⟨rfl, rfl, _⟩ := h
          exact ⟨n, e, by rw [h2], hn, he, by omega, hcs, by omega⟩
        · simp at h
      · simp at h

set_option maxRecDepth 20000 in
/-- Witness for C8: a stored local header at offset 0 with a three-byte
payload. -/
theorem zip_load_payload_witness :
    (0 : Nat) < 2 ^ 32 ∧
    zip_load (sample_local (str "a") [1, 2, 3] 0 ++ [0]) 0 = .ok (some (31, 3, false)) ∧
    ∃ n e, readu32 (sample_local (str "a") [1, 2, 3] 0 ++ [0]) 0 = .ok 0x04034b50 ∧
      readu16 (sample_local (str "a") [1, 2, 3] 0 ++ [0]) (0 + 26) = .ok n ∧
      readu16 (sample_local (str "a") [1, 2, 3] 0 ++ [0]) (0 + 28) = .ok e ∧
      31 = 0 + 30 + n + e ∧
      readu32 (sample_local (str "a") [1, 2, 3] 0 ++ [0]) (0 + 18) = .ok 3 ∧
      31 + 3 ≤ (sample_local (str "a") [1, 2, 3] 0 ++ [0]).length :=
  ⟨by norm_num, rfl,
    zip_load_payload (sample_local (str "a") [1, 2, 3] 0 ++ [0]) 0 31 3 false
      (by norm_num) rfl⟩


/-! ## The index builder -/

/-- `zip_init` up to its `for` loop, for a non-null mountpoint, no root
filter and a buffer that `zip_open` accepts. -/
theorem zip_init_eq_loop (hash64 : List Nat → Nat) (mktime : tm → Nat) (data m mount : List Nat)
    (cursor count : Nat) (hm : m.length + 1 < LOVR_PATH_MAX)
    (hnorm : normalize (m ++ [0]) m.length = .ok mount)
    (hopen : zip_open data = .ok (some (cursor, count))) (hcount : count ≤ UINT32_MAX) :
    zip_init hash64 mktime (some data) (some m) none =
      zip_init_loop hash64 mktime data (mount ++ [47]) none 0 count cursor [] [] := by
  unfold zip_init
  simp only [hnorm, hopen, zip_root]
  rw [if_neg (by omega), if_neg (by omega)]

/-- Two rounds of the `for` loop of `zip_init` on an empty index, both
entries being indexed without fault. -/
theorem zip_init_loop_two (hash64 : List Nat → Nat) (mktime : tm → Nat) (data mount : List Nat)
    (root : Option (List Nat)) (rootLength c0 c1 c2 : Nat) (info1 info2 : zip_info)
    (n1 n2 : List zip_node) (l1 l2 : map_t)
    (hn1 : zip_next mktime data c0 = .ok (some (true, c1, info1)))
    (hx1 : zip_index hash64 data mount root rootLength info1 [] [] = .ok (n1, l1))
    (hn2 : zip_next mktime data c1 = .ok (some (true, c2, info2)))
    (hx2 : zip_index hash64 data mount root rootLength info2 n1 l1 = .ok (n2, l2)) :
    zip_init_loop hash64 mktime data mount root rootLength 2 c0 [] [] =
      .ok (some { nodes := n2, lookup := l2, data := data }) := by
  simp only [zip_init_loop, hn1, hx1, hn2, hx2]

/-- Two rounds of the `for` loop of `zip_init` on an empty index, the second
entry faulting. -/
theorem zip_init_loop_two_fault (hash64 : List Nat → Nat) (mktime : tm → Nat)
    (data mount : List Nat) (root : Option (List Nat)) (rootLength c0 c1 c2 : Nat)
    (info1 info2 : zip_info) (n1 : List zip_node) (l1 : map_t) (e : Fault)
    (hn1 : zip_next mktime data c0 = .ok (some (true, c1, info1)))
    (hx1 : zip_index hash64 data mount root rootLength info1 [] [] = .ok (n1, l1))
    (hn2 : zip_next mktime data c1 = .ok (some (true, c2, info2)))
    (hx2 : zip_index hash64 data mount root rootLength info2 n1 l1 = .error e) :
    zip_init_loop hash64 mktime data mount root rootLength 2 c0 [] [] = .error e := by
  simp only [zip_init_loop, hn1, hx1, hn2, hx2]

/-- With at least one entry announced and a cursor at or past the end of the
buffer whose sum with 46 does not wrap (every legacy 32-bit cursor is such),
the loop of `zip_init` returns `false`. -/
theorem zip_init_loop_past_end (hash64 : List Nat → Nat) (mktime : tm → Nat)
    (data mount : List Nat) (root : Option (List Nat)) (rootLength count cursor : Nat)
    (nodes : List zip_node) (lookup : map_t)
    (hc : cursor + 46 < 2 ^ 64) (hpast : data.length ≤ cursor) :
    zip_init_loop hash64 mktime data mount root rootLength (count + 1) cursor nodes lookup =
      .ok none := by
  have h := zip_next_false_of_no_wrap mktime data cursor hc (Or.inl (by omega))
  simp only [zip_init_loop, h]
  rfl

/-- The part of C10 that the code does satisfy: for a non-null mountpoint
and no root filter, a buffer that `zip_open` accepts with at least one and at
most `UINT32_MAX` entries and a cursor at or past its end makes `zip_init`
return `false`, provided `cursor + 46` does not wrap. -/
theorem zip_init_past_end (hash64 : List Nat → Nat) (mktime : tm → Nat) (data m mount : List Nat)
    (cursor count : Nat) (hm : m.length + 1 < LOVR_PATH_MAX)
    (hnorm : normalize (m ++ [0]) m.length = .ok mount)
    (hopen : zip_open data = .ok (some (cursor, count))) (hcount : 1 ≤ count)
    (hmax : count ≤ UINT32_MAX)
    (hc : cursor + 46 < 2 ^ 64) (hpast : data.length ≤ cursor) :
    zip_init hash64 mktime (some data) (some m) none = .ok none := by
  rw [zip_init_eq_loop hash64 mktime data m mount cursor count hm hnorm hopen hmax]
  obtain ⟨k, rfl⟩ : ∃ k, count = k + 1 := ⟨count - 1, by omega⟩
  exact zip_init_loop_past_end hash64 mktime data _ none 0 k cursor [] [] hc hpast

/-- What `zip_index` does with an entry that is not filtered out, when no
root filter is set: it walks the canonical path upward.  `length` is the name
length after a final slash is trimmed and `type` the type that goes with it. -/
theorem zip_index_eq_walk (hash64 : List Nat → Nat) (data mount rest : List Nat)
    (info : zip_info) (nodes : List zip_node) (lookup : map_t) (last length : Nat)
    (type : FileType)
    (hlast : byte_at data (info.name + info.length - 1) = .ok last)
    (hlen : length = if last = 47 then (info.length + (2 ^ 16 - 1)) % 2 ^ 16 else info.length)
    (htype : type = if last = 47 then .FILE_DIRECTORY else .FILE_REGULAR)
    (hfit : mount.length + length < LOVR_PATH_MAX)
    (hnorm : normalize (data.drop info.name) length = .ok rest) :
    zip_index hash64 data mount none 0 info nodes lookup =
      zip_walk hash64 (mount ++ rest) (rest.length + mount.length + 2)
        (rest.length + mount.length) (rest.length + mount.length)
        { firstChild := NONE, nextSibling := NONE, filename := none, offset := info.offset,
          info := { size := info.size, lastModified := info.modtime, type := type } }
        nodes lookup := by
  have hmod : ∀ x, x < LOVR_PATH_MAX → ¬ (x + 2 ^ 64) % 2 ^ 64 ≥ LOVR_PATH_MAX := by
    intro x hx
    unfold LOVR_PATH_MAX at hx ⊢
    omega
  subst hlen htype
  unfold zip_index
  simp only [hlast, Nat.add_zero, Nat.sub_zero]
  rw [if_neg (hmod _ hfit), hnorm]
  by_cases h : last = 47 <;> simp [h]

/-- The defect behind C2: when the canonical path of an entry is already
indexed at the first round of the walk, the pending node has no child yet, so
`childIndex` is `~0u` and `nodes.data[childIndex]` lies outside the array. -/
theorem zip_walk_indexed_fault (hash64 : List Nat → Nat) (path : List Nat)
    (fuel length slash : Nat) (node : zip_node) (nodes : List zip_node) (lookup : map_t)
    (hlen : length ≠ SIZE_MAX)
    (hidx : map_get lookup (hash64 (path.take length)) ≠ MAP_NIL)
    (hnode : node.firstChild = NONE) (hsize : nodes.length ≤ NONE) :
    zip_walk hash64 path (fuel + 1) length slash node nodes lookup = .error .outOfBounds := by
  have hnone : nodes[NONE]? = none := List.getElem?_eq_none hsize
  simp only [zip_walk, if_pos hlen, if_neg hidx, hnode, hnone]
  split <;> simp_all

/-- The upward walk for `/a/b/c.txt` on an empty index, when `hash64` does
not collide on the four paths it indexes. -/
theorem sample_walk_c (hash64 : List Nat → Nat) (t : Nat)
    (h12 : hash64 [47, 97, 47, 98] ≠ hash64 [47, 97, 47, 98, 47, 99, 46, 116, 120, 116])
    (h13 : hash64 [47, 97] ≠ hash64 [47, 97, 47, 98, 47, 99, 46, 116, 120, 116])
    (h14 : hash64 [] ≠ hash64 [47, 97, 47, 98, 47, 99, 46, 116, 120, 116])
    (h23 : hash64 [47, 97] ≠ hash64 [47, 97, 47, 98])
    (h24 : hash64 [] ≠ hash64 [47, 97, 47, 98])
    (h34 : hash64 [] ≠ hash64 [47, 97]) :
    zip_walk hash64 [47, 97, 47, 98, 47, 99, 46, 116, 120, 116] 12 10 10
      ⟨NONE, NONE, none, 0, ⟨0, t, .FILE_REGULAR⟩⟩ [] [] =
    .ok ([⟨NONE, NONE, some [99, 46, 116, 120, 116], 0, ⟨0, t, .FILE_REGULAR⟩⟩,
          ⟨0, NONE, some [98], 0, ⟨0, t, .FILE_DIRECTORY⟩⟩,
          ⟨1, NONE, some [97], 0, ⟨0, t, .FILE_DIRECTORY⟩⟩,
          ⟨2, NONE, some [], 0, ⟨0, t, .FILE_DIRECTORY⟩⟩],
         [(hash64 [], 3), (hash64 [47, 97], 2), (hash64 [47, 97, 47, 98], 1),
          (hash64 [47, 97, 47, 98, 47, 99, 46, 116, 120, 116], 0)]) := by
  simp [zip_walk, map_get, map_set, zip_segment, MAP_NIL, SIZE_MAX, NONE, h12.symm, h13.symm,
    h14.symm, h23.symm, h24.symm, h34.symm]

/-- The upward walk for `/a/b/d.txt` on the index left by `sample_walk_c`. -/
theorem sample_walk_d (hash64 : List Nat → Nat) (t : Nat)
    (h51 : hash64 [47, 97, 47, 98, 47, 100, 46, 116, 120, 116] ≠
      hash64 [47, 97, 47, 98, 47, 99, 46, 116, 120, 116])
    (h52 : hash64 [47, 97, 47, 98, 47, 100, 46, 116, 120, 116] ≠ hash64 [47, 97, 47, 98])
    (h53 : hash64 [47, 97, 47, 98, 47, 100, 46, 116, 120, 116] ≠ hash64 [47, 97])
    (h54 : hash64 [47, 97, 47, 98, 47, 100, 46, 116, 120, 116] ≠ hash64 [])
    (h23 : hash64 [47, 97] ≠ hash64 [47, 97, 47, 98])
    (h24 : hash64 [] ≠ hash64 [47, 97, 47, 98]) :
    zip_walk hash64 [47, 97, 47, 98, 47, 100, 46, 116, 120, 116] 12 10 10
      ⟨NONE, NONE, none, 39, ⟨0, t, .FILE_REGULAR⟩⟩
      [⟨NONE, NONE, some [99, 46, 116, 120, 116], 0, ⟨0, t, .FILE_REGULAR⟩⟩,
          ⟨0, NONE, some [98], 0, ⟨0, t, .FILE_DIRECTORY⟩⟩,
          ⟨1, NONE, some [97], 0, ⟨0, t, .FILE_DIRECTORY⟩⟩,
          ⟨2, NONE, some [], 0, ⟨0, t, .FILE_DIRECTORY⟩⟩]
      [(hash64 [], 3), (hash64 [47, 97], 2), (hash64 [47, 97, 47, 98], 1),
          (hash64 [47, 97, 47, 98, 47, 99, 46, 116, 120, 116], 0)] =
    .ok ([⟨NONE, NONE, some [99, 46, 116, 120, 116], 0, ⟨0, t, .FILE_REGULAR⟩⟩,
          ⟨4, NONE, some [98], 0, ⟨0, t, .FILE_DIRECTORY⟩⟩,
          ⟨1, NONE, some [97], 0, ⟨0, t, .FILE_DIRECTORY⟩⟩,
          ⟨2, NONE, some [], 0, ⟨0, t, .FILE_DIRECTORY⟩⟩,
          ⟨NONE, 0, some [100, 46, 116, 120, 116], 39, ⟨0, t, .FILE_REGULAR⟩⟩],
         [(hash64 [47, 97, 47, 98, 47, 100, 46, 116, 120, 116], 4),
          (hash64 [], 3), (hash64 [47, 97], 2), (hash64 [47, 97, 47, 98], 1),
          (hash64 [47, 97, 47, 98, 47, 99, 46, 116, 120, 116], 0)]) := by
  simp [zip_walk, map_get, map_set, zip_segment, MAP_NIL, SIZE_MAX, NONE, h51, h52, h53, h54,
    h51.symm, h52.symm, h53.symm, h54.symm, h23, h24, h23.symm, h24.symm]

/-- Lookups of `a` and `a/b` in the index left by `sample_walk_d`: both
paths are absent, because every indexed path but the root starts with a slash. -/
theorem sample_lookup_absent (hash64 : List Nat → Nat) (t : Nat) (data : List Nat)
    (h16 : hash64 [47, 97, 47, 98, 47, 99, 46, 116, 120, 116] ≠ hash64 [97])
    (h26 : hash64 [47, 97, 47, 98, 47, 100, 46, 116, 120, 116] ≠ hash64 [97])
    (h36 : hash64 [47, 97, 47, 98] ≠ hash64 [97])
    (h46 : hash64 [47, 97] ≠ hash64 [97])
    (h56 : hash64 [] ≠ hash64 [97])
    (h17 : hash64 [47, 97, 47, 98, 47, 99, 46, 116, 120, 116] ≠ hash64 [97, 47, 98])
    (h27 : hash64 [47, 97, 47, 98, 47, 100, 46, 116, 120, 116] ≠ hash64 [97, 47, 98])
    (h37 : hash64 [47, 97, 47, 98] ≠ hash64 [97, 47, 98])
    (h47 : hash64 [47, 97] ≠ hash64 [97, 47, 98])
    (h57 : hash64 [] ≠ hash64 [97, 47, 98]) :
    zip_stat hash64
      ⟨[⟨NONE, NONE, some [99, 46, 116, 120, 116], 0, ⟨0, t, .FILE_REGULAR⟩⟩,
          ⟨4, NONE, some [98], 0, ⟨0, t, .FILE_DIRECTORY⟩⟩,
          ⟨1, NONE, some [97], 0, ⟨0, t, .FILE_DIRECTORY⟩⟩,
          ⟨2, NONE, some [], 0, ⟨0, t, .FILE_DIRECTORY⟩⟩,
          ⟨NONE, 0, some [100, 46, 116, 120, 116], 39, ⟨0, t, .FILE_REGULAR⟩⟩],
         [(hash64 [47, 97, 47, 98, 47, 100, 46, 116, 120, 116], 4),
          (hash64 [], 3), (hash64 [47, 97], 2), (hash64 [47, 97, 47, 98], 1),
          (hash64 [47, 97, 47, 98, 47, 99, 46, 116, 120, 116], 0)], data⟩ [97] = .ok none ∧
    zip_stat hash64
      ⟨[⟨NONE, NONE, some [99, 46, 116, 120, 116], 0, ⟨0, t, .FILE_REGULAR⟩⟩,
          ⟨4, NONE, some [98], 0, ⟨0, t, .FILE_DIRECTORY⟩⟩,
          ⟨1, NONE, some [97], 0, ⟨0, t, .FILE_DIRECTORY⟩⟩,
          ⟨2, NONE, some [], 0, ⟨0, t, .FILE_DIRECTORY⟩⟩,
          ⟨NONE, 0, some [100, 46, 116, 120, 116], 39, ⟨0, t, .FILE_REGULAR⟩⟩],
         [(hash64 [47, 97, 47, 98, 47, 100, 46, 116, 120, 116], 4),
          (hash64 [], 3), (hash64 [47, 97], 2), (hash64 [47, 97, 47, 98], 1),
          (hash64 [47, 97, 47, 98, 47, 99, 46, 116, 120, 116], 0)], data⟩ [97, 47, 98] =
      .ok none ∧
    zip_list hash64
      ⟨[⟨NONE, NONE, some [99, 46, 116, 120, 116], 0, ⟨0, t, .FILE_REGULAR⟩⟩,
          ⟨4, NONE, some [98], 0, ⟨0, t, .FILE_DIRECTORY⟩⟩,
          ⟨1, NONE, some [97], 0, ⟨0, t, .FILE_DIRECTORY⟩⟩,
          ⟨2, NONE, some [], 0, ⟨0, t, .FILE_DIRECTORY⟩⟩,
          ⟨NONE, 0, some [100, 46, 116, 120, 116], 39, ⟨0, t, .FILE_REGULAR⟩⟩],
         [(hash64 [47, 97, 47, 98, 47, 100, 46, 116, 120, 116], 4),
          (hash64 [], 3), (hash64 [47, 97], 2), (hash64 [47, 97, 47, 98], 1),
          (hash64 [47, 97, 47, 98, 47, 99, 46, 116, 120, 116], 0)], data⟩ [97, 47, 98] =
      .ok [] := by
  have hn1 : normalize ([97] ++ [0]) ([97] : List Nat).length = .ok [97] := rfl
  have hn2 : normalize ([97, 47, 98] ++ [0]) ([97, 47, 98] : List Nat).length =
      .ok [97, 47, 98] := rfl
  refine ⟨?_, ?_, ?_⟩
  · simp only [zip_stat, zip_lookup, hn1]
    simp [LOVR_PATH_MAX, map_get, MAP_NIL, h16, h26, h36, h46, h56]
  · simp only [zip_stat, zip_lookup, hn2]
    simp [LOVR_PATH_MAX, map_get, MAP_NIL, h17, h27, h37, h47, h57]
  · simp only [zip_list, zip_lookup, hn2]
    simp [LOVR_PATH_MAX, map_get, MAP_NIL, h17, h27, h37, h47, h57]

set_option maxRecDepth 20000 in
/-- The container `sample_zip "a/b/c.txt" "a/b/d.txt"` mounted at the empty
mountpoint: what `zip_init` builds. -/
theorem sample_init_empty (hash64 : List Nat → Nat) (mktime : tm → Nat)
    (h12 : hash64 [47, 97, 47, 98] ≠ hash64 [47, 97, 47, 98, 47, 99, 46, 116, 120, 116])
    (h13 : hash64 [47, 97] ≠ hash64 [47, 97, 47, 98, 47, 99, 46, 116, 120, 116])
    (h14 : hash64 [] ≠ hash64 [47, 97, 47, 98, 47, 99, 46, 116, 120, 116])
    (h23 : hash64 [47, 97] ≠ hash64 [47, 97, 47, 98])
    (h24 : hash64 [] ≠ hash64 [47, 97, 47, 98])
    (h34 : hash64 [] ≠ hash64 [47, 97])
    (h51 : hash64 [47, 97, 47, 98, 47, 100, 46, 116, 120, 116] ≠
      hash64 [47, 97, 47, 98, 47, 99, 46, 116, 120, 116])
    (h52 : hash64 [47, 97, 47, 98, 47, 100, 46, 116, 120, 116] ≠ hash64 [47, 97, 47, 98])
    (h53 : hash64 [47, 97, 47, 98, 47, 100, 46, 116, 120, 116] ≠ hash64 [47, 97])
    (h54 : hash64 [47, 97, 47, 98, 47, 100, 46, 116, 120, 116] ≠ hash64 []) :
    zip_init hash64 mktime (some (sample_zip (str "a/b/c.txt") (str "a/b/d.txt")))
        (some []) none =
      .ok (some
        ⟨[⟨NONE, NONE, some [99, 46, 116, 120, 116], 0,
            ⟨0, mktime (zip_tm 0x6000 0x5821), .FILE_REGULAR⟩⟩,
          ⟨4, NONE, some [98], 0, ⟨0, mktime (zip_tm 0x6000 0x5821), .FILE_DIRECTORY⟩⟩,
          ⟨1, NONE, some [97], 0, ⟨0, mktime (zip_tm 0x6000 0x5821), .FILE_DIRECTORY⟩⟩,
          ⟨2, NONE, some [], 0, ⟨0, mktime (zip_tm 0x6000 0x5821), .FILE_DIRECTORY⟩⟩,
          ⟨NONE, 0, some [100, 46, 116, 120, 116], 39,
            ⟨0, mktime (zip_tm 0x6000 0x5821), .FILE_REGULAR⟩⟩],
         [(hash64 [47, 97, 47, 98, 47, 100, 46, 116, 120, 116], 4),
          (hash64 [], 3), (hash64 [47, 97], 2), (hash64 [47, 97, 47, 98], 1),
          (hash64 [47, 97, 47, 98, 47, 99, 46, 116, 120, 116], 0)],
         sample_zip (str "a/b/c.txt") (str "a/b/d.txt")⟩) := by
  have hx1 := (zip_index_eq_walk hash64 (sample_zip (str "a/b/c.txt") (str "a/b/d.txt"))
    [47] [97, 47, 98, 47, 99, 46, 116, 120, 116]
    ⟨0, 0, mktime (zip_tm 0x6000 0x5821), 124, 9⟩ [] [] 116 9 .FILE_REGULAR (by rfl)
    (by norm_num) (by simp) (by simp [LOVR_PATH_MAX]) (by rfl)).trans
    (sample_walk_c hash64 (mktime (zip_tm 0x6000 0x5821)) h12 h13 h14 h23 h24 h34)
  have hx2 := (zip_index_eq_walk hash64 (sample_zip (str "a/b/c.txt") (str "a/b/d.txt"))
    [47] [97, 47, 98, 47, 100, 46, 116, 120, 116]
    ⟨39, 0, mktime (zip_tm 0x6000 0x5821), 179, 9⟩ _ _ 116 9 .FILE_REGULAR (by rfl)
    (by norm_num) (by simp) (by simp [LOVR_PATH_MAX]) (by rfl)).trans
    (sample_walk_d hash64 (mktime (zip_tm 0x6000 0x5821)) h51 h52 h53 h54 h23 h24)
  exact (zip_init_eq_loop hash64 mktime _ [] [] 78 2 (by decide) (by rfl) (by rfl)
    (by decide)).trans
    (zip_init_loop_two hash64 mktime _ [47] none 0 78 133 188 _ _ _ _ _ _ (by rfl) hx1
      (by rfl) hx2)

/-- With the null mountpoint, `zip_init` calls `normalize` on the null
pointer, whose first loop reads `path[0]`. -/
theorem zip_init_null_mountpoint (hash64 : List Nat → Nat) (mktime : tm → Nat)
    (file root : Option (List Nat)) :
    zip_init hash64 mktime file none root = .error .nullDeref := rfl

/-- C1, evaluated on the code: the container whose index holds exactly
`a/b/c.txt` and `a/b/d.txt`, mounted with no root filter.  With the null
mountpoint `zip_init` reads through the null pointer in `normalize`.  With the
empty mountpoint it succeeds, but every path is indexed with a leading slash
(`/a`, `/a/b`), which `zip_lookup` strips before hashing: `zip_stat` of `a` and
of `a/b` return `false` and `zip_list` of `a/b` calls the callback not at all
(for any `hash64` without collision on the seven paths involved). -/
theorem zip_init_no_mountpoint (hash64 : List Nat → Nat) (mktime : tm → Nat)
    (hh : (List.map hash64 [str "/a/b/c.txt", str "/a/b/d.txt", str "/a/b", str "/a",
      str "", str "a", str "a/b"]).Nodup) :
    zip_init hash64 mktime (some (sample_zip (str "a/b/c.txt") (str "a/b/d.txt"))) none none =
      .error .nullDeref ∧
    ∃ archive,
      zip_init hash64 mktime (some (sample_zip (str "a/b/c.txt") (str "a/b/d.txt")))
        (some []) none = .ok (some archive) ∧
      zip_stat hash64 archive (str "a") = .ok none ∧
      zip_stat hash64 archive (str "a/b") = .ok none ∧
      zip_list hash64 archive (str "a/b") = .ok [] := by
  have e1 : str "/a/b/c.txt" = [47, 97, 47, 98, 47, 99, 46, 116, 120, 116] := rfl
  have e2 : str "/a/b/d.txt" = [47, 97, 47, 98, 47, 100, 46, 116, 120, 116] := rfl
  have e3 : str "/a/b" = [47, 97, 47, 98] := rfl
  have e4 : str "/a" = [47, 97] := rfl
  have e5 : str "" = [] := rfl
  have e6 : str "a" = [97] := rfl
  have e7 : str "a/b" = [97, 47, 98] := rfl
  rw [e1, e2, e3, e4, e5, e6, e7] at hh
  simp only [List.map, List.nodup_cons, List.mem_cons, List.mem_singleton, not_or,
    List.not_mem_nil, not_false_eq_true, List.nodup_nil, and_true] at hh
  obtain ⟨⟨h12, h13, h14, h15, h16, h17⟩, ⟨h23, h24, h25, h26, h27⟩, ⟨h34, h35, h36, h37⟩,
    ⟨h45, h46, h47⟩, ⟨h56, h57⟩, _⟩ := hh
  have hinit := sample_init_empty hash64 mktime (Ne.symm h13) (Ne.symm h14) (Ne.symm h15)
    (Ne.symm h34) (Ne.symm h35) (Ne.symm h45) (Ne.symm h12) h23 h24 h25
  have hlook := sample_lookup_absent hash64 (mktime (zip_tm 0x6000 0x5821))
    (sample_zip (str "a/b/c.txt") (str "a/b/d.txt")) h16 h26 h36 h46 h56 h17 h27 h37 h47 h57
  rw [e6, e7]
  exact ⟨zip_init_null_mountpoint hash64 mktime _ none, _, hinit, hlook.1, hlook.2.1,
    hlook.2.2⟩

/-- Witness for C1: the FNV-1a hash does not collide on the seven paths. -/
theorem zip_init_no_mountpoint_witness :
    (List.map sample_hash64 [str "/a/b/c.txt", str "/a/b/d.txt", str "/a/b", str "/a",
      str "", str "a", str "a/b"]).Nodup ∧
    (zip_init sample_hash64 sample_mktime
        (some (sample_zip (str "a/b/c.txt") (str "a/b/d.txt"))) none none =
      .error .nullDeref ∧
    ∃ archive,
      zip_init sample_hash64 sample_mktime
        (some (sample_zip (str "a/b/c.txt") (str "a/b/d.txt"))) (some []) none =
        .ok (some archive) ∧
      zip_stat sample_hash64 archive (str "a") = .ok none ∧
      zip_stat sample_hash64 archive (str "a/b") = .ok none ∧
      zip_list sample_hash64 archive (str "a/b") = .ok []) :=
  ⟨by decide, zip_init_no_mountpoint sample_hash64 sample_mktime (by decide)⟩

/-- The upward walk for `m/a/b/c.txt` on an empty index, when `hash64` does
not collide on the four paths it indexes. -/
theorem sample_walk_mounted (hash64 : List Nat → Nat) (t : Nat)
    (h12 : hash64 [109, 47, 97, 47, 98] ≠
      hash64 [109, 47, 97, 47, 98, 47, 99, 46, 116, 120, 116])
    (h13 : hash64 [109, 47, 97] ≠ hash64 [109, 47, 97, 47, 98, 47, 99, 46, 116, 120, 116])
    (h14 : hash64 [109] ≠ hash64 [109, 47, 97, 47, 98, 47, 99, 46, 116, 120, 116])
    (h23 : hash64 [109, 47, 97] ≠ hash64 [109, 47, 97, 47, 98])
    (h24 : hash64 [109] ≠ hash64 [109, 47, 97, 47, 98])
    (h34 : hash64 [109] ≠ hash64 [109, 47, 97]) :
    zip_walk hash64 [109, 47, 97, 47, 98, 47, 99, 46, 116, 120, 116] 13 11 11
      ⟨NONE, NONE, none, 0, ⟨0, t, .FILE_REGULAR⟩⟩ [] [] =
    .ok ([⟨NONE, NONE, some [99, 46, 116, 120, 116], 0, ⟨0, t, .FILE_REGULAR⟩⟩,
          ⟨0, NONE, some [98], 0, ⟨0, t, .FILE_DIRECTORY⟩⟩,
          ⟨1, NONE, some [97], 0, ⟨0, t, .FILE_DIRECTORY⟩⟩,
          ⟨2, NONE, some [109], 0, ⟨0, t, .FILE_DIRECTORY⟩⟩],
         [(hash64 [109], 3), (hash64 [109, 47, 97], 2), (hash64 [109, 47, 97, 47, 98], 1),
          (hash64 [109, 47, 97, 47, 98, 47, 99, 46, 116, 120, 116], 0)]) := by
  simp [zip_walk, map_get, map_set, zip_segment, MAP_NIL, SIZE_MAX, NONE, h12.symm, h13.symm,
    h14.symm, h23.symm, h24.symm, h34.symm, h12, h13, h14, h23, h24, h34]

set_option maxRecDepth 20000 in
/-- C2, evaluated on the code: the container whose index holds the file
`a/b/c.txt` and then the explicit directory entry `a/b/`, mounted at `m`.  The
walk for `a/b/` finds `m/a/b` already indexed at its first round, where the
pending node has no child; the code then writes `nodes.data[~0u]`, outside
the node array, and would reset the child chain of `m/a/b` to `~0u`. -/
theorem zip_init_directory_after_file (hash64 : List Nat → Nat) (mktime : tm → Nat)
    (hh : (List.map hash64 [str "m/a/b/c.txt", str "m/a/b", str "m/a", str "m"]).Nodup) :
    zip_init hash64 mktime (some (sample_zip (str "a/b/c.txt") (str "a/b/")))
      (some (str "m")) none = .error .outOfBounds := by
  have e1 : str "m/a/b/c.txt" = [109, 47, 97, 47, 98, 47, 99, 46, 116, 120, 116] := rfl
  have e2 : str "m/a/b" = [109, 47, 97, 47, 98] := rfl
  have e3 : str "m/a" = [109, 47, 97] := rfl
  have e4 : str "m" = [109] := rfl
  rw [e1, e2, e3, e4] at hh
  simp only [List.map, List.nodup_cons, List.mem_cons, List.mem_singleton, not_or,
    List.not_mem_nil, not_false_eq_true, List.nodup_nil, and_true] at hh
  obtain ⟨⟨h12, h13, h14⟩, ⟨h23, h24⟩, h34⟩ := hh
  have hx1 := (zip_index_eq_walk hash64 (sample_zip (str "a/b/c.txt") (str "a/b/"))
    [109, 47] [97, 47, 98, 47, 99, 46, 116, 120, 116]
    ⟨0, 0, mktime (zip_tm 0x6000 0x5821), 119, 9⟩ [] [] 116 9 .FILE_REGULAR (by rfl)
    (by norm_num) (by simp) (by simp [LOVR_PATH_MAX]) (by rfl)).trans
    (sample_walk_mounted hash64 (mktime (zip_tm 0x6000 0x5821)) (Ne.symm h12) (Ne.symm h13)
      (Ne.symm h14) (Ne.symm h23) (Ne.symm h24) (Ne.symm h34))
  have hidx : map_get [(hash64 [109], 3), (hash64 [109, 47, 97], 2),
      (hash64 [109, 47, 97, 47, 98], 1),
      (hash64 [109, 47, 97, 47, 98, 47, 99, 46, 116, 120, 116], 0)]
      (hash64 (([109, 47] ++ [97, 47, 98]).take 5)) ≠ MAP_NIL := by
    simp only [map_get, MAP_NIL, List.cons_append, List.nil_append, List.take_succ_cons,
      List.take_zero, if_true]
    split_ifs <;> norm_num
  refine (zip_init_eq_loop hash64 mktime _ [109] [109] 73 2 (by decide) (by rfl) (by rfl)
    (by decide)).trans
    (zip_init_loop_two_fault hash64 mktime _ [109, 47] none 0 73 128 178 _ _ _ _ _ (by rfl) hx1
      (by rfl) ?_)
  refine (zip_index_eq_walk hash64 (sample_zip (str "a/b/c.txt") (str "a/b/"))
    [109, 47] [97, 47, 98]
    ⟨39, 0, mktime (zip_tm 0x6000 0x5821), 174, 4⟩ _ _ 47 3 .FILE_DIRECTORY (by rfl)
    (by norm_num) (by simp) (by simp [LOVR_PATH_MAX]) (by rfl)).trans
    (zip_walk_indexed_fault hash64 _ 6 5 5 _ _ _ ?_ hidx rfl ?_)
  · unfold SIZE_MAX
    omega
  · simp [NONE]

/-- Witness for C2: the FNV-1a hash does not collide on the four paths. -/
theorem zip_init_directory_after_file_witness :
    (List.map sample_hash64 [str "m/a/b/c.txt", str "m/a/b", str "m/a", str "m"]).Nodup ∧
    zip_init sample_hash64 sample_mktime (some (sample_zip (str "a/b/c.txt") (str "a/b/")))
      (some (str "m")) none = .error .outOfBounds :=
  ⟨by decide, zip_init_directory_after_file sample_hash64 sample_mktime (by decide)⟩

set_option maxRecDepth 20000 in
/-- C10, evaluated at the failing input: `sample_zip64_wrap` carries the
legacy end-of-index signature, its 64-bit record announces one entry, and the
64-bit cursor `2 ^ 64 - 46` points past the end of the 98-byte buffer; yet
`zip_init` does not return `false`: in `zip_next` the sum `cursor + 46` wraps
to 0, the length check passes and the signature is read outside the buffer. -/
theorem zip_init_wrapped_cursor (hash64 : List Nat → Nat) (mktime : tm → Nat) :
    readu32 sample_zip64_wrap (sample_zip64_wrap.length - 22) = .ok 0x06054b50 ∧
    zip_open sample_zip64_wrap = .ok (some (2 ^ 64 - 46, 1)) ∧
    sample_zip64_wrap.length ≤ 2 ^ 64 - 46 ∧
    zip_init hash64 mktime (some sample_zip64_wrap) (some (str "m")) none =
      .error .outOfBounds :=
  ⟨rfl, rfl, by rw [show sample_zip64_wrap.length = 98 from rfl]; norm_num, rfl⟩

/-- What `zip_stat` returns for a path that `zip_lookup` finds. -/
theorem zip_stat_of_lookup (hash64 : List Nat → Nat) (archive : Archive) (path : List Nat)
    (index : Nat) (node : zip_node)
    (hk : zip_lookup hash64 archive path = .ok (some index))
    (hn : archive.nodes[index]? = some node) :
    zip_stat hash64 archive path = .ok (some node.info) := by
  simp only [zip_stat, hk, hn]

/-- What `zip_list` does for a path that `zip_lookup` finds to be a
directory: it runs down the child chain. -/
theorem zip_list_of_lookup (hash64 : List Nat → Nat) (archive : Archive) (path : List Nat)
    (index : Nat) (node : zip_node)
    (hk : zip_lookup hash64 archive path = .ok (some index))
    (hn : archive.nodes[index]? = some node)
    (hd : node.info.type = .FILE_DIRECTORY) :
    zip_list hash64 archive path =
      zip_list_loop archive.nodes (archive.nodes.length + 1) node.firstChild := by
  simp only [zip_list, hk, hn, hd, ne_eq, not_true_eq_false, if_false]

/-- One round of the loop of `zip_list`. -/
theorem zip_list_loop_step (nodes : List zip_node) (fuel i : Nat) (child : zip_node)
    (rest : List (Option (List Nat))) (hi : i ≠ NONE) (hc : nodes[i]? = some child)
    (hr : zip_list_loop nodes fuel child.nextSibling = .ok rest) :
    zip_list_loop nodes (fuel + 1) i = .ok (child.filename :: rest) := by
  simp only [zip_list_loop, hi, hc, hr, ne_eq, not_false_eq_true, if_true]

/-- The loop of `zip_list` ends at the sentinel. -/
theorem zip_list_loop_end (nodes : List zip_node) (fuel : Nat) :
    zip_list_loop nodes (fuel + 1) NONE = .ok [] := by
  simp only [zip_list_loop, ne_eq, not_true_eq_false, if_false]

/-- The upward walk for `m/a/b/d.txt` on the index left by
`sample_walk_mounted`: it stops at `m/a/b`, which is already indexed, and
pushes the new node onto its child chain. -/
theorem sample_walk_mounted_d (hash64 : List Nat → Nat) (t : Nat)
    (h51 : hash64 [109, 47, 97, 47, 98, 47, 100, 46, 116, 120, 116] ≠
      hash64 [109, 47, 97, 47, 98, 47, 99, 46, 116, 120, 116])
    (h52 : hash64 [109, 47, 97, 47, 98, 47, 100, 46, 116, 120, 116] ≠
      hash64 [109, 47, 97, 47, 98])
    (h53 : hash64 [109, 47, 97, 47, 98, 47, 100, 46, 116, 120, 116] ≠ hash64 [109, 47, 97])
    (h54 : hash64 [109, 47, 97, 47, 98, 47, 100, 46, 116, 120, 116] ≠ hash64 [109])
    (h23 : hash64 [109, 47, 97] ≠ hash64 [109, 47, 97, 47, 98])
    (h24 : hash64 [109] ≠ hash64 [109, 47, 97, 47, 98]) :
    zip_walk hash64 [109, 47, 97, 47, 98, 47, 100, 46, 116, 120, 116] 13 11 11
      ⟨NONE, NONE, none, 39, ⟨0, t, .FILE_REGULAR⟩⟩
      [⟨NONE, NONE, some [99, 46, 116, 120, 116], 0, ⟨0, t, .FILE_REGULAR⟩⟩,
          ⟨0, NONE, some [98], 0, ⟨0, t, .FILE_DIRECTORY⟩⟩,
          ⟨1, NONE, some [97], 0, ⟨0, t, .FILE_DIRECTORY⟩⟩,
          ⟨2, NONE, some [109], 0, ⟨0, t, .FILE_DIRECTORY⟩⟩]
      [(hash64 [109], 3), (hash64 [109, 47, 97], 2), (hash64 [109, 47, 97, 47, 98], 1),
          (hash64 [109, 47, 97, 47, 98, 47, 99, 46, 116, 120, 116], 0)] =
    .ok ([⟨NONE, NONE, some [99, 46, 116, 120, 116], 0, ⟨0, t, .FILE_REGULAR⟩⟩,
          ⟨4, NONE, some [98], 0, ⟨0, t, .FILE_DIRECTORY⟩⟩,
          ⟨1, NONE, some [97], 0, ⟨0, t, .FILE_DIRECTORY⟩⟩,
          ⟨2, NONE, some [109], 0, ⟨0, t, .FILE_DIRECTORY⟩⟩,
          ⟨NONE, 0, some [100, 46, 116, 120, 116], 39, ⟨0, t, .FILE_REGULAR⟩⟩],
         [(hash64 [109, 47, 97, 47, 98, 47, 100, 46, 116, 120, 116], 4),
          (hash64 [109], 3), (hash64 [109, 47, 97], 2), (hash64 [109, 47, 97, 47, 98], 1),
          (hash64 [109, 47, 97, 47, 98, 47, 99, 46, 116, 120, 116], 0)]) := by
  simp [zip_walk, map_get, map_set, zip_segment, MAP_NIL, SIZE_MAX, NONE, h51, h52, h53, h54,
    h51.symm, h52.symm, h53.symm, h54.symm, h23, h24, h23.symm, h24.symm]

/-- Lookups of `m/a` and `m/a/b` in the index left by
`sample_walk_mounted_d`: both are directories, and the child chain of `m/a/b`
holds `d.txt` and `c.txt`. -/
theorem sample_lookup_mounted (hash64 : List Nat → Nat) (t : Nat) (data : List Nat)
    (h53 : hash64 [109, 47, 97, 47, 98, 47, 100, 46, 116, 120, 116] ≠ hash64 [109, 47, 97])
    (h43 : hash64 [109] ≠ hash64 [109, 47, 97])
    (h52 : hash64 [109, 47, 97, 47, 98, 47, 100, 46, 116, 120, 116] ≠
      hash64 [109, 47, 97, 47, 98])
    (h42 : hash64 [109] ≠ hash64 [109, 47, 97, 47, 98])
    (h32 : hash64 [109, 47, 97] ≠ hash64 [109, 47, 97, 47, 98]) :
    zip_stat hash64
      ⟨[⟨NONE, NONE, some [99, 46, 116, 120, 116], 0, ⟨0, t, .FILE_REGULAR⟩⟩,
          ⟨4, NONE, some [98], 0, ⟨0, t, .FILE_DIRECTORY⟩⟩,
          ⟨1, NONE, some [97], 0, ⟨0, t, .FILE_DIRECTORY⟩⟩,
          ⟨2, NONE, some [109], 0, ⟨0, t, .FILE_DIRECTORY⟩⟩,
          ⟨NONE, 0, some [100, 46, 116, 120, 116], 39, ⟨0, t, .FILE_REGULAR⟩⟩],
         [(hash64 [109, 47, 97, 47, 98, 47, 100, 46, 116, 120, 116], 4),
          (hash64 [109], 3), (hash64 [109, 47, 97], 2), (hash64 [109, 47, 97, 47, 98], 1),
          (hash64 [109, 47, 97, 47, 98, 47, 99, 46, 116, 120, 116], 0)], data⟩
      [109, 47, 97] = .ok (some ⟨0, t, .FILE_DIRECTORY⟩) ∧
    zip_stat hash64
      ⟨[⟨NONE, NONE, some [99, 46, 116, 120, 116], 0, ⟨0, t, .FILE_REGULAR⟩⟩,
          ⟨4, NONE, some [98], 0, ⟨0, t, .FILE_DIRECTORY⟩⟩,
          ⟨1, NONE, some [97], 0, ⟨0, t, .FILE_DIRECTORY⟩⟩,
          ⟨2, NONE, some [109], 0, ⟨0, t, .FILE_DIRECTORY⟩⟩,
          ⟨NONE, 0, some [100, 46, 116, 120, 116], 39, ⟨0, t, .FILE_REGULAR⟩⟩],
         [(hash64 [109, 47, 97, 47, 98, 47, 100, 46, 116, 120, 116], 4),
          (hash64 [109], 3), (hash64 [109, 47, 97], 2), (hash64 [109, 47, 97, 47, 98], 1),
          (hash64 [109, 47, 97, 47, 98, 47, 99, 46, 116, 120, 116], 0)], data⟩
      [109, 47, 97, 47, 98] = .ok (some ⟨0, t, .FILE_DIRECTORY⟩) ∧
    zip_list hash64
      ⟨[⟨NONE, NONE, some [99, 46, 116, 120, 116], 0, ⟨0, t, .FILE_REGULAR⟩⟩,
          ⟨4, NONE, some [98], 0, ⟨0, t, .FILE_DIRECTORY⟩⟩,
          ⟨1, NONE, some [97], 0, ⟨0, t, .FILE_DIRECTORY⟩⟩,
          ⟨2, NONE, some [109], 0, ⟨0, t, .FILE_DIRECTORY⟩⟩,
          ⟨NONE, 0, some [100, 46, 116, 120, 116], 39, ⟨0, t, .FILE_REGULAR⟩⟩],
         [(hash64 [109, 47, 97, 47, 98, 47, 100, 46, 116, 120, 116], 4),
          (hash64 [109], 3), (hash64 [109, 47, 97], 2), (hash64 [109, 47, 97, 47, 98], 1),
          (hash64 [109, 47, 97, 47, 98, 47, 99, 46, 116, 120, 116], 0)], data⟩
      [109, 47, 97, 47, 98] =
      .ok [some [100, 46, 116, 120, 116], some [99, 46, 116, 120, 116]] := by
  have hn1 : normalize ([109, 47, 97] ++ [0]) ([109, 47, 97] : List Nat).length =
      .ok [109, 47, 97] := rfl
  have hn2 : normalize ([109, 47, 97, 47, 98] ++ [0]) ([109, 47, 97, 47, 98] : List Nat).length =
      .ok [109, 47, 97, 47, 98] := rfl
  have hk1 : zip_lookup hash64
      ⟨[⟨NONE, NONE, some [99, 46, 116, 120, 116], 0, ⟨0, t, .FILE_REGULAR⟩⟩,
          ⟨4, NONE, some [98], 0, ⟨0, t, .FILE_DIRECTORY⟩⟩,
          ⟨1, NONE, some [97], 0, ⟨0, t, .FILE_DIRECTORY⟩⟩,
          ⟨2, NONE, some [109], 0, ⟨0, t, .FILE_DIRECTORY⟩⟩,
          ⟨NONE, 0, some [100, 46, 116, 120, 116], 39, ⟨0, t, .FILE_REGULAR⟩⟩],
         [(hash64 [109, 47, 97, 47, 98, 47, 100, 46, 116, 120, 116], 4),
          (hash64 [109], 3), (hash64 [109, 47, 97], 2), (hash64 [109, 47, 97, 47, 98], 1),
          (hash64 [109, 47, 97, 47, 98, 47, 99, 46, 116, 120, 116], 0)], data⟩
      [109, 47, 97] = .ok (some 2) := by
    simp only [zip_lookup, hn1]
    simp [LOVR_PATH_MAX, map_get, MAP_NIL, h53, h43]
  have hk2 : zip_lookup hash64
      ⟨[⟨NONE, NONE, some [99, 46, 116, 120, 116], 0, ⟨0, t, .FILE_REGULAR⟩⟩,
          ⟨4, NONE, some [98], 0, ⟨0, t, .FILE_DIRECTORY⟩⟩,
          ⟨1, NONE, some [97], 0, ⟨0, t, .FILE_DIRECTORY⟩⟩,
          ⟨2, NONE, some [109], 0, ⟨0, t, .FILE_DIRECTORY⟩⟩,
          ⟨NONE, 0, some [100, 46, 116, 120, 116], 39, ⟨0, t, .FILE_REGULAR⟩⟩],
         [(hash64 [109, 47, 97, 47, 98, 47, 100, 46, 116, 120, 116], 4),
          (hash64 [109], 3), (hash64 [109, 47, 97], 2), (hash64 [109, 47, 97, 47, 98], 1),
          (hash64 [109, 47, 97, 47, 98, 47, 99, 46, 116, 120, 116], 0)], data⟩
      [109, 47, 97, 47, 98] = .ok (some 1) := by
    simp only [zip_lookup, hn2]
    simp [LOVR_PATH_MAX, map_get, MAP_NIL, h52, h42, h32]
  have h0 : (0 : Nat) ≠ NONE := by simp [NONE]
  have h4 : (4 : Nat) ≠ NONE := by simp [NONE]
  refine ⟨zip_stat_of_lookup hash64 _ _ 2 _ hk1 rfl, zip_stat_of_lookup hash64 _ _ 1 _ hk2 rfl,
    ?_⟩
  have hs0 := zip_list_loop_step
      [⟨NONE, NONE, some [99, 46, 116, 120, 116], 0, ⟨0, t, .FILE_REGULAR⟩⟩,
          ⟨4, NONE, some [98], 0, ⟨0, t, .FILE_DIRECTORY⟩⟩,
          ⟨1, NONE, some [97], 0, ⟨0, t, .FILE_DIRECTORY⟩⟩,
          ⟨2, NONE, some [109], 0, ⟨0, t, .FILE_DIRECTORY⟩⟩,
          ⟨NONE, 0, some [100, 46, 116, 120, 116], 39, ⟨0, t, .FILE_REGULAR⟩⟩]
      4 0 ⟨NONE, NONE, some [99, 46, 116, 120, 116], 0, ⟨0, t, .FILE_REGULAR⟩⟩ [] h0 rfl
      (zip_list_loop_end _ 3)
  have hs4 := zip_list_loop_step
      [⟨NONE, NONE, some [99, 46, 116, 120, 116], 0, ⟨0, t, .FILE_REGULAR⟩⟩,
          ⟨4, NONE, some [98], 0, ⟨0, t, .FILE_DIRECTORY⟩⟩,
          ⟨1, NONE, some [97], 0, ⟨0, t, .FILE_DIRECTORY⟩⟩,
          ⟨2, NONE, some [109], 0, ⟨0, t, .FILE_DIRECTORY⟩⟩,
          ⟨NONE, 0, some [100, 46, 116, 120, 116], 39, ⟨0, t, .FILE_REGULAR⟩⟩]
      5 4 ⟨NONE, 0, some [100, 46, 116, 120, 116], 39, ⟨0, t, .FILE_REGULAR⟩⟩ _ h4 rfl hs0
  rw [zip_list_of_lookup hash64 _ _ 1 _ hk2 rfl rfl]
  exact hs4

set_option maxRecDepth 20000 in
/-- The behaviour the spec describes, on the code, for a non-empty
mountpoint: the container whose index holds exactly `a/b/c.txt` and
`a/b/d.txt`, mounted at `m`, is indexed without fault; `zip_stat` of `m/a` and
of `m/a/b` report a directory, and `zip_list` of `m/a/b` calls the callback
twice, with `d.txt` and with `c.txt` (for any `hash64` without collision on
the five indexed paths). -/
theorem zip_init_mounted_example (hash64 : List Nat → Nat) (mktime : tm → Nat)
    (hh : (List.map hash64 [str "m/a/b/c.txt", str "m/a/b/d.txt", str "m/a/b", str "m/a",
      str "m"]).Nodup) :
    ∃ archive,
      zip_init hash64 mktime (some (sample_zip (str "a/b/c.txt") (str "a/b/d.txt")))
        (some (str "m")) none = .ok (some archive) ∧
      zip_stat hash64 archive (str "m/a") =
        .ok (some ⟨0, mktime (zip_tm 0x6000 0x5821), .FILE_DIRECTORY⟩) ∧
      zip_stat hash64 archive (str "m/a/b") =
        .ok (some ⟨0, mktime (zip_tm 0x6000 0x5821), .FILE_DIRECTORY⟩) ∧
      zip_list hash64 archive (str "m/a/b") = .ok [some (str "d.txt"), some (str "c.txt")] := by
  have e1 : str "m/a/b/c.txt" = [109, 47, 97, 47, 98, 47, 99, 46, 116, 120, 116] := rfl
  have e2 : str "m/a/b/d.txt" = [109, 47, 97, 47, 98, 47, 100, 46, 116, 120, 116] := rfl
  have e3 : str "m/a/b" = [109, 47, 97, 47, 98] := rfl
  have e4 : str "m/a" = [109, 47, 97] := rfl
  have e5 : str "m" = [109] := rfl
  have e6 : str "d.txt" = [100, 46, 116, 120, 116] := rfl
  have e7 : str "c.txt" = [99, 46, 116, 120, 116] := rfl
  rw [e1, e2, e3, e4, e5] at hh
  simp only [List.map, List.nodup_cons, List.mem_cons, List.mem_singleton, not_or,
    List.not_mem_nil, not_false_eq_true, List.nodup_nil, and_true] at hh
  obtain ⟨⟨h12, h13, h14, h15⟩, ⟨h23, h24, h25⟩, ⟨h34, h35⟩, h45⟩ := hh
  have hx1 := (zip_index_eq_walk hash64 (sample_zip (str "a/b/c.txt") (str "a/b/d.txt"))
    [109, 47] [97, 47, 98, 47, 99, 46, 116, 120, 116]
    ⟨0, 0, mktime (zip_tm 0x6000 0x5821), 124, 9⟩ [] [] 116 9 .FILE_REGULAR (by rfl)
    (by norm_num) (by simp) (by simp [LOVR_PATH_MAX]) (by rfl)).trans
    (sample_walk_mounted hash64 (mktime (zip_tm 0x6000 0x5821)) (Ne.symm h13) (Ne.symm h14)
      (Ne.symm h15) (Ne.symm h34) (Ne.symm h35) (Ne.symm h45))
  have hx2 := (zip_index_eq_walk hash64 (sample_zip (str "a/b/c.txt") (str "a/b/d.txt"))
    [109, 47] [97, 47, 98, 47, 100, 46, 116, 120, 116]
    ⟨39, 0, mktime (zip_tm 0x6000 0x5821), 179, 9⟩ _ _ 116 9 .FILE_REGULAR (by rfl)
    (by norm_num) (by simp) (by simp [LOVR_PATH_MAX]) (by rfl)).trans
    (sample_walk_mounted_d hash64 (mktime (zip_tm 0x6000 0x5821)) (Ne.symm h12) h23 h24 h25
      (Ne.symm h34) (Ne.symm h35))
  have hinit := (zip_init_eq_loop hash64 mktime
    (sample_zip (str "a/b/c.txt") (str "a/b/d.txt")) [109] [109] 78 2 (by decide) (by rfl)
    (by rfl) (by decide)).trans
    (zip_init_loop_two hash64 mktime _ [109, 47] none 0 78 133 188 _ _ _ _ _ _ (by rfl) hx1
      (by rfl) hx2)
  have hlook := sample_lookup_mounted hash64 (mktime (zip_tm 0x6000 0x5821))
    (sample_zip (str "a/b/c.txt") (str "a/b/d.txt")) h24 (Ne.symm h45) h23 (Ne.symm h35)
    (Ne.symm h34)
  rw [e3, e4, e6, e7]
  exact ⟨_, hinit, hlook.1, hlook.2.1, hlook.2.2⟩

/-! ## `valid` -/

theorem byte_at_append (pre : List Nat) (c : Nat) (rest : List Nat) :
    byte_at (pre ++ c :: rest) pre.length = .ok (c % 256) := by
  have h : (pre ++ c :: rest)[pre.length]? = some c := by
    rw [List.getElem?_append_right (Nat.le_refl _)]
    simp
  unfold byte_at
  rw [h]

theorem byte_at_append_succ (pre : List Nat) (c d : Nat) (rest : List Nat) :
    byte_at (pre ++ c :: d :: rest) (pre.length + 1) = .ok (d % 256) := by
  have h := byte_at_append (pre ++ [c]) d rest
  simpa using h

theorem pair_infix_cons (a c : Nat) (rest : List Nat) :
    [a, a] <:+: c :: rest ↔ (c = a ∧ rest.head? = some a) ∨ [a, a] <:+: rest := by
  rw [List.infix_cons_iff]
  constructor
  · rintro (h | h)
    · left
      obtain ⟨t, ht⟩ := h
      cases rest with
      | nil => simp at ht
      | cons d r =>
        simp at ht
        obtain ⟨h1, h2, _⟩ := ht
        subst h1
        subst h2
        simp
    · right; exact h
  · rintro (⟨h1, h2⟩ | h)
    · left
      cases rest with
      | nil => simp at h2
      | cons d r =>
        simp at h2
        subst h1; subst h2
        exact ⟨r, rfl⟩
    · right; exact h

theorem valid_loop_suffix (suf : List Nat) : ∀ (pre : List Nat) (fuel : Nat), suf.length < fuel →
    (∀ c ∈ suf, 0 < c ∧ c < 256) →
    valid_loop (pre ++ (suf ++ [0])) fuel pre.length =
      .ok (decide (58 ∉ suf ∧ 92 ∉ suf ∧ ¬ [46, 46] <:+: suf)) := by
  induction suf with
  | nil =>
    intro pre fuel hf _
    cases fuel with
    | zero => simp at hf
    | succ fuel =>
      have hb : byte_at (pre ++ [0]) pre.length = .ok 0 := byte_at_append pre 0 []
      simp [valid_loop, hb]
  | cons c rest ih =>
    intro pre fuel hf hs
    cases fuel with
    | zero => simp at hf
    | succ fuel =>
      have hc := hs c (by simp)
      have hrest : ∀ d ∈ rest, 0 < d ∧ d < 256 := fun d hd => hs d (by simp [hd])
      have hmod : c % 256 = c := Nat.mod_eq_of_lt hc.2
      have ih' := ih (pre ++ [c]) fuel (by simpa using hf) hrest
      have hpath : (pre ++ [c]) ++ (rest ++ [0]) = pre ++ (c :: rest ++ [0]) := by simp
      rw [hpath] at ih'
      have hlen : (pre ++ [c]).length = pre.length + 1 := by simp
      rw [hlen] at ih'
      have hb : byte_at (pre ++ (c :: rest ++ [0])) pre.length = .ok c := by
        have := byte_at_append pre c (rest ++ [0])
        rw [hmod] at this
        simpa using this
      have hne : c ≠ 0 := by omega
      rw [valid_loop, hb]
      simp only [pair_infix_cons, List.mem_cons]
      by_cases h58 : c = 58
      · simp [h58]
      by_cases h92 : c = 92
      · simp [h92]
      by_cases h46 : c = 46
      · cases rest with
        | nil =>
          have hd : byte_at (pre ++ (c :: [] ++ [0])) (pre.length + 1) = .ok 0 := by
            have := byte_at_append_succ pre c 0 []
            simpa using this
          simp only [hd, ih']
          simp [h46]
        | cons d r =>
          have hdlt := hs d (by simp)
          have hd : byte_at (pre ++ (c :: (d :: r) ++ [0])) (pre.length + 1) = .ok d := by
            have := byte_at_append_succ pre c d (r ++ [0])
            rw [Nat.mod_eq_of_lt hdlt.2] at this
            simpa using this
          simp only [hd, ih']
          by_cases hd46 : d = 46
          · simp [h46, hd46]
          · simp [h46, hd46]
            
      · simp only [ih']
        have h58s : ¬ 58 = c := fun h => h58 h.symm
        have h92s : ¬ 92 = c := fun h => h92 h.symm
        simp [h58, h92, h46, hne, h58s, h92s]

/-- C11. For every C string `s` (bytes 1 to 255, then the NUL), `valid`
returns, and it returns `true` exactly when `s` contains no `:` (58), no
backslash (92) and no two dots (46) in a row; so it returns `false` when one
of the three occurs anywhere and `true` for every other path, the empty one
included. -/
theorem valid_rejects_exactly (s : List Nat) (hs : ∀ c ∈ s, 0 < c ∧ c < 256) :
    valid (s ++ [0]) = .ok (decide (58 ∉ s ∧ 92 ∉ s ∧ ¬ [46, 46] <:+: s)) := by
  have h := valid_loop_suffix s [] (s ++ [0]).length (by simp) hs
  simpa [valid] using h

/-- Witness for C11: the path `a/..b` is rejected, the empty path and
`a/.b` are accepted. -/
theorem valid_rejects_exactly_witness :
    ((∀ c ∈ str "a/..b", 0 < c ∧ c < 256) ∧ valid (str "a/..b" ++ [0]) = .ok false) ∧
    ((∀ c ∈ str "", 0 < c ∧ c < 256) ∧ valid (str "" ++ [0]) = .ok true) ∧
    ((∀ c ∈ str "a/.b", 0 < c ∧ c < 256) ∧ valid (str "a/.b" ++ [0]) = .ok true) :=
  ⟨⟨by decide, (valid_rejects_exactly (str "a/..b") (by decide)).trans rfl⟩,
    ⟨by decide, (valid_rejects_exactly (str "") (by decide)).trans rfl⟩,
    ⟨by decide, (valid_rejects_exactly (str "a/.b") (by decide)).trans rfl⟩⟩

/-! ## `normalize` -/

theorem skip_slashes_cons_ne (c : Nat) (l : List Nat) (h : c ≠ 47) :
    skip_slashes (c :: l) = c :: l := by
  simp [skip_slashes, h]

theorem skip_slashes_single : skip_slashes [47] = [] := by
  simp [skip_slashes]

theorem skip_slashes_slash_slash (l : List Nat) :
    skip_slashes (47 :: 47 :: l) = skip_slashes (47 :: l) := by
  rw [skip_slashes]
  simp

theorem skip_slashes_slash_ne (d : Nat) (l : List Nat) (h : d ≠ 47) :
    skip_slashes (47 :: d :: l) = 47 :: d :: l := by
  rw [skip_slashes]
  simp [h]

theorem squeeze_slash (l : List Nat) : squeeze (47 :: l) = squeeze l := by
  simp [squeeze]

theorem squeeze_single (c : Nat) (h : c ≠ 47) : squeeze [c] = [c] := by
  simp [squeeze, h]

theorem squeeze_cons_cons (c d : Nat) (l : List Nat) (hc : c ≠ 47) (hd : d ≠ 47) :
    squeeze (c :: d :: l) = c :: squeeze (d :: l) := by
  rw [squeeze]
  simp [hc, hd]

theorem squeeze_cons_slash (c : Nat) (l : List Nat) (hc : c ≠ 47) :
    squeeze (c :: 47 :: l) =
      if squeeze (47 :: l) = [] then [c] else c :: 47 :: squeeze (47 :: l) := by
  rw [squeeze]
  simp [hc]

theorem squeeze_ne_nil (d : Nat) (l : List Nat) (hd : d ≠ 47) : squeeze (d :: l) ≠ [] := by
  cases l with
  | nil => simp [squeeze_single d hd]
  | cons e r =>
    by_cases he : e = 47
    · subst he
      rw [squeeze_cons_slash d r hd]
      split <;> simp
    · rw [squeeze_cons_cons d e r hd he]
      simp

/-- The inner loop leaves nothing, or a string that starts with a character
other than a slash, or one slash followed by such a character. -/
theorem skip_slashes_cases (l : List Nat) :
    skip_slashes l = [] ∨ (∃ c r, skip_slashes l = c :: r ∧ c ≠ 47) ∨
      ∃ d r, skip_slashes l = 47 :: d :: r ∧ d ≠ 47 := by
  induction l with
  | nil => left; rfl
  | cons c l ih =>
    by_cases hc : c = 47
    · subst hc
      cases l with
      | nil => left; exact skip_slashes_single
      | cons d r =>
        by_cases hd : d = 47
        · subst hd
          rw [skip_slashes_slash_slash]
          exact ih
        · right; right
          exact ⟨d, r, skip_slashes_slash_ne d r hd, hd⟩
    · right; left
      exact ⟨c, l, skip_slashes_cons_ne c l hc, hc⟩

theorem skip_slashes_slash_cases (l : List Nat) :
    skip_slashes (47 :: l) = [] ∨
      ∃ d r, skip_slashes (47 :: l) = 47 :: d :: r ∧ d ≠ 47 := by
  induction l with
  | nil => left; exact skip_slashes_single
  | cons d r ih =>
    by_cases hd : d = 47
    · subst hd
      rw [skip_slashes_slash_slash]
      exact ih
    · right
      exact ⟨d, r, skip_slashes_slash_ne d r hd, hd⟩

theorem squeeze_skip_slashes (l : List Nat) : squeeze (skip_slashes l) = squeeze l := by
  induction l with
  | nil => rfl
  | cons c l ih =>
    by_cases hc : c = 47
    · subst hc
      cases l with
      | nil => rw [skip_slashes_single, squeeze_slash]
      | cons d r =>
        by_cases hd : d = 47
        · subst hd
          rw [skip_slashes_slash_slash, ih, squeeze_slash (47 :: r)]
        · rw [skip_slashes_slash_ne d r hd]
    · rw [skip_slashes_cons_ne c l hc]

theorem skip_slashes_mem (l : List Nat) : ∀ c ∈ skip_slashes l, c ∈ l := by
  induction l with
  | nil => intro c h; simp [skip_slashes] at h
  | cons a l ih =>
    intro c h
    by_cases ha : a = 47
    · subst ha
      cases l with
      | nil => rw [skip_slashes_single] at h; simp at h
      | cons d r =>
        by_cases hd : d = 47
        · subst hd
          rw [skip_slashes_slash_slash] at h
          exact List.mem_cons_of_mem _ (ih c h)
        · rw [skip_slashes_slash_ne d r hd] at h
          exact h
    · rw [skip_slashes_cons_ne a l ha] at h
      exact h

theorem skip_slashes_length (l : List Nat) : (skip_slashes l).length ≤ l.length := by
  induction l with
  | nil => simp [skip_slashes]
  | cons a l ih =>
    by_cases ha : a = 47
    · subst ha
      cases l with
      | nil => rw [skip_slashes_single]; simp
      | cons d r =>
        by_cases hd : d = 47
        · subst hd
          rw [skip_slashes_slash_slash]
          exact Nat.le_succ_of_le ih
        · rw [skip_slashes_slash_ne d r hd]
    · rw [skip_slashes_cons_ne a l ha]

/-- What the outer loop of `normalize` appends when it starts at a string
that the inner loop has left. -/
theorem squeeze_step (c : Nat) (rest : List Nat)
    (h : (c ≠ 47) ∨ ∃ d r, rest = d :: r ∧ d ≠ 47) :
    (if (c :: rest).head? = some 47 then [47] else []) ++ squeeze (c :: rest) =
      c :: ((if (skip_slashes rest).head? = some 47 then [47] else []) ++
        squeeze (skip_slashes rest)) := by
  by_cases hc : c = 47
  · subst hc
    rcases h with h | ⟨d, r, rfl, hd⟩
    · exact absurd rfl h
    · rw [skip_slashes_cons_ne d r hd, squeeze_slash]
      simp [hd]
  · cases rest with
    | nil => simp [skip_slashes, squeeze_single c hc, hc, squeeze]
    | cons d r =>
      by_cases hd : d = 47
      · subst hd
        rw [squeeze_cons_slash c r hc, squeeze_skip_slashes]
        rcases skip_slashes_slash_cases r with h0 | ⟨e, t, h1, he⟩
        · have hz : squeeze (47 :: r) = [] := by
            rw [← squeeze_skip_slashes, h0]; rfl
          rw [h0, hz]
          simp [hc]
        · have hz : squeeze (47 :: r) ≠ [] := by
            rw [← squeeze_skip_slashes, h1, squeeze_slash]
            exact squeeze_ne_nil e t he
          rw [h1, if_neg hz]
          simp [hc]
      · rw [skip_slashes_cons_ne d r hd, squeeze_cons_cons c d r hc hd]
        simp [hc, hd]

theorem normalize_lead_suffix (suf : List Nat) :
    ∀ (pre path : List Nat) (fuel : Nat), path = pre ++ suf ++ [0] → suf.length < fuel →
      (∀ c ∈ suf, 0 < c ∧ c < 256) →
      ∃ pre2, pre2 ++ suf.dropWhile (fun c => decide (c = 47)) = pre ++ suf ∧
        normalize_lead path fuel pre.length = .ok pre2.length := by
  induction suf with
  | nil =>
    intro pre path fuel hp hf _
    cases fuel with
    | zero => simp at hf
    | succ fuel =>
      have hb : byte_at path pre.length = .ok 0 := by
        rw [hp]
        simpa using byte_at_append pre 0 []
      exact ⟨pre, by simp, by simp [normalize_lead, hb]⟩
  | cons c rest ih =>
    intro pre path fuel hp hf hs
    cases fuel with
    | zero => simp at hf
    | succ fuel =>
      have hc := hs c (by simp)
      have hb : byte_at path pre.length = .ok c := by
        rw [hp]
        have := byte_at_append pre c (rest ++ [0])
        rw [Nat.mod_eq_of_lt hc.2] at this
        simpa using this
      by_cases h47 : c = 47
      · obtain ⟨pre2, h1, h2⟩ := ih (pre ++ [c]) path fuel (by simp [hp]) (by simpa using hf)
          (fun d hd => hs d (by simp [hd]))
        refine ⟨pre2, ?_, ?_⟩
        · simp [h47] at h1 ⊢
          exact h1
        · rw [normalize_lead, hb]
          simp only [h47, if_true]
          simpa using h2
      · refine ⟨pre, by simp [h47], ?_⟩
        rw [normalize_lead, hb]
        simp [h47]

theorem normalize_skip_suffix (suf : List Nat) :
    ∀ (pre path : List Nat) (fuel : Nat), path = pre ++ suf ++ [0] → suf.length < fuel →
      (∀ c ∈ suf, 0 < c ∧ c < 256) →
      ∃ pre2, pre2 ++ skip_slashes suf = pre ++ suf ∧
        normalize_skip path fuel pre.length = .ok pre2.length := by
  induction suf with
  | nil =>
    intro pre path fuel hp hf _
    cases fuel with
    | zero => simp at hf
    | succ fuel =>
      have hb : byte_at path pre.length = .ok 0 := by
        rw [hp]
        simpa using byte_at_append pre 0 []
      exact ⟨pre, by simp [skip_slashes], by simp [normalize_skip, hb]⟩
  | cons c rest ih =>
    intro pre path fuel hp hf hs
    cases fuel with
    | zero => simp at hf
    | succ fuel =>
      have hc := hs c (by simp)
      have hb : byte_at path pre.length = .ok c := by
        rw [hp]
        have := byte_at_append pre c (rest ++ [0])
        rw [Nat.mod_eq_of_lt hc.2] at this
        simpa using this
      by_cases h47 : c = 47
      · subst h47
        obtain ⟨pre2, h1, h2⟩ := ih (pre ++ [47]) path fuel (by simp [hp]) (by simpa using hf)
          (fun d hd => hs d (by simp [hd]))
        cases rest with
        | nil =>
          have hd : byte_at path (pre.length + 1) = .ok 0 := by
            rw [hp]
            simpa using byte_at_append_succ pre 47 0 []
          refine ⟨pre2, ?_, ?_⟩
          · rw [skip_slashes_single]
            simpa [skip_slashes] using h1
          · rw [normalize_skip, hb]
            simp only [if_true, hd]
            simpa using h2
        | cons d r =>
          have hdlt := hs d (by simp)
          have hd : byte_at path (pre.length + 1) = .ok d := by
            rw [hp]
            have := byte_at_append_succ pre 47 d (r ++ [0])
            rw [Nat.mod_eq_of_lt hdlt.2] at this
            simpa using this
          by_cases hd47 : d = 47
          · subst hd47
            refine ⟨pre2, ?_, ?_⟩
            · rw [skip_slashes_slash_slash]
              simpa using h1
            · rw [normalize_skip, hb]
              simp only [if_true, hd]
              simpa using h2
          · refine ⟨pre, by rw [skip_slashes_slash_ne d r hd47], ?_⟩
            rw [normalize_skip, hb]
            have hd0 : d ≠ 0 := by omega
            simp [hd, hd47, hd0]
      · refine ⟨pre, by rw [skip_slashes_cons_ne c rest h47], ?_⟩
        rw [normalize_skip, hb]
        simp [h47]

theorem normalize_copy_suffix :
    ∀ (fuel : Nat) (pre suf buffer path : List Nat), path = pre ++ suf ++ [0] →
      suf.length < fuel → (∀ c ∈ suf, 0 < c ∧ c < 256) → skip_slashes suf = suf →
      normalize_copy path (pre.length + suf.length) fuel pre.length buffer =
        .ok (buffer ++ ((if suf.head? = some 47 then [47] else []) ++ squeeze suf)) := by
  intro fuel
  induction fuel with
  | zero => intro pre suf buffer path _ hf; simp at hf
  | succ fuel ih =>
    intro pre suf buffer path hp hf hs hfix
    cases suf with
    | nil => simp [normalize_copy, squeeze]
    | cons c rest =>
      have hc := hs c (by simp)
      have hb : byte_at path pre.length = .ok c := by
        rw [hp]
        have := byte_at_append pre c (rest ++ [0])
        rw [Nat.mod_eq_of_lt hc.2] at this
        simpa using this
      have hrest : ∀ d ∈ rest, 0 < d ∧ d < 256 := fun d hd => hs d (by simp [hd])
      obtain ⟨pre2, h1, h2⟩ := normalize_skip_suffix rest (pre ++ [c]) path (path.length + 1)
        (by simp [hp]) (by simp [hp]; omega) hrest
      have hlen : (pre ++ [c]).length = pre.length + 1 := by simp
      rw [hlen] at h2
      have hp2 : path = pre2 ++ skip_slashes rest ++ [0] := by
        rw [h1, hp]; simp
      have hl2 : pre.length + (c :: rest).length = pre2.length + (skip_slashes rest).length := by
        have := congrArg List.length h1
        simp at this ⊢
        omega
      have hstep := ih pre2 (skip_slashes rest) (buffer ++ [c]) path hp2
        (by have := skip_slashes_length rest; simp at hf; omega)
        (fun d hd => hrest d (skip_slashes_mem rest d hd))
        (by
          rcases skip_slashes_cases rest with h | ⟨e, t, h, he⟩ | ⟨e, t, h, he⟩
          · rw [h]; rfl
          · rw [h, skip_slashes_cons_ne e t he]
          · rw [h, skip_slashes_slash_ne e t he])
      have hcond : (c ≠ 47) ∨ ∃ d r, rest = d :: r ∧ d ≠ 47 := by
        by_cases h47 : c = 47
        · right
          subst h47
          cases rest with
          | nil => rw [skip_slashes_single] at hfix; simp at hfix
          | cons d r =>
            refine ⟨d, r, rfl, ?_⟩
            intro hd
            subst hd
            rw [skip_slashes_slash_slash] at hfix
            have := skip_slashes_length (47 :: r)
            rw [hfix] at this
            simp at this
        · left; exact h47
      rw [normalize_copy, if_pos (by simp), hb]
      simp only [h2]
      rw [hl2, hstep, squeeze_step c rest hcond]
      simp

theorem squeeze_dropWhile (s : List Nat) :
    squeeze (s.dropWhile (fun c => decide (c = 47))) = squeeze s := by
  induction s with
  | nil => rfl
  | cons c l ih =>
    by_cases hc : c = 47
    · subst hc
      rw [squeeze_slash]
      simpa using ih
    · simp [hc]

/-- On a C string, `normalize` returns, and what it writes is `squeeze`. -/
theorem normalize_eq_squeeze (s : List Nat) (hs : ∀ c ∈ s, 0 < c ∧ c < 256) :
    normalize (s ++ [0]) s.length = .ok (squeeze s) := by
  obtain ⟨pre2, h1, h2⟩ := normalize_lead_suffix s [] (s ++ [0]) ((s ++ [0]).length + 1)
    (by simp) (by simp; omega) hs
  simp only [List.length_nil] at h2
  simp only [List.nil_append] at h1
  have hmem : ∀ c ∈ s.dropWhile (fun c => decide (c = 47)), 0 < c ∧ c < 256 :=
    fun c hc => hs c ((List.dropWhile_suffix _).subset hc)
  have hfix : skip_slashes (s.dropWhile (fun c => decide (c = 47))) =
      s.dropWhile (fun c => decide (c = 47)) := by
    cases hd : s.dropWhile (fun c => decide (c = 47)) with
    | nil => rfl
    | cons c r =>
      have := List.head_dropWhile_not (fun c => decide (c = 47)) s (by rw [hd]; simp)
      simp [hd] at this
      exact skip_slashes_cons_ne c r this
  have hlen : s.length = pre2.length + (s.dropWhile (fun c => decide (c = 47))).length := by
    have := congrArg List.length h1
    simp at this
    omega
  have hcopy := normalize_copy_suffix (s.length + 1) pre2
    (s.dropWhile (fun c => decide (c = 47))) [] (s ++ [0]) (by rw [h1])
    (by have := (List.dropWhile_suffix (fun c => decide (c = 47)) (l := s)).length_le; omega)
    hmem hfix
  have hhead : (s.dropWhile (fun c => decide (c = 47))).head? ≠ some 47 := by
    cases hd : s.dropWhile (fun c => decide (c = 47)) with
    | nil => simp
    | cons c r =>
      have := List.head_dropWhile_not (fun c => decide (c = 47)) s (by rw [hd]; simp)
      simp [hd] at this
      simp [this]
  rw [if_neg hhead, squeeze_dropWhile, ← hlen] at hcopy
  unfold normalize
  rw [h2]
  simpa using hcopy

/-! ## What `squeeze` produces -/

theorem squeeze_mem (l : List Nat) : ∀ c ∈ squeeze l, c ∈ l := by
  induction l with
  | nil => intro c h; simp [squeeze] at h
  | cons a l ih =>
    intro c h
    by_cases ha : a = 47
    · subst ha
      rw [squeeze_slash] at h
      exact List.mem_cons_of_mem _ (ih c h)
    · cases l with
      | nil => rw [squeeze_single a ha] at h; exact h
      | cons d r =>
        by_cases hd : d = 47
        · subst hd
          rw [squeeze_cons_slash a r ha] at h
          split at h
          · simp at h; simp [h]
          · simp only [List.mem_cons] at h
            rcases h with h | h | h
            · simp [h]
            · simp [h]
            · exact List.mem_cons_of_mem _ (ih c h)
        · rw [squeeze_cons_cons a d r ha hd] at h
          simp only [List.mem_cons] at h
          rcases h with h | h
          · simp [h]
          · exact List.mem_cons_of_mem _ (ih c (by simpa using h))

theorem squeeze_head (l : List Nat) : (squeeze l).head? ≠ some 47 := by
  induction l with
  | nil => simp [squeeze]
  | cons a l ih =>
    by_cases ha : a = 47
    · subst ha
      rw [squeeze_slash]
      exact ih
    · cases l with
      | nil => rw [squeeze_single a ha]; simp [ha]
      | cons d r =>
        by_cases hd : d = 47
        · subst hd
          rw [squeeze_cons_slash a r ha]
          split <;> simp [ha]
        · rw [squeeze_cons_cons a d r ha hd]
          simp [ha]

theorem squeeze_no_double (l : List Nat) : ¬ [47, 47] <:+: squeeze l := by
  induction l with
  | nil => simp [squeeze]
  | cons a l ih =>
    by_cases ha : a = 47
    · subst ha
      rw [squeeze_slash]
      exact ih
    · cases l with
      | nil =>
        rw [squeeze_single a ha, pair_infix_cons]
        simp
      | cons d r =>
        by_cases hd : d = 47
        · subst hd
          rw [squeeze_cons_slash a r ha]
          split
          · rw [pair_infix_cons]
            simp
          · rw [pair_infix_cons, pair_infix_cons]
            have hh := squeeze_head (47 :: r)
            simp [ha, hh, ih]
        · rw [squeeze_cons_cons a d r ha hd, pair_infix_cons]
          simp [ha, ih]

theorem getLast?_cons_ne_nil (a : Nat) (l : List Nat) (h : l ≠ []) :
    (a :: l).getLast? = l.getLast? := by
  cases l with
  | nil => exact absurd rfl h
  | cons b r => exact List.getLast?_cons_cons

theorem squeeze_getLast (l : List Nat) : (squeeze l).getLast? ≠ some 47 := by
  induction l with
  | nil => simp [squeeze]
  | cons a l ih =>
    by_cases ha : a = 47
    · subst ha
      rw [squeeze_slash]
      exact ih
    · cases l with
      | nil => rw [squeeze_single a ha]; simp [ha]
      | cons d r =>
        by_cases hd : d = 47
        · subst hd
          rw [squeeze_cons_slash a r ha]
          split
          · simp [ha]
          · rename_i hne
            rw [List.getLast?_cons_cons, getLast?_cons_ne_nil 47 _ hne]
            exact ih
        · rw [squeeze_cons_cons a d r ha hd]
          rw [getLast?_cons_ne_nil a _ (squeeze_ne_nil d r hd)]
          exact ih

theorem squeeze_length_aux (l : List Nat) :
    (squeeze l).length ≤ l.length ∧
      (l.head? = some 47 → (squeeze l).length + 1 ≤ l.length) := by
  induction l with
  | nil => simp [squeeze]
  | cons a l ih =>
    by_cases ha : a = 47
    · subst ha
      rw [squeeze_slash]
      simp
      omega
    · have hh : ¬ (a :: l).head? = some 47 := by simp [ha]
      refine ⟨?_, fun h => absurd h hh⟩
      cases l with
      | nil => rw [squeeze_single a ha]
      | cons d r =>
        by_cases hd : d = 47
        · subst hd
          rw [squeeze_cons_slash a r ha]
          have := ih.2 (by simp)
          split
          · simp
          · simp at this ⊢
            omega
        · rw [squeeze_cons_cons a d r ha hd]
          have := ih.1
          simp at this ⊢
          omega

theorem squeeze_length (l : List Nat) : (squeeze l).length ≤ l.length :=
  (squeeze_length_aux l).1

theorem squeeze_filter (l : List Nat) :
    (squeeze l).filter (fun c => decide (c ≠ 47)) = l.filter (fun c => decide (c ≠ 47)) := by
  induction l with
  | nil => simp [squeeze]
  | cons a l ih =>
    by_cases ha : a = 47
    · subst ha
      rw [squeeze_slash, ih]
      simp
    · cases l with
      | nil => rw [squeeze_single a ha]
      | cons d r =>
        by_cases hd : d = 47
        · subst hd
          rw [squeeze_cons_slash a r ha]
          split
          · rename_i h0
            have e : List.filter (fun c => decide (c ≠ 47)) (47 :: r) = [] := by
              rw [← ih, h0]
              rfl
            show List.filter (fun c => decide (c ≠ 47)) [a] =
              List.filter (fun c => decide (c ≠ 47)) ([a] ++ (47 :: r))
            rw [List.filter_append, e, List.append_nil]
          · simp [ha] at ih ⊢
            exact ih
        · rw [squeeze_cons_cons a d r ha hd]
          simp [ha] at ih ⊢
          exact ih

/-- A string without two slashes in a row and without a slash at the end is
kept by `squeeze`, up to one slash at its head. -/
theorem squeeze_fixed (l : List Nat) (h2 : ¬ [47, 47] <:+: l) (hl : l.getLast? ≠ some 47) :
    squeeze l = if l.head? = some 47 then l.tail else l := by
  induction l with
  | nil => simp [squeeze]
  | cons a l ih =>
    rw [pair_infix_cons] at h2
    push_neg at h2
    by_cases ha : a = 47
    · subst ha
      cases l with
      | nil => simp at hl
      | cons d r =>
        have hd : d ≠ 47 := by
          intro hd
          exact h2.1 rfl (by simp [hd])
        rw [List.getLast?_cons_cons] at hl
        have := ih h2.2 hl
        rw [squeeze_slash, this]
        simp [hd]
    · cases l with
      | nil => simp [squeeze_single a ha, ha]
      | cons d r =>
        rw [List.getLast?_cons_cons] at hl
        have hi := ih h2.2 hl
        by_cases hd : d = 47
        · subst hd
          rw [squeeze_cons_slash a r ha, hi]
          simp only [List.head?_cons, if_true, List.tail_cons]
          have hr : r ≠ [] := by
            intro hr
            subst hr
            simp at hl
          simp [hr, ha]
        · rw [squeeze_cons_cons a d r ha hd, hi]
          simp [ha, hd]

theorem squeeze_idem (l : List Nat) : squeeze (squeeze l) = squeeze l := by
  rw [squeeze_fixed (squeeze l) (squeeze_no_double l) (squeeze_getLast l),
    if_neg (squeeze_head l)]

/-! ## `squeeze` and the words of the spec -/

theorem intercalate_cons_cons (sep a b : List Nat) (l : List (List Nat)) :
    List.intercalate sep (a :: b :: l) = a ++ sep ++ List.intercalate sep (b :: l) := by
  simp [List.intercalate, List.intersperse]

theorem normalize_spec_nil : normalize_spec [] = [] := by
  simp [normalize_spec, List.splitOn, List.intercalate]

theorem normalize_spec_slash (l : List Nat) : normalize_spec (47 :: l) = normalize_spec l := by
  simp [normalize_spec, List.splitOn, List.splitOnP_cons]

theorem normalize_spec_cons (c : Nat) (l : List Nat) (hc : c ≠ 47) :
    ∃ h t, l.splitOn 47 = h :: t ∧
      normalize_spec (c :: l) = (c :: h) ++
        (if t.filter (fun seg => decide (seg ≠ [])) = [] then []
         else 47 :: List.intercalate [47] (t.filter (fun seg => decide (seg ≠ [])))) := by
  cases hsp : l.splitOn 47 with
  | nil => exact absurd hsp (List.splitOnP_ne_nil _ _)
  | cons h t =>
    refine ⟨h, t, rfl, ?_⟩
    unfold normalize_spec
    have : (c :: l).splitOn 47 = (c :: h) :: t := by
      unfold List.splitOn at hsp ⊢
      rw [List.splitOnP_cons, hsp]
      simp [hc]
    rw [this]
    simp only [List.filter_cons]
    cases hf : t.filter (fun seg => decide (seg ≠ [])) with
    | nil => simp [List.intercalate, List.intersperse]
    | cons x xs =>
      simp [intercalate_cons_cons]

theorem intercalate_filter_ne_nil (t : List (List Nat)) :
    List.intercalate [47] (t.filter (fun seg => decide (seg ≠ [])) ) = [] ↔
      t.filter (fun seg => decide (seg ≠ [])) = [] := by
  constructor
  · intro h
    cases hf : t.filter (fun seg => decide (seg ≠ [])) with
    | nil => rfl
    | cons x xs =>
      have hx : x ∈ t.filter (fun seg => decide (seg ≠ [])) := by rw [hf]; simp
      have hx2 := (List.mem_filter.mp hx).2
      rw [hf] at h
      cases xs with
      | nil =>
        simp [List.intercalate, List.intersperse] at h
        simp [h] at hx2
      | cons y ys =>
        rw [intercalate_cons_cons] at h
        simp at h
  · intro h
    rw [h]
    rfl

theorem splitOn_head_nil (l : List Nat) (h t) (hsp : l.splitOn 47 = h :: t) :
    (h = [] ↔ l = [] ∨ l.head? = some 47) := by
  cases l with
  | nil =>
    simp [List.splitOn] at hsp
    simp [hsp.1]
  | cons d r =>
    unfold List.splitOn at hsp
    rw [List.splitOnP_cons] at hsp
    by_cases hd : d = 47
    · simp [hd] at hsp
      simp [hd, hsp.1]
    · simp [hd] at hsp
      cases hr : List.splitOnP (fun x => x == 47) r with
      | nil => exact absurd hr (List.splitOnP_ne_nil _ _)
      | cons h2 t2 =>
        rw [hr] at hsp
        simp at hsp
        simp [hd, ← hsp.1]

theorem squeeze_eq_normalize_spec (l : List Nat) : squeeze l = normalize_spec l := by
  induction l with
  | nil => rw [normalize_spec_nil]; rfl
  | cons a l ih =>
    by_cases ha : a = 47
    · subst ha
      rw [squeeze_slash, normalize_spec_slash, ih]
    · obtain ⟨h, t, hsp, hn⟩ := normalize_spec_cons a l ha
      rw [hn]
      have hl : normalize_spec l =
          List.intercalate [47] ((h :: t).filter (fun seg => decide (seg ≠ []))) := by
        unfold normalize_spec
        rw [hsp]
      cases l with
      | nil =>
        simp [List.splitOn] at hsp
        obtain ⟨rfl, rfl⟩ := hsp
        rw [squeeze_single a ha]
        simp
      | cons d r =>
        have hh := splitOn_head_nil (d :: r) h t hsp
        by_cases hd : d = 47
        · subst hd
          have h0 : h = [] := hh.mpr (by simp)
          subst h0
          rw [squeeze_cons_slash a r ha, ih, hl]
          simp only [List.filter_cons]
          simp only [ne_eq, not_true_eq_false, decide_False, Bool.false_eq_true, if_false]
          by_cases hz : t.filter (fun seg => decide (seg ≠ [])) = []
          · rw [if_pos hz, if_pos ((intercalate_filter_ne_nil t).mpr hz)]
            simp
          · rw [if_neg hz, if_neg (fun hc => hz ((intercalate_filter_ne_nil t).mp hc))]
            simp
        · have h0 : h ≠ [] := by
            intro hc
            have := hh.mp hc
            simp [hd] at this
          rw [squeeze_cons_cons a d r ha hd, ih, hl]
          simp only [List.filter_cons]
          simp only [ne_eq, h0, not_false_eq_true, decide_True, if_true]
          cases hf : t.filter (fun seg => decide (seg ≠ [])) with
          | nil => simp [List.intercalate, List.intersperse]
          | cons x xs => simp [intercalate_cons_cons]

/-- C12. For every C string `p` (bytes 1 to 255, then the NUL) passed with
`length = strlen(p)`, `normalize` returns, and `normalize` applied to what it
wrote, with the length it returned, writes the same string again (and so
returns the same length). -/
theorem normalize_idempotent (p : List Nat) (hp : ∀ c ∈ p, 0 < c ∧ c < 256) :
    ∃ out, normalize (p ++ [0]) p.length = .ok out ∧
      normalize (out ++ [0]) out.length = .ok out := by
  refine ⟨squeeze p, normalize_eq_squeeze p hp, ?_⟩
  rw [normalize_eq_squeeze (squeeze p) (fun c hc => hp c (squeeze_mem p c hc)), squeeze_idem]

/-- Witness for C12: the path `//a//b/c///`. -/
theorem normalize_idempotent_witness :
    (∀ c ∈ str "//a//b/c///", 0 < c ∧ c < 256) ∧
    ∃ out, normalize (str "//a//b/c///" ++ [0]) (str "//a//b/c///").length = .ok out ∧
      normalize (out ++ [0]) out.length = .ok out :=
  ⟨by decide, normalize_idempotent (str "//a//b/c///") (by decide)⟩

/-- C13. For every C string `p` (bytes 1 to 255, then the NUL) passed with
`length = strlen(p)`, `normalize` returns, and the string `out` it writes is
`normalize_spec p`: the non-empty segments of `p` between slashes, in order,
joined by single slashes.  `out` does not start with a slash, holds no two
slashes in a row and does not end with a slash; its length (the returned `n`)
is at most `strlen(p)`; and the characters of `p` other than the slash appear
in `out` unchanged and in the same order. -/
theorem normalize_segments (p : List Nat) (hp : ∀ c ∈ p, 0 < c ∧ c < 256) :
    ∃ out, normalize (p ++ [0]) p.length = .ok out ∧
      out = normalize_spec p ∧
      out.head? ≠ some 47 ∧ ¬ [47, 47] <:+: out ∧ out.getLast? ≠ some 47 ∧
      out.length ≤ p.length ∧
      out.filter (fun c => decide (c ≠ 47)) = p.filter (fun c => decide (c ≠ 47)) :=
  ⟨squeeze p, normalize_eq_squeeze p hp, squeeze_eq_normalize_spec p, squeeze_head p,
    squeeze_no_double p, squeeze_getLast p, squeeze_length p, squeeze_filter p⟩

/-- Witness for C13: the path `//a//b/c///` is written as `a/b/c`. -/
theorem normalize_segments_witness :
    (∀ c ∈ str "//a//b/c///", 0 < c ∧ c < 256) ∧
    normalize (str "//a//b/c///" ++ [0]) (str "//a//b/c///").length = .ok (str "a/b/c") ∧
    ∃ out, normalize (str "//a//b/c///" ++ [0]) (str "//a//b/c///").length = .ok out ∧
      out = normalize_spec (str "//a//b/c///") ∧
      out.head? ≠ some 47 ∧ ¬ [47, 47] <:+: out ∧ out.getLast? ≠ some 47 ∧
      out.length ≤ (str "//a//b/c///").length ∧
      out.filter (fun c => decide (c ≠ 47)) =
        (str "//a//b/c///").filter (fun c => decide (c ≠ 47)) :=
  ⟨by decide, rfl, normalize_segments (str "//a//b/c///") (by decide)⟩

/-! ## `concat` and `dir_resolve` -/

theorem map_mod_eq (l : List Nat) (h : ∀ c ∈ l, c < 256) :
    l.map (fun b => b % 256) = l := by
  induction l with
  | nil => rfl
  | cons a l ih =>
    simp only [List.map_cons]
    rw [ih (fun c hc => h c (by simp [hc])), Nat.mod_eq_of_lt (h a (by simp))]

theorem memcpy_string (s : List Nat) (h : ∀ c ∈ s, c < 256) :
    memcpy (s ++ [0]) s.length = .ok s := by
  unfold memcpy
  rw [if_pos (by simp)]
  simp [map_mod_eq s h]

/-- What `strncmp` with the length of `m` as its bound says about a
mountpoint `m` and a path `v`: 0 exactly when `v` starts with `m`. -/
theorem strncmp_prefix (m : List Nat) :
    ∀ (v pre1 pre2 s1 s2 : List Nat), s1 = pre1 ++ v ++ [0] → s2 = pre2 ++ m ++ [0] →
      pre1.length = pre2.length →
      (∀ c ∈ m, 0 < c ∧ c < 256) → (∀ c ∈ v, 0 < c ∧ c < 256) →
      ∃ r, strncmp s1 s2 m.length pre1.length = .ok r ∧ (r = 0 ↔ m <+: v) := by
  induction m with
  | nil =>
    intro v pre1 pre2 s1 s2 _ _ _ _ _
    exact ⟨0, by simp [strncmp], by simp⟩
  | cons a m ih =>
    intro v pre1 pre2 s1 s2 h1 h2 hl hm hv
    have ha := hm a (by simp)
    have hb2 : byte_at s2 pre1.length = .ok a := by
      rw [h2, hl]
      have := byte_at_append pre2 a (m ++ [0])
      rw [Nat.mod_eq_of_lt ha.2] at this
      simpa using this
    cases v with
    | nil =>
      have hb1 : byte_at s1 pre1.length = .ok 0 := by
        rw [h1]
        simpa using byte_at_append pre1 0 []
      refine ⟨(0 : Int) - (a : Int), ?_, ?_⟩
      · have hne : (0 : Nat) ≠ a := by omega
        simp only [List.length_cons, strncmp, hb1, hb2]
        rw [if_pos hne]
        simp
      · simp
        omega
    | cons b v =>
      have hb := hv b (by simp)
      have hb1 : byte_at s1 pre1.length = .ok b := by
        rw [h1]
        have := byte_at_append pre1 b (v ++ [0])
        rw [Nat.mod_eq_of_lt hb.2] at this
        simpa using this
      by_cases hab : b = a
      · subst hab
        obtain ⟨r, hr, hiff⟩ := ih v (pre1 ++ [b]) (pre2 ++ [b]) s1 s2 (by simp [h1])
          (by simp [h2]) (by simp [hl]) (fun c hc => hm c (by simp [hc]))
          (fun c hc => hv c (by simp [hc]))
        refine ⟨r, ?_, ?_⟩
        · have hne : b ≠ 0 := by omega
          simp only [List.length_cons, strncmp, hb1, hb2]
          rw [if_neg (by simp), if_neg hne]
          simpa using hr
        · rw [hiff]
          simp [List.cons_prefix_cons]
      · refine ⟨(b : Int) - (a : Int), ?_, ?_⟩
        · simp only [List.length_cons, strncmp, hb1, hb2]
          rw [if_pos hab]
        · have hne : a ≠ b := fun h => hab h.symm
          simp [List.cons_prefix_cons, hne]
          omega

/-- What `strcmp` says about two C strings: 0 exactly when they are equal. -/
theorem strncmp_eq (a : List Nat) :
    ∀ (b pre1 pre2 s1 s2 : List Nat) (n : Nat), s1 = pre1 ++ a ++ [0] →
      s2 = pre2 ++ b ++ [0] → pre1.length = pre2.length → a.length < n →
      (∀ c ∈ a, 0 < c ∧ c < 256) → (∀ c ∈ b, 0 < c ∧ c < 256) →
      ∃ r, strncmp s1 s2 n pre1.length = .ok r ∧ (r = 0 ↔ a = b) := by
  induction a with
  | nil =>
    intro b pre1 pre2 s1 s2 n h1 h2 hl hn _ hb
    cases n with
    | zero => simp at hn
    | succ n =>
      have hb1 : byte_at s1 pre1.length = .ok 0 := by
        rw [h1]
        simpa using byte_at_append pre1 0 []
      cases b with
      | nil =>
        have hb2 : byte_at s2 pre1.length = .ok 0 := by
          rw [h2, hl]
          simpa using byte_at_append pre2 0 []
        exact ⟨0, by simp [strncmp, hb1, hb2], by simp⟩
      | cons d b =>
        have hd := hb d (by simp)
        have hb2 : byte_at s2 pre1.length = .ok d := by
          rw [h2, hl]
          have := byte_at_append pre2 d (b ++ [0])
          rw [Nat.mod_eq_of_lt hd.2] at this
          simpa using this
        refine ⟨(0 : Int) - (d : Int), ?_, ?_⟩
        · have hne : (0 : Nat) ≠ d := by omega
          simp only [strncmp, hb1, hb2]
          rw [if_pos hne]
          simp
        · simp
          omega
  | cons c a ih =>
    intro b pre1 pre2 s1 s2 n h1 h2 hl hn ha hb
    cases n with
    | zero => simp at hn
    | succ n =>
      have hc := ha c (by simp)
      have hb1 : byte_at s1 pre1.length = .ok c := by
        rw [h1]
        have := byte_at_append pre1 c (a ++ [0])
        rw [Nat.mod_eq_of_lt hc.2] at this
        simpa using this
      cases b with
      | nil =>
        have hb2 : byte_at s2 pre1.length = .ok 0 := by
          rw [h2, hl]
          simpa using byte_at_append pre2 0 []
        refine ⟨(c : Int) - (0 : Int), ?_, ?_⟩
        · have hne : c ≠ 0 := by omega
          simp only [strncmp, hb1, hb2]
          rw [if_pos hne]
          simp
        · simp
          omega
      | cons d b =>
        have hd := hb d (by simp)
        have hb2 : byte_at s2 pre1.length = .ok d := by
          rw [h2, hl]
          have := byte_at_append pre2 d (b ++ [0])
          rw [Nat.mod_eq_of_lt hd.2] at this
          simpa using this
        by_cases hcd : c = d
        · subst hcd
          obtain ⟨r, hr, hiff⟩ := ih b (pre1 ++ [c]) (pre2 ++ [c]) s1 s2 n (by simp [h1])
            (by simp [h2]) (by simp [hl]) (by simpa using hn)
            (fun x hx => ha x (by simp [hx])) (fun x hx => hb x (by simp [hx]))
          refine ⟨r, ?_, ?_⟩
          · have hne : c ≠ 0 := by omega
            simp only [strncmp, hb1, hb2]
            rw [if_neg (by simp), if_neg hne]
            simpa using hr
          · rw [hiff]
            simp
        · refine ⟨(c : Int) - (d : Int), ?_, ?_⟩
          · simp only [strncmp, hb1, hb2]
            rw [if_pos hcd]
          · simp [hcd]
            omega

theorem strcmp_eq (a b : List Nat) (ha : ∀ c ∈ a, 0 < c ∧ c < 256)
    (hb : ∀ c ∈ b, 0 < c ∧ c < 256) :
    ∃ r, strcmp (a ++ [0]) (b ++ [0]) = .ok r ∧ (r = 0 ↔ a = b) := by
  have h := strncmp_eq a b [] [] (a ++ [0]) (b ++ [0]) (a ++ [0]).length (by simp) (by simp)
    rfl (by simp) ha hb
  simpa [strcmp] using h

/-- What `concat` writes for two C strings, given with their lengths. -/
theorem concat_strings (b r : List Nat) (hb : ∀ c ∈ b, c < 256) (hr : ∀ c ∈ r, c < 256)
    (hsize : b.length + 1 + r.length < 2 ^ 64) :
    concat (b ++ [0]) b.length (r ++ [0]) r.length =
      .ok (if b.length + 1 + r.length ≥ LOVR_PATH_MAX then none else some (b ++ [47] ++ r)) := by
  unfold concat
  rw [Nat.mod_eq_of_lt hsize]
  by_cases h : b.length + 1 + r.length ≥ LOVR_PATH_MAX
  · rw [if_pos h, if_pos h]
  · rw [if_neg h, if_neg h, if_neg h, memcpy_string r hr, memcpy_string b hb]

/-- C20. For every directory archive whose `pathLength` and
`mountpointLength` are the lengths of its base path `b` and of its
mountpoint `m` (as `lovrFilesystemMount` sets them), and every virtual path
`v` (C strings, `strlen(b) + 1 + strlen(v)` below `2 ^ 64`): `dir_resolve`
returns `false` if `m` is set and `v` does not start with `m`, or if
`strlen(b) + 1 + strlen(remainder) >= LOVR_PATH_MAX`; otherwise it returns
`true` and has written exactly `b`, one `/` (47), then the remainder of `v`
after the first `strlen(m)` characters (all of `v` when no mountpoint is
set). -/
theorem dir_resolve_result (archive : MountedArchive) (v : List Nat)
    (hpl : archive.pathLength = archive.path.length)
    (hb : ∀ c ∈ archive.path, c < 256)
    (hm : ∀ m, archive.mountpoint = some m →
      archive.mountpointLength = m.length ∧ ∀ c ∈ m, 0 < c ∧ c < 256)
    (hv : ∀ c ∈ v, 0 < c ∧ c < 256)
    (hsize : archive.path.length + 1 + v.length < 2 ^ 64) :
    dir_resolve archive v =
      .ok (match archive.mountpoint with
        | some m =>
          if m <+: v then
            if archive.path.length + 1 + (v.length - m.length) ≥ LOVR_PATH_MAX then none
            else some (archive.path ++ [47] ++ v.drop m.length)
          else none
        | none =>
          if archive.path.length + 1 + v.length ≥ LOVR_PATH_MAX then none
          else some (archive.path ++ [47] ++ v)) := by
  unfold dir_resolve
  cases hmp : archive.mountpoint with
  | none =>
    simp only [hpl]
    exact concat_strings archive.path v hb (fun c hc => (hv c hc).2) hsize
  | some m =>
    obtain ⟨hml, hmc⟩ := hm m hmp
    obtain ⟨r, hr, hiff⟩ := strncmp_prefix m v [] [] (v ++ [0]) (m ++ [0]) (by simp) (by simp)
      rfl hmc hv
    simp only [List.length_nil] at hr
    simp only [hml, hr, hpl]
    by_cases hpre : m <+: v
    · have hr0 : r = 0 := hiff.mpr hpre
      have hle : m.length ≤ v.length := hpre.length_le
      have hsub : (v.length + (2 ^ 64 - m.length)) % 2 ^ 64 = (v.drop m.length).length := by
        rw [List.length_drop]
        omega
      have hdrop : (v ++ [0]).drop m.length = v.drop m.length ++ [0] := by
        rw [List.drop_append_of_le_length hle]
      rw [if_neg (by simp [hr0]), if_pos hpre, hsub, hdrop,
        concat_strings archive.path (v.drop m.length) hb
          (fun c hc => (hv c (List.mem_of_mem_drop hc)).2)
          (by rw [List.length_drop]; omega), List.length_drop]
    · have hr0 : r ≠ 0 := fun h => hpre (hiff.mp h)
      rw [if_pos hr0, if_neg hpre]


/-- Witness for C20: the directory `/data` mounted at `m` resolves
`m/readme.txt` to `/data//readme.txt`. -/
theorem dir_resolve_result_witness :
    dir_resolve ⟨none, str "/data", 5, some (str "m"), 1⟩ (str "m/readme.txt") =
      .ok (some (str "/data//readme.txt")) :=
  (dir_resolve_result ⟨none, str "/data", 5, some (str "m"), 1⟩ (str "m/readme.txt") rfl
    (by decide) (fun m h => by cases h; exact ⟨rfl, by decide⟩) (by decide)
    (by decide)).trans rfl

/-! ## `zip_read` -/

/-- A stored entry read with a byte limit within its size: the buffer has
the size of the entry and starts with the first `bytes` payload bytes. -/
theorem zip_read_stored_within (host : Host) (hash64 : List Nat → Nat) (archive : Archive)
    (path : List Nat) (bytes bytesRead index src srcSize : Nat) (node : zip_node)
    (hk : zip_lookup hash64 archive path = .ok (some index))
    (hn : archive.nodes[index]? = some node)
    (ht : node.info.type = .FILE_REGULAR)
    (hz : zip_load archive.data node.offset = .ok (some (src, srcSize, false)))
    (hm : host.malloc node.info.size = true)
    (hne : bytes ≠ SIZE_MAX)
    (hb : bytes ≤ node.info.size) (hs : src + bytes ≤ archive.data.length) :
    zip_read host hash64 archive path bytes bytesRead =
      .ok (some ⟨some (filled ((archive.data.drop src).take bytes) node.info.size), bytes⟩) := by
  have h1 : ¬ (bytes = SIZE_MAX ∨ bytes > node.info.size) := by
    intro h
    rcases h with h | h
    · exact hne h
    · omega
  have h2 : ¬ (bytes > node.info.size ∨ src + bytes > archive.data.length) := by
    intro h
    rcases h with h | h <;> omega
  simp only [zip_read, hk, hn, ht, hz, hm]
  rw [if_neg (by simp), if_neg (by simp), if_neg (by simp), if_neg h2, if_neg h1]

/-- C14, at the inputs where the code departs from it.  For a stored entry
of uncompressed size `n` whose payload `zip_load` finds, with the buffer of
`n` bytes allocated: every byte limit above `n`, the read-everything
sentinel `(size_t)-1` among them, makes `memcpy(*dst, src, bytes)` copy
`bytes` bytes, more than the `n` bytes of the buffer, so `zip_read` writes
outside the buffer instead of copying `min(limit, n)` bytes.  For a limit
within `n` the code does what the claim says (`zip_read_stored_within`). -/
theorem zip_read_stored_overrun (host : Host) (hash64 : List Nat → Nat) (archive : Archive)
    (path : List Nat) (bytes bytesRead index src srcSize : Nat) (node : zip_node)
    (hk : zip_lookup hash64 archive path = .ok (some index))
    (hn : archive.nodes[index]? = some node)
    (ht : node.info.type = .FILE_REGULAR)
    (hz : zip_load archive.data node.offset = .ok (some (src, srcSize, false)))
    (hm : host.malloc node.info.size = true)
    (hb : node.info.size < bytes) :
    zip_read host hash64 archive path bytes bytesRead = .error .outOfBounds := by
  simp only [zip_read, hk, hn, ht, hz, hm]
  rw [if_neg (by simp), if_neg (by simp), if_neg (by simp), if_pos (Or.inl hb)]

set_option maxRecDepth 20000 in
/-- The index of the sample containers is the one `zip_init` builds. -/
theorem sample_index_init (payload : List Nat) (h : payload = [1, 2, 3] ∨ payload = [4, 5, 6]) :
    zip_init sample_hash64 sample_mktime (some (sample_zip1 (str "readme.txt") payload))
      (some (str "m")) none = .ok (some (sample_index payload)) := by
  rcases h with rfl | rfl <;> rfl

set_option maxRecDepth 20000 in
/-- Witness for C14: the container with the stored entry `readme.txt` of
content 1, 2, 3, mounted at `m`, read with the sentinel as byte limit. -/
theorem zip_read_stored_overrun_witness :
    zip_init sample_hash64 sample_mktime (some (sample_zip1 (str "readme.txt") [1, 2, 3]))
      (some (str "m")) none = .ok (some (sample_index [1, 2, 3])) ∧
    zip_stat sample_hash64 (sample_index [1, 2, 3]) (str "m/readme.txt") =
      .ok (some ⟨3, 124, .FILE_REGULAR⟩) ∧
    zip_load (sample_index [1, 2, 3]).data 0 = .ok (some (40, 3, false)) ∧
    zip_read sample_host sample_hash64 (sample_index [1, 2, 3]) (str "m/readme.txt")
      SIZE_MAX 0 = .error .outOfBounds :=
  ⟨rfl, rfl, rfl,
    zip_read_stored_overrun sample_host sample_hash64 (sample_index [1, 2, 3])
      (str "m/readme.txt") SIZE_MAX 0 0 40 3
      ⟨NONE, NONE, some (str "readme.txt"), 0, ⟨3, 124, .FILE_REGULAR⟩⟩
      rfl rfl rfl rfl rfl (by decide)⟩

set_option maxRecDepth 20000 in
/-- Counterexample to C15 as stated: `m` is a directory of the sample
index; `zip_read` returns `true` with a null buffer, but it stores nothing in
`*bytesRead`, which still holds the 7 it held at the call, not 0. -/
theorem zip_read_directory_counterexample :
    zip_stat sample_hash64 (sample_index [1, 2, 3]) (str "m") =
      .ok (some ⟨3, 124, .FILE_DIRECTORY⟩) ∧
    zip_read sample_host sample_hash64 (sample_index [1, 2, 3]) (str "m") 10 7 =
      .ok (some ⟨none, 7⟩) ∧
    zip_read sample_host sample_hash64 (sample_index [1, 2, 3]) (str "m") 10 7 ≠
      .ok (some ⟨none, 0⟩) := by
  have h : zip_read sample_host sample_hash64 (sample_index [1, 2, 3]) (str "m") 10 7 =
      .ok (some ⟨none, 7⟩) := rfl
  refine ⟨rfl, h, ?_⟩
  rw [h]
  simp

/-- C15, amended.  For every container archive and path: if the path
resolves to a node of type Directory, `zip_read` returns `true` with a null
buffer and leaves `*bytesRead` as it was at the call (no byte count is
stored); if the path resolves to no node, `zip_read` returns `false`; the
two outcomes differ in the return value. -/
theorem zip_read_directory (host : Host) (hash64 : List Nat → Nat) (archive : Archive)
    (path : List Nat) (bytes bytesRead : Nat) :
    (∀ index node, zip_lookup hash64 archive path = .ok (some index) →
      archive.nodes[index]? = some node → node.info.type = .FILE_DIRECTORY →
      zip_read host hash64 archive path bytes bytesRead = .ok (some ⟨none, bytesRead⟩)) ∧
    (zip_lookup hash64 archive path = .ok none →
      zip_read host hash64 archive path bytes bytesRead = .ok none) ∧
    (∀ r : ReadResult, (.ok (some r) : Run (Option ReadResult)) ≠ .ok none) := by
  refine ⟨?_, ?_, ?_⟩
  · intro index node hk hn ht
    simp only [zip_read, hk, hn, ht]
    rw [if_pos (by simp)]
  · intro hk
    simp only [zip_read, hk]
  · intro r h
    simp at h

set_option maxRecDepth 20000 in
/-- Witness for C15: the directory `m` and the absent path `m/nope` of the
sample index. -/
theorem zip_read_directory_witness :
    zip_read sample_host sample_hash64 (sample_index [1, 2, 3]) (str "m") 10 7 =
      .ok (some ⟨none, 7⟩) ∧
    zip_read sample_host sample_hash64 (sample_index [1, 2, 3]) (str "m/nope") 10 7 =
      .ok none :=
  ⟨(zip_read_directory sample_host sample_hash64 (sample_index [1, 2, 3]) (str "m") 10 7).1 1
      ⟨0, NONE, some (str "m"), 0, ⟨3, 124, .FILE_DIRECTORY⟩⟩ rfl rfl rfl,
    (zip_read_directory sample_host sample_hash64 (sample_index [1, 2, 3]) (str "m/nope")
      10 7).2.1 rfl⟩

/-! ## The mount table -/

theorem valid_loop_total (suf : List Nat) :
    ∀ (pre path : List Nat) (fuel : Nat), path = pre ++ suf ++ [0] → suf.length < fuel →
      ∃ b, valid_loop path fuel pre.length = .ok b := by
  induction suf with
  | nil =>
    intro pre path fuel hp hf
    cases fuel with
    | zero => simp at hf
    | succ fuel =>
      have hb : byte_at path pre.length = .ok 0 := by
        rw [hp]
        simpa using byte_at_append pre 0 []
      exact ⟨true, by simp [valid_loop, hb]⟩
  | cons c rest ih =>
    intro pre path fuel hp hf
    cases fuel with
    | zero => simp at hf
    | succ fuel =>
      have hb : byte_at path pre.length = .ok (c % 256) := by
        rw [hp]
        simpa using byte_at_append pre c (rest ++ [0])
      obtain ⟨b, hrec⟩ := ih (pre ++ [c]) path fuel (by simp [hp]) (by simpa using hf)
      have hlen : (pre ++ [c]).length = pre.length + 1 := by simp
      rw [hlen] at hrec
      have hnext : ∃ d, byte_at path (pre.length + 1) = .ok d := by
        rw [hp]
        cases rest with
        | nil => exact ⟨0 % 256, by simpa using byte_at_append_succ pre c 0 []⟩
        | cons d r => exact ⟨d % 256, by simpa using byte_at_append_succ pre c d (r ++ [0])⟩
      obtain ⟨d, hd⟩ := hnext
      rw [valid_loop, hb]
      simp only [hd, hrec]
      split
      · exact ⟨_, rfl⟩
      · split
        · split
          · exact ⟨_, rfl⟩
          · split <;> exact ⟨_, rfl⟩
        · split <;> exact ⟨_, rfl⟩

/-- On every string `valid` returns. -/
theorem valid_total (s : List Nat) : ∃ b, valid (s ++ [0]) = .ok b := by
  have h := valid_loop_total s [] (s ++ [0]) (s ++ [0]).length (by simp) (by simp)
  simpa [valid] using h

theorem archiveStat_loop_first (host : Host) (hash64 : List Nat → Nat) (v : List Nat)
    (a : MountedArchive) (post : List MountedArchive) (info : FileInfo)
    (ha : archive_stat host hash64 a v = .ok (some info)) :
    ∀ (pre : List MountedArchive) (i : Nat),
      (∀ b ∈ pre, archive_stat host hash64 b v = .ok none) →
      archiveStat_loop host hash64 v (pre ++ a :: post) i = .ok (some (i + pre.length, info)) := by
  intro pre
  induction pre with
  | nil =>
    intro i _
    simp [archiveStat_loop, ha]
  | cons b pre ih =>
    intro i h
    have hb := h b (by simp)
    have := ih (i + 1) (fun c hc => h c (by simp [hc]))
    have e : i + 1 + pre.length = i + (b :: pre).length := by
      simp
      omega
    rw [e] at this
    simp only [List.cons_append, archiveStat_loop, hb]
    exact this

theorem archiveStat_loop_none (host : Host) (hash64 : List Nat → Nat) (v : List Nat) :
    ∀ (T : List MountedArchive) (i : Nat),
      archiveStat_loop host hash64 v T i = .ok none ↔
        ∀ b ∈ T, archive_stat host hash64 b v = .ok none := by
  intro T
  induction T with
  | nil => intro i; simp [archiveStat_loop]
  | cons a T ih =>
    intro i
    rw [archiveStat_loop]
    cases h : archive_stat host hash64 a v with
    | error e => simp [h]
    | ok r =>
      cases r with
      | none => simp [h, ih (i + 1)]
      | some info => simp [h]

theorem lovrFilesystemRead_loop_first (host : Host) (hash64 : List Nat → Nat) (v : List Nat)
    (bytes bytesRead : Nat) (a : MountedArchive) (post : List MountedArchive) (r : ReadResult)
    (ha : archive_read host hash64 a v bytes bytesRead = .ok (some r)) :
    ∀ (pre : List MountedArchive),
      (∀ b ∈ pre, archive_read host hash64 b v bytes bytesRead = .ok none) →
      lovrFilesystemRead_loop host hash64 v bytes bytesRead (pre ++ a :: post) = .ok r := by
  intro pre
  induction pre with
  | nil =>
    intro _
    simp [lovrFilesystemRead_loop, ha]
  | cons b pre ih =>
    intro h
    have hb := h b (by simp)
    have := ih (fun c hc => h c (by simp [hc]))
    simp only [List.cons_append, lovrFilesystemRead_loop, hb]
    exact this

theorem lovrFilesystemRead_loop_none (host : Host) (hash64 : List Nat → Nat) (v : List Nat)
    (bytes bytesRead : Nat) :
    ∀ (T : List MountedArchive),
      (∀ b ∈ T, archive_read host hash64 b v bytes bytesRead = .ok none) →
      lovrFilesystemRead_loop host hash64 v bytes bytesRead T = .ok ⟨none, bytesRead⟩ := by
  intro T
  induction T with
  | nil => intro _; rfl
  | cons a T ih =>
    intro h
    have ha := h a (by simp)
    have := ih (fun c hc => h c (by simp [hc]))
    simp only [lovrFilesystemRead_loop, ha, this]

set_option maxRecDepth 20000 in
/-- Counterexample to C16 as stated: the path `m` is valid and the first
archive of the sample table serves it (its `read` returns `true`, for a
directory), yet `lovrFilesystemRead` returns `NULL`, the value it returns for
a path that no archive serves. -/
theorem lovrFilesystemRead_null_counterexample :
    valid (str "m" ++ [0]) = .ok true ∧
    archive_read sample_host sample_hash64 (sample_mounted (str "y.zip") [1, 2, 3]) (str "m")
      10 7 = .ok (some ⟨none, 7⟩) ∧
    sample_mounted (str "y.zip") [1, 2, 3] ∈ sample_table ∧
    lovrFilesystemRead sample_host sample_hash64 sample_table (str "m") 10 7 =
      .ok ⟨none, 7⟩ :=
  ⟨rfl, rfl, by simp [sample_table], rfl⟩

/-- C16, amended.  For every mount table `T` and virtual path `v`: when
`v` passes `valid` and `a` is the first archive of `T` whose `stat` (`read`)
returns `true`, `archiveStat` returns `a` (its index) with the `FileInfo`
that `a` stored, and `lovrFilesystemRead` returns the buffer and byte count
that `a` stored, whatever archives follow `a` in the table.  `archiveStat`
returns `NULL` exactly when `v` fails `valid` or no archive succeeds.
`lovrFilesystemRead` returns `NULL`, with `*bytesRead` untouched, when `v`
fails `valid` or no archive succeeds; it also returns `NULL` when the first
succeeding archive stored a null buffer. -/
theorem mount_table_first_success (host : Host) (hash64 : List Nat → Nat)
    (T : List MountedArchive) (v : List Nat) (bytes bytesRead : Nat) :
    (∀ pre a post info, T = pre ++ a :: post → valid (v ++ [0]) = .ok true →
      (∀ b ∈ pre, archive_stat host hash64 b v = .ok none) →
      archive_stat host hash64 a v = .ok (some info) →
      archiveStat host hash64 T v = .ok (some (pre.length, info))) ∧
    (archiveStat host hash64 T v = .ok none ↔
      valid (v ++ [0]) = .ok false ∨
        (valid (v ++ [0]) = .ok true ∧ ∀ b ∈ T, archive_stat host hash64 b v = .ok none)) ∧
    (∀ pre a post r, T = pre ++ a :: post → valid (v ++ [0]) = .ok true →
      (∀ b ∈ pre, archive_read host hash64 b v bytes bytesRead = .ok none) →
      archive_read host hash64 a v bytes bytesRead = .ok (some r) →
      lovrFilesystemRead host hash64 T v bytes bytesRead = .ok r) ∧
    (valid (v ++ [0]) = .ok false ∨
        (valid (v ++ [0]) = .ok true ∧
          ∀ b ∈ T, archive_read host hash64 b v bytes bytesRead = .ok none) →
      lovrFilesystemRead host hash64 T v bytes bytesRead = .ok ⟨none, bytesRead⟩) := by
  refine ⟨?_, ?_, ?_, ?_⟩
  · intro pre a post info hT hv hpre ha
    subst hT
    have := archiveStat_loop_first host hash64 v a post info ha pre 0 hpre
    simp only [archiveStat, hv, this, Nat.zero_add]
  · unfold archiveStat
    cases hv : valid (v ++ [0]) with
    | error e => simp
    | ok b =>
      cases b with
      | false => simp
      | true => simp [archiveStat_loop_none]
  · intro pre a post r hT hv hpre ha
    subst hT
    have := lovrFilesystemRead_loop_first host hash64 v bytes bytesRead a post r ha pre hpre
    simp only [lovrFilesystemRead, hv, this]
  · intro h
    rcases h with hv | ⟨hv, hall⟩
    · simp only [lovrFilesystemRead, hv]
    · have := lovrFilesystemRead_loop_none host hash64 v bytes bytesRead T hall
      simp only [lovrFilesystemRead, hv, this]

set_option maxRecDepth 20000 in
/-- Witness for C16: `y.zip` sits in front of `x.zip`, both serve
`m/readme.txt`; `archiveStat` returns index 0 and the read returns the
content 1, 2, 3 of `y.zip`, not the 4, 5, 6 of `x.zip`. -/
theorem mount_table_first_success_witness :
    archiveStat sample_host sample_hash64 sample_table (str "m/readme.txt") =
      .ok (some (0, ⟨3, 124, .FILE_REGULAR⟩)) ∧
    archive_read sample_host sample_hash64 (sample_mounted (str "x.zip") [4, 5, 6])
      (str "m/readme.txt") 3 0 = .ok (some ⟨some [some 4, some 5, some 6], 3⟩) ∧
    lovrFilesystemRead sample_host sample_hash64 sample_table (str "m/readme.txt") 3 0 =
      .ok ⟨some [some 1, some 2, some 3], 3⟩ :=
  ⟨(mount_table_first_success sample_host sample_hash64 sample_table (str "m/readme.txt")
      3 0).1 [] (sample_mounted (str "y.zip") [1, 2, 3])
      [sample_mounted (str "x.zip") [4, 5, 6]] ⟨3, 124, .FILE_REGULAR⟩ rfl rfl
      (by simp) rfl,
    rfl,
    (mount_table_first_success sample_host sample_hash64 sample_table (str "m/readme.txt")
      3 0).2.2.1 [] (sample_mounted (str "y.zip") [1, 2, 3])
      [sample_mounted (str "x.zip") [4, 5, 6]] ⟨some [some 1, some 2, some 3], 3⟩ rfl rfl
      (by simp) rfl⟩

/-- C17. For every mount table `T` and every source that initialises, as a
directory (`dir_init` returns `true`) or else as a container (`zip_init`
returns `true` with the index `a`): `lovrFilesystemMount` returns `true`;
with `append = false` the table afterwards is the new archive followed by
`T`, with `append = true` it is `T` followed by the new archive.  Either way
the length grows by one and `T` is kept as a block in its order (as the tail
of the one table, as the head of the other). -/
theorem lovrFilesystemMount_order (host : Host) (hash64 : List Nat → Nat) (mktime : tm → Nat)
    (T : List MountedArchive) (path : List Nat) (mountpoint root : Option (List Nat))
    (zip : Option Archive)
    (hinit : (dir_init host path = true ∧ zip = none) ∨
      (dir_init host path = false ∧ ∃ a, zip = some a ∧
        zip_init hash64 mktime (host.fs_map path) mountpoint root = .ok (some a))) :
    lovrFilesystemMount host hash64 mktime T path mountpoint false root =
      .ok (true, lovrFilesystemMount_archive zip path mountpoint :: T) ∧
    lovrFilesystemMount host hash64 mktime T path mountpoint true root =
      .ok (true, T ++ [lovrFilesystemMount_archive zip path mountpoint]) ∧
    ∀ A : MountedArchive, (A :: T).length = T.length + 1 ∧ (T ++ [A]).length = T.length + 1 ∧
      T <:+ A :: T ∧ T <+: T ++ [A] := by
  refine ⟨?_, ?_, ?_⟩
  · rcases hinit with ⟨hd, rfl⟩ | ⟨hd, a, rfl, hz⟩
    · simp [lovrFilesystemMount, hd]
    · simp [lovrFilesystemMount, hd, hz]
  · rcases hinit with ⟨hd, rfl⟩ | ⟨hd, a, rfl, hz⟩
    · simp [lovrFilesystemMount, hd]
    · simp [lovrFilesystemMount, hd, hz]
  · intro A
    exact ⟨by simp, by simp, List.suffix_cons A T, List.prefix_append T [A]⟩

set_option maxRecDepth 20000 in
/-- The sample table is what mounting `x.zip` and then `y.zip`, both in
front, leaves. -/
theorem sample_table_mounted :
    lovrFilesystemMount sample_host sample_hash64 sample_mktime [] (str "x.zip")
      (some (str "m")) false none = .ok (true, [sample_mounted (str "x.zip") [4, 5, 6]]) ∧
    lovrFilesystemMount sample_host sample_hash64 sample_mktime
      [sample_mounted (str "x.zip") [4, 5, 6]] (str "y.zip") (some (str "m")) false none =
      .ok (true, sample_table) := ⟨rfl, rfl⟩

set_option maxRecDepth 20000 in
/-- Witness for C17: `y.zip` mounted in front of `x.zip`, and the directory
`/data` mounted behind it. -/
theorem lovrFilesystemMount_order_witness :
    lovrFilesystemMount sample_host sample_hash64 sample_mktime
      [sample_mounted (str "x.zip") [4, 5, 6]] (str "y.zip") (some (str "m")) false none =
      .ok (true, [sample_mounted (str "y.zip") [1, 2, 3],
        sample_mounted (str "x.zip") [4, 5, 6]]) ∧
    lovrFilesystemMount sample_host sample_hash64 sample_mktime
      [sample_mounted (str "x.zip") [4, 5, 6]] (str "/data") none true none =
      .ok (true, [sample_mounted (str "x.zip") [4, 5, 6],
        ⟨none, str "/data", 5, none, 0⟩]) :=
  ⟨(lovrFilesystemMount_order sample_host sample_hash64 sample_mktime
      [sample_mounted (str "x.zip") [4, 5, 6]] (str "y.zip") (some (str "m")) none
      (some (sample_index [1, 2, 3])) (Or.inr ⟨rfl, _, rfl, rfl⟩)).1,
    (lovrFilesystemMount_order sample_host sample_hash64 sample_mktime
      [sample_mounted (str "x.zip") [4, 5, 6]] (str "/data") none none
      none (Or.inl ⟨rfl, rfl⟩)).2.1⟩

/-- The part of C18 that the code does satisfy: when `dir_init` returns
`false` and `zip_init` returns `false` (the mountpoint is too long, `fs_map`
gives no buffer, or `zip_next` rejects an entry after the index was
initialised), `lovrFilesystemMount` returns `false` and the mount table
afterwards is the table before the call. -/
theorem lovrFilesystemMount_failure (host : Host) (hash64 : List Nat → Nat) (mktime : tm → Nat)
    (T : List MountedArchive) (path : List Nat) (mountpoint : Option (List Nat))
    (append : Bool) (root : Option (List Nat))
    (hd : dir_init host path = false)
    (hz : zip_init hash64 mktime (host.fs_map path) mountpoint root = .ok none) :
    lovrFilesystemMount host hash64 mktime T path mountpoint append root = .ok (false, T) := by
  simp [lovrFilesystemMount, hd, hz]

set_option maxRecDepth 20000 in
/-- A source that `fs_map` cannot map: `lovrFilesystemMount` returns `false`
and the table is unchanged. -/
theorem lovrFilesystemMount_unmapped :
    dir_init sample_host (str "none.bin") = false ∧
    sample_host.fs_map (str "none.bin") = none ∧
    lovrFilesystemMount sample_host sample_hash64 sample_mktime sample_table (str "none.bin")
      (some (str "m")) false none = .ok (false, sample_table) :=
  ⟨rfl, rfl, lovrFilesystemMount_failure sample_host sample_hash64 sample_mktime sample_table
    (str "none.bin") (some (str "m")) false none rfl rfl⟩

/-- `zip_init` on a buffer that `zip_open` does not accept, or that announces
more than `UINT32_MAX` entries: `zip_close` runs before `arr_init` and
`map_init`, on the archive of `lovrFilesystemMount` whose `nodes` and
`lookup` were never initialised. -/
theorem zip_init_non_container (hash64 : List Nat → Nat) (mktime : tm → Nat)
    (data m : List Nat) (root : Option (List Nat)) (stripped : Option (List Nat) × Nat)
    (hm : ∀ c ∈ m, 0 < c ∧ c < 256) (hlen : m.length + 1 < LOVR_PATH_MAX)
    (hroot : zip_root root = .ok stripped)
    (hopen : zip_open data = .ok none ∨
      ∃ cursor count, zip_open data = .ok (some (cursor, count)) ∧ count > UINT32_MAX) :
    zip_init hash64 mktime (some data) (some m) root = .error .uninitialized := by
  unfold zip_init
  simp only [normalize_eq_squeeze m hm, hroot]
  rw [if_neg (by omega)]
  rcases hopen with h | ⟨cursor, count, h, hmax⟩
  · simp only [h]
    rfl
  · simp only [h]
    rw [if_pos hmax]
    rfl

/-- C18, the defect.  For every source that is not a directory and that
`fs_map` maps to a buffer which is no container (`zip_open` returns `false`,
or the index announces more than `UINT32_MAX` entries), mounted at a
mountpoint that is a C string of fewer than `LOVR_PATH_MAX - 1` bytes with a
root that `zip_init` can strip: `lovrFilesystemMount` does not return `false`
with the table unchanged; `zip_init` calls `zip_close` on the archive whose
`nodes` and `lookup` were never initialised, and `arr_free` reads them. -/
theorem lovrFilesystemMount_non_container (host : Host) (hash64 : List Nat → Nat)
    (mktime : tm → Nat) (T : List MountedArchive) (path data m : List Nat) (append : Bool)
    (root : Option (List Nat)) (stripped : Option (List Nat) × Nat)
    (hd : dir_init host path = false)
    (hmap : host.fs_map path = some data)
    (hm : ∀ c ∈ m, 0 < c ∧ c < 256) (hlen : m.length + 1 < LOVR_PATH_MAX)
    (hroot : zip_root root = .ok stripped)
    (hopen : zip_open data = .ok none ∨
      ∃ cursor count, zip_open data = .ok (some (cursor, count)) ∧ count > UINT32_MAX) :
    lovrFilesystemMount host hash64 mktime T path (some m) append root =
      .error .uninitialized := by
  have hz := zip_init_non_container hash64 mktime data m root stripped hm hlen hroot hopen
  simp [lovrFilesystemMount, hd, hmap, hz]

set_option maxRecDepth 20000 in
/-- Witness for C18: `junk.bin` holds the three bytes 1, 2, 3; it is neither
a directory nor a container, and mounting it releases the uninitialised
index. -/
theorem lovrFilesystemMount_non_container_witness :
    dir_init sample_host (str "junk.bin") = false ∧
    sample_host.fs_map (str "junk.bin") = some [1, 2, 3] ∧
    zip_open [1, 2, 3] = .ok none ∧
    lovrFilesystemMount sample_host sample_hash64 sample_mktime sample_table (str "junk.bin")
      (some (str "m")) false none = .error .uninitialized :=
  ⟨rfl, rfl, rfl, lovrFilesystemMount_non_container sample_host sample_hash64 sample_mktime
    sample_table (str "junk.bin") [1, 2, 3] (str "m") false none (none, 0) (by rfl) (by rfl)
    (by decide) (by decide) (by rfl) (Or.inl (by rfl))⟩

/-- The loop of `lovrFilesystemUnmount` takes out the first archive whose
source path is `path`, and nothing when there is none. -/
theorem lovrFilesystemUnmount_first (path : List Nat) (hp : ∀ c ∈ path, 0 < c ∧ c < 256) :
    ∀ (T : List MountedArchive), (∀ a ∈ T, ∀ c ∈ a.path, 0 < c ∧ c < 256) →
      ∃ found T2, lovrFilesystemUnmount path T = .ok (found, T2) ∧
        (found = true → ∃ pre a post, T = pre ++ a :: post ∧ a.path = path ∧
          (∀ b ∈ pre, b.path ≠ path) ∧ T2 = pre ++ post) ∧
        (found = false → T2 = T ∧ ∀ a ∈ T, a.path ≠ path) := by
  intro T
  induction T with
  | nil =>
    intro _
    exact ⟨false, [], rfl, by simp, by simp⟩
  | cons a T ih =>
    intro hT
    obtain ⟨r, hr, hiff⟩ := strcmp_eq a.path path (hT a (by simp)) hp
    by_cases h0 : r = 0
    · refine ⟨true, T, ?_, ?_, by simp⟩
      · simp only [lovrFilesystemUnmount, hr]
        rw [if_pos h0]
      · intro _
        exact ⟨[], a, T, rfl, hiff.mp h0, by simp, rfl⟩
    · obtain ⟨found, T2, hrec, htrue, hfalse⟩ := ih (fun b hb => hT b (by simp [hb]))
      have hne : a.path ≠ path := fun h => h0 (hiff.mpr h)
      refine ⟨found, a :: T2, ?_, ?_, ?_⟩
      · simp only [lovrFilesystemUnmount, hr, hrec]
        rw [if_neg h0]
      · intro hf
        obtain ⟨pre, x, post, h1, h2, h3, h4⟩ := htrue hf
        refine ⟨a :: pre, x, post, by simp [h1], h2, ?_, by simp [h4]⟩
        intro b hb
        rcases List.mem_cons.mp hb with rfl | hb
        · exact hne
        · exact h3 b hb
      · intro hf
        obtain ⟨h1, h2⟩ := hfalse hf
        refine ⟨by rw [h1], ?_⟩
        intro b hb
        rcases List.mem_cons.mp hb with rfl | hb
        · exact hne
        · exact h2 b hb

/-- C19. For every mount table `T` and path (C strings):
`lovrFilesystemUnmount` returns, and it returns `true` if and only if the
source path of some archive of `T` equals the argument.  When it returns
`false` the table is unchanged.  When it returns `true` the table afterwards
is `T` without one archive, the first one in table order whose source path
matches, the others keeping their order; and a path that none of the
remaining archives serves is afterwards not found by `archiveStat`. -/
theorem lovrFilesystemUnmount_result (T : List MountedArchive) (path : List Nat)
    (hT : ∀ a ∈ T, ∀ c ∈ a.path, 0 < c ∧ c < 256) (hp : ∀ c ∈ path, 0 < c ∧ c < 256) :
    ∃ found T2, lovrFilesystemUnmount path T = .ok (found, T2) ∧
      (found = true ↔ ∃ a ∈ T, a.path = path) ∧
      (found = false → T2 = T) ∧
      (found = true → ∃ pre a post, T = pre ++ a :: post ∧ a.path = path ∧
        (∀ b ∈ pre, b.path ≠ path) ∧ T2 = pre ++ post ∧ T2.length + 1 = T.length ∧
        ∀ (host : Host) (hash64 : List Nat → Nat) (v : List Nat),
          (∀ b ∈ pre ++ post, archive_stat host hash64 b v = .ok none) →
          archiveStat host hash64 T2 v = .ok none) := by
  obtain ⟨found, T2, hrun, htrue, hfalse⟩ := lovrFilesystemUnmount_first path hp T hT
  refine ⟨found, T2, hrun, ?_, fun h => (hfalse h).1, ?_⟩
  · constructor
    · intro h
      obtain ⟨pre, a, post, h1, h2, _, _⟩ := htrue h
      exact ⟨a, by simp [h1], h2⟩
    · rintro ⟨a, ha, hpa⟩
      cases found with
      | true => rfl
      | false => exact absurd hpa ((hfalse rfl).2 a ha)
  · intro h
    obtain ⟨pre, a, post, h1, h2, h3, h4⟩ := htrue h
    refine ⟨pre, a, post, h1, h2, h3, h4, by simp [h1, h4]; omega, ?_⟩
    intro host hash64 v hall
    obtain ⟨b, hb⟩ := valid_total v
    unfold archiveStat
    rw [hb]
    cases b with
    | false => rfl
    | true =>
      simp only
      rw [archiveStat_loop_none, h4]
      exact hall

set_option maxRecDepth 20000 in
/-- Witness for C19: unmounting `y.zip` leaves `x.zip`; unmounting `z.zip`,
which is not mounted, leaves the table as it is. -/
theorem lovrFilesystemUnmount_result_witness :
    lovrFilesystemUnmount (str "y.zip") sample_table =
      .ok (true, [sample_mounted (str "x.zip") [4, 5, 6]]) ∧
    lovrFilesystemUnmount (str "z.zip") sample_table = .ok (false, sample_table) ∧
    ∃ found T2, lovrFilesystemUnmount (str "y.zip") sample_table = .ok (found, T2) ∧
      (found = true ↔ ∃ a ∈ sample_table, a.path = str "y.zip") ∧
      (found = false → T2 = sample_table) ∧
      (found = true → ∃ pre a post, sample_table = pre ++ a :: post ∧ a.path = str "y.zip" ∧
        (∀ b ∈ pre, b.path ≠ str "y.zip") ∧ T2 = pre ++ post ∧
        T2.length + 1 = sample_table.length ∧
        ∀ (host : Host) (hash64 : List Nat → Nat) (v : List Nat),
          (∀ b ∈ pre ++ post, archive_stat host hash64 b v = .ok none) →
          archiveStat host hash64 T2 v = .ok none) :=
  ⟨rfl, rfl, lovrFilesystemUnmount_result sample_table (str "y.zip") (by decide) (by decide)⟩

/-! ## The upward walk, round by round -/

/-- The walk ends when the decrement has wrapped. -/
theorem zip_walk_end (hash64 : List Nat → Nat) (path : List Nat) (fuel slash : Nat)
    (node : zip_node) (nodes : List zip_node) (lookup : map_t) :
    zip_walk hash64 path (fuel + 1) SIZE_MAX slash node nodes lookup = .ok (nodes, lookup) := by
  simp only [zip_walk, ne_eq, not_true_eq_false, if_false]

/-- A round of the walk at a path that is not indexed: the pending node is
pushed with its file name, the hash is recorded, and the walk goes on one
segment up with a pending directory whose first child is the pushed node. -/
theorem zip_walk_push (hash64 : List Nat → Nat) (path : List Nat) (fuel length slash : Nat)
    (node : zip_node) (nodes : List zip_node) (lookup : map_t)
    (hlen : length ≠ SIZE_MAX)
    (habs : map_get lookup (hash64 (path.take length)) = MAP_NIL) :
    zip_walk hash64 path (fuel + 1) length slash node nodes lookup =
      zip_walk hash64 path fuel ((zip_segment path length + (2 ^ 64 - 1)) % 2 ^ 64)
        ((zip_segment path length + (2 ^ 64 - 1)) % 2 ^ 64)
        { node with
          firstChild := nodes.length % 2 ^ 32
          info := { node.info with type := .FILE_DIRECTORY } }
        (nodes ++ [{ node with
          filename := some ((path.drop (zip_segment path length)).take
            (slash - zip_segment path length)) }])
        (map_set lookup (hash64 (path.take length)) nodes.length) := by
  have h1 : (nodes ++ [node])[nodes.length]? = some node := by
    rw [List.getElem?_append_right (Nat.le_refl _)]
    simp
  have h2 : ∀ x : zip_node, (nodes ++ [node]).set nodes.length x = nodes ++ [x] := by
    intro x
    rw [List.set_append_right _ _ (Nat.le_refl _)]
    simp
  simp only [zip_walk, if_pos hlen, if_pos habs, h1, h2]

/-- A round of the walk at an indexed path returns only if both nodes it
touches are in the array. -/
theorem zip_walk_link_inv (hash64 : List Nat → Nat) (path : List Nat)
    (fuel length slash : Nat) (node : zip_node) (nodes : List zip_node) (lookup : map_t)
    (result : List zip_node × map_t)
    (hlen : length ≠ SIZE_MAX)
    (hidx : map_get lookup (hash64 (path.take length)) ≠ MAP_NIL)
    (h : zip_walk hash64 path (fuel + 1) length slash node nodes lookup = .ok result) :
    ∃ parent child, nodes[map_get lookup (hash64 (path.take length))]? = some parent ∧
      nodes[node.firstChild]? = some child := by
  simp only [zip_walk, if_pos hlen, if_neg hidx] at h
  cases hp : nodes[map_get lookup (hash64 (path.take length))]? with
  | none => simp [hp] at h
  | some parent =>
    cases hc : nodes[node.firstChild]? with
    | none => simp [hp, hc] at h
    | some child => exact ⟨parent, child, rfl, rfl⟩

theorem zip_walk_fuel_zero (hash64 : List Nat → Nat) (path : List Nat) (length slash : Nat)
    (node : zip_node) (nodes : List zip_node) (lookup : map_t) :
    zip_walk hash64 path 0 length slash node nodes lookup = .error .diverge := by
  simp only [zip_walk]


/-- The general form of the last round of a walk that ends at an indexed
path. -/
theorem zip_walk_link_result (hash64 : List Nat → Nat) (path : List Nat)
    (fuel length slash : Nat) (node : zip_node) (nodes : List zip_node) (lookup : map_t)
    (result : List zip_node × map_t)
    (hlen : length ≠ SIZE_MAX)
    (hidx : map_get lookup (hash64 (path.take length)) ≠ MAP_NIL)
    (h : zip_walk hash64 path (fuel + 1) length slash node nodes lookup = .ok result) :
    ∃ parent child parent2,
      nodes[map_get lookup (hash64 (path.take length))]? = some parent ∧
      nodes[node.firstChild]? = some child ∧
      (nodes.set node.firstChild { child with nextSibling := parent.firstChild })[
        map_get lookup (hash64 (path.take length))]? = some parent2 ∧
      result = ((nodes.set node.firstChild { child with nextSibling := parent.firstChild }).set
        (map_get lookup (hash64 (path.take length)))
        { parent2 with firstChild := node.firstChild }, lookup) := by
  obtain ⟨parent, child, hp, hc⟩ :=
    zip_walk_link_inv hash64 path fuel length slash node nodes lookup result hlen hidx h
  simp only [zip_walk, if_pos hlen, if_neg hidx, hp, hc] at h
  cases h2 : (nodes.set node.firstChild { child with nextSibling := parent.firstChild })[
      map_get lookup (hash64 (path.take length))]? with
  | none => simp [h2] at h
  | some parent2 =>
    simp only [h2, Except.ok.injEq] at h
    exact ⟨parent, child, parent2, hp, hc, h2, h.symm⟩

/-- A walk only adds to the node array and to the lookup map: the nodes that
were there keep their index and their file information, and the new map
entries point at the new nodes. -/
theorem zip_walk_keeps (hash64 : List Nat → Nat) (path : List Nat) :
    ∀ (fuel length slash : Nat) (node : zip_node) (nodes : List zip_node) (lookup : map_t)
      (result : List zip_node × map_t),
      zip_walk hash64 path fuel length slash node nodes lookup = .ok result →
      nodes.length ≤ result.1.length ∧
      (∀ (i : Nat) (nd : zip_node), nodes[i]? = some nd →
        ∃ nd2, result.1[i]? = some nd2 ∧ nd2.info = nd.info) ∧
      ∃ ext, result.2 = ext ++ lookup ∧
        ∀ kv ∈ ext, nodes.length ≤ kv.2 ∧ kv.2 < result.1.length := by
  intro fuel
  induction fuel with
  | zero =>
    intro length slash node nodes lookup result h
    rw [zip_walk_fuel_zero] at h
    simp at h
  | succ fuel ih =>
    intro length slash node nodes lookup result h
    by_cases hlen : length = SIZE_MAX
    · subst hlen
      rw [zip_walk_end] at h
      simp only [Except.ok.injEq] at h
      subst h
      exact ⟨Nat.le_refl _, fun i nd hnd => ⟨nd, hnd, rfl⟩, [], rfl, by simp⟩
    · by_cases habs : map_get lookup (hash64 (path.take length)) = MAP_NIL
      · rw [zip_walk_push hash64 path fuel length slash node nodes lookup hlen habs] at h
        obtain ⟨h1, h2, ext, h3, h4⟩ := ih _ _ _ _ _ _ h
        simp only [List.length_append, List.length_singleton] at h1 h4
        refine ⟨by omega, ?_, ext ++ [(hash64 (path.take length), nodes.length)], ?_, ?_⟩
        · intro i nd hnd
          have hi : i < nodes.length := by
            by_contra hc
            rw [List.getElem?_eq_none (by omega)] at hnd
            simp at hnd
          exact h2 i nd (by rw [List.getElem?_append_left hi]; exact hnd)
        · rw [h3]
          simp [map_set]
        · intro kv hkv
          rcases List.mem_append.mp hkv with hk | hk
          · have := h4 kv hk
            omega
          · simp only [List.mem_singleton] at hk
            subst hk
            simp only
            omega
      · obtain ⟨parent, child, parent2, hp, hc, hp2, hres⟩ :=
          zip_walk_link_result hash64 path fuel length slash node nodes lookup result hlen habs h
        subst hres
        refine ⟨by simp, ?_, [], rfl, by simp⟩
        intro i nd hnd
        simp only
        by_cases hi : map_get lookup (hash64 (path.take length)) = i
        · subst hi
          have hlt : map_get lookup (hash64 (path.take length)) < nodes.length := by
            by_contra hcon
            rw [List.getElem?_eq_none (by omega)] at hnd
            simp at hnd
          refine ⟨_, by rw [List.getElem?_set_self (by simpa using hlt)], ?_⟩
          simp only
          by_cases hci : node.firstChild = map_get lookup (hash64 (path.take length))
          · rw [hci, List.getElem?_set_self hlt] at hp2
            simp only [Option.some.injEq] at hp2
            rw [hci] at hc
            rw [hc] at hnd
            simp only [Option.some.injEq] at hnd
            rw [← hp2, ← hnd]
          · rw [List.getElem?_set_ne hci] at hp2
            rw [hp2] at hnd
            simp only [Option.some.injEq] at hnd
            rw [hnd]
        · rw [List.getElem?_set_ne hi]
          by_cases hci : node.firstChild = i
          · subst hci
            have hlt : node.firstChild < nodes.length := by
              by_contra hcon
              rw [List.getElem?_eq_none (by omega)] at hnd
              simp at hnd
            rw [hc] at hnd
            simp only [Option.some.injEq] at hnd
            refine ⟨_, by rw [List.getElem?_set_self hlt], ?_⟩
            simp only
            rw [hnd]
          · rw [List.getElem?_set_ne hci]
            exact ⟨nd, hnd, rfl⟩

theorem zip_segment_le (path : List Nat) : ∀ n, zip_segment path n ≤ n := by
  intro n
  induction n with
  | zero => simp [zip_segment]
  | succ n ih =>
    rw [zip_segment]
    split
    · omega
    · omega

/-- The `--length` of the walk in `size_t`. -/
theorem zip_walk_decrement (seg : Nat) (h : seg < 2 ^ 64) :
    (seg = 0 → (seg + (2 ^ 64 - 1)) % 2 ^ 64 = SIZE_MAX) ∧
    (seg ≠ 0 → (seg + (2 ^ 64 - 1)) % 2 ^ 64 = seg - 1 ∧
      (seg + (2 ^ 64 - 1)) % 2 ^ 64 ≠ SIZE_MAX) := by
  unfold SIZE_MAX
  constructor
  · intro h0
    subst h0
    norm_num
  · intro h0
    omega

theorem map_get_set (lookup : map_t) (hash value key : Nat) :
    map_get (map_set lookup hash value) key =
      if hash = key then value else map_get lookup key := by
  simp [map_set, map_get]

theorem map_get_mem (lookup : map_t) (key : Nat) (h : map_get lookup key ≠ MAP_NIL) :
    ∃ kv ∈ lookup, kv.2 = map_get lookup key := by
  induction lookup with
  | nil => exact absurd rfl h
  | cons a l ih =>
    obtain ⟨k, v⟩ := a
    by_cases hk : k = key
    · exact ⟨(k, v), by simp, by simp [map_get, hk]⟩
    · have hg : map_get ((k, v) :: l) key = map_get l key := by simp [map_get, hk]
      rw [hg] at h ⊢
      obtain ⟨kv, hkv, he⟩ := ih h
      exact ⟨kv, List.mem_cons_of_mem _ hkv, he⟩

theorem map_get_append (ext lookup : map_t) (key : Nat)
    (hext : ∀ kv ∈ ext, kv.2 ≠ MAP_NIL) (h : map_get lookup key ≠ MAP_NIL) :
    map_get (ext ++ lookup) key ≠ MAP_NIL := by
  induction ext with
  | nil => exact h
  | cons a l ih =>
    obtain ⟨k, v⟩ := a
    by_cases hk : k = key
    · have hg : map_get ((k, v) :: l ++ lookup) key = v := by simp [map_get, hk]
      rw [hg]
      exact hext (k, v) (by simp)
    · have hg : map_get ((k, v) :: l ++ lookup) key = map_get (l ++ lookup) key := by
        simp [map_get, hk]
      rw [hg]
      exact ih (fun kv hkv => hext kv (List.mem_cons_of_mem _ hkv))

theorem NONE_lt_MAP_NIL : NONE < MAP_NIL := by
  unfold NONE MAP_NIL
  norm_num

/-- A walk keeps every path indexed that was indexed. -/
theorem zip_walk_indexed_mono (hash64 : List Nat → Nat) (path : List Nat)
    (fuel length slash : Nat) (node : zip_node) (nodes : List zip_node) (lookup : map_t)
    (result : List zip_node × map_t)
    (h : zip_walk hash64 path fuel length slash node nodes lookup = .ok result)
    (hsize : result.1.length ≤ NONE) (p : List Nat) (hp : zip_indexed hash64 lookup p) :
    zip_indexed hash64 result.2 p := by
  obtain ⟨_, _, ext, h1, h2⟩ := zip_walk_keeps hash64 path _ _ _ _ _ _ _ h
  unfold zip_indexed at hp ⊢
  rw [h1]
  refine map_get_append ext lookup _ ?_ hp
  intro kv hkv
  have := (h2 kv hkv).2
  have := NONE_lt_MAP_NIL
  omega

/-- A walk that starts with a pending node without child indexes the path
it starts at, and pushes at least one node. -/
theorem zip_walk_first (hash64 : List Nat → Nat) (path : List Nat)
    (fuel length slash : Nat) (node : zip_node) (nodes : List zip_node) (lookup : map_t)
    (result : List zip_node × map_t)
    (h : zip_walk hash64 path fuel length slash node nodes lookup = .ok result)
    (hsize : result.1.length ≤ NONE) (hlen : length ≠ SIZE_MAX)
    (hnode : node.firstChild = NONE) :
    zip_indexed hash64 result.2 (path.take length) ∧ nodes.length < result.1.length := by
  have hmono := (zip_walk_keeps hash64 path _ _ _ _ _ _ _ h).1
  cases fuel with
  | zero =>
    rw [zip_walk_fuel_zero] at h
    simp at h
  | succ fuel =>
    by_cases habs : map_get lookup (hash64 (path.take length)) = MAP_NIL
    · rw [zip_walk_push hash64 path fuel length slash node nodes lookup hlen habs] at h
      have hk := (zip_walk_keeps hash64 path _ _ _ _ _ _ _ h).1
      simp only [List.length_append, List.length_singleton] at hk
      refine ⟨?_, by omega⟩
      apply zip_walk_indexed_mono hash64 path _ _ _ _ _ _ _ h hsize
      unfold zip_indexed
      rw [map_get_set, if_pos rfl]
      have := NONE_lt_MAP_NIL
      omega
    · rw [zip_walk_indexed_fault hash64 path fuel length slash node nodes lookup hlen habs hnode
        (by omega)] at h
      simp at h

theorem normalize_skip_ge (path : List Nat) :
    ∀ (fuel i j : Nat), normalize_skip path fuel i = .ok j → i ≤ j := by
  intro fuel
  induction fuel with
  | zero => intro i j h; simp [normalize_skip] at h
  | succ fuel ih =>
    intro i j h
    rw [normalize_skip] at h
    cases hb : byte_at path i with
    | error e => simp [hb] at h
    | ok c =>
      simp only [hb] at h
      by_cases hc : c = 47
      · rw [if_pos hc] at h
        cases hd : byte_at path (i + 1) with
        | error e => simp [hd] at h
        | ok d =>
          simp only [hd] at h
          split at h
          · have := ih _ _ h
            omega
          · simp only [Except.ok.injEq] at h
            omega
      · rw [if_neg hc] at h
        simp only [Except.ok.injEq] at h
        omega

theorem normalize_copy_length (path : List Nat) (length : Nat) :
    ∀ (fuel i : Nat) (buffer out : List Nat),
      normalize_copy path length fuel i buffer = .ok out →
      out.length ≤ buffer.length + (length - i) := by
  intro fuel
  induction fuel with
  | zero => intro i buffer out h; simp [normalize_copy] at h
  | succ fuel ih =>
    intro i buffer out h
    rw [normalize_copy] at h
    by_cases hi : i < length
    · rw [if_pos hi] at h
      cases hb : byte_at path i with
      | error e => simp [hb] at h
      | ok c =>
        simp only [hb] at h
        cases hs : normalize_skip path (path.length + 1) (i + 1) with
        | error e => simp [hs] at h
        | ok j =>
          simp only [hs] at h
          have hj := normalize_skip_ge path _ _ _ hs
          have := ih _ _ _ h
          simp only [List.length_append, List.length_singleton] at this
          omega
    · rw [if_neg hi] at h
      simp only [Except.ok.injEq] at h
      subst h
      omega

/-- What `normalize` writes is never longer than the `length` it is given. -/
theorem normalize_length_le (path : List Nat) (length : Nat) (out : List Nat)
    (h : normalize path length = .ok out) : out.length ≤ length := by
  unfold normalize at h
  cases hl : normalize_lead path (path.length + 1) 0 with
  | error e => simp [hl] at h
  | ok i =>
    simp only [hl] at h
    have := normalize_copy_length path length _ _ _ _ h
    simp only [List.length_nil] at this
    omega

/-- The `memcmp` of `zip_init` against the stripped root, read as a prefix
test on the entry name. -/
theorem zip_root_prefix (data r : List Nat) (name length rootLength : Nat)
    (hname : name + length ≤ data.length) (hroot : rootLength ≤ r.length) :
    r.take rootLength <+: ((data.drop name).take length).map (fun b => b % 256) ↔
      rootLength ≤ length ∧
        ((data.drop name).take rootLength).map (fun b => b % 256) = r.take rootLength := by
  have hl : (r.take rootLength).length = rootLength := by simp [hroot]
  have he : (((data.drop name).take length).map (fun b => b % 256)).length = length := by
    simp
    omega
  rw [List.prefix_iff_eq_take, hl]
  constructor
  · intro h
    have h2 := congrArg List.length h
    rw [hl, List.length_take, he] at h2
    have hle : rootLength ≤ length := by omega
    refine ⟨hle, ?_⟩
    rw [h, ← List.map_take, List.take_take, Nat.min_eq_left hle]
  · rintro ⟨hle, h⟩
    rw [← List.map_take, List.take_take, Nat.min_eq_left hle, h]

/-- The body of the loop of `zip_init` under a root filter: the entry is
walked exactly when its name begins with the stripped root and the length of
the name without the root, pasted after the mountpoint, is below
`LOVR_PATH_MAX`. -/
theorem zip_index_filter (hash64 : List Nat → Nat) (data mount r : List Nat)
    (rootLength : Nat) (info : zip_info) (nodes : List zip_node) (lookup : map_t)
    (last length : Nat)
    (hlast : byte_at data (info.name + info.length - 1) = .ok last)
    (hlen : length = if last = 47 then (info.length + (2 ^ 16 - 1)) % 2 ^ 16 else info.length)
    (hinfo : info.length < 2 ^ 16)
    (hname : info.name + length ≤ data.length)
    (hmount : mount.length < LOVR_PATH_MAX)
    (hroot : rootLength ≤ r.length) :
    zip_index hash64 data mount (some r) rootLength info nodes lookup =
      if r.take rootLength <+: ((data.drop info.name).take length).map (fun b => b % 256) ∧
          mount.length + length - rootLength < LOVR_PATH_MAX then
        match normalize (data.drop (info.name + rootLength)) (length - rootLength) with
        | .error e => .error e
        | .ok rest =>
          zip_walk hash64 (mount ++ rest) (rest.length + mount.length + 2)
            (rest.length + mount.length) (rest.length + mount.length)
            ⟨NONE, NONE, none, info.offset, ⟨info.size, info.modtime,
              if last = 47 then .FILE_DIRECTORY else .FILE_REGULAR⟩⟩ nodes lookup
      else .ok (nodes, lookup) := by
  have hl16 : length < 2 ^ 16 := by
    rw [hlen]
    split
    · exact Nat.mod_lt _ (by norm_num)
    · exact hinfo
  have hpre := zip_root_prefix data r info.name length rootLength hname hroot
  have hindex : zip_index hash64 data mount (some r) rootLength info nodes lookup =
      if (mount.length + length + (2 ^ 64 - rootLength)) % 2 ^ 64 ≥ LOVR_PATH_MAX then
        .ok (nodes, lookup)
      else
        match (if length < rootLength then (.ok true : Run Bool)
          else zip_root_differs data info.name r rootLength) with
        | .error e => .error e
        | .ok true => .ok (nodes, lookup)
        | .ok false =>
          match normalize (data.drop (info.name + rootLength)) (length - rootLength) with
          | .error e => .error e
          | .ok rest =>
            zip_walk hash64 (mount ++ rest) (rest.length + mount.length + 2)
              (rest.length + mount.length) (rest.length + mount.length)
              ⟨NONE, NONE, none, info.offset, ⟨info.size, info.modtime,
                if last = 47 then .FILE_DIRECTORY else .FILE_REGULAR⟩⟩ nodes lookup := by
    unfold zip_index
    simp only [hlast]
    subst hlen
    by_cases h47 : last = 47 <;> simp only [h47, ↓reduceIte] <;> rfl
  rw [hindex]
  unfold LOVR_PATH_MAX at hmount ⊢
  by_cases hp : r.take rootLength <+: ((data.drop info.name).take length).map (fun b => b % 256)
  · obtain ⟨hle, heq⟩ := hpre.mp hp
    have hx : (mount.length + length + (2 ^ 64 - rootLength)) % 2 ^ 64 =
        mount.length + length - rootLength := by omega
    have hdiff : zip_root_differs data info.name r rootLength = .ok false := by
      unfold zip_root_differs
      rw [if_neg (by omega : ¬ info.name + rootLength > data.length)]
      simp [heq]
    have hnl : ¬ length < rootLength := by omega
    rw [hx]
    by_cases hfit : mount.length + length - rootLength < 1024
    · have h1 : ¬ mount.length + length - rootLength ≥ 1024 := by omega
      have h2 : r.take rootLength <+: ((data.drop info.name).take length).map (fun b => b % 256) ∧
          mount.length + length - rootLength < 1024 := ⟨hp, hfit⟩
      simp only [if_neg h1, if_pos h2, if_neg hnl, hdiff]
    · have h1 : mount.length + length - rootLength ≥ 1024 := by omega
      have h2 : ¬ (r.take rootLength <+:
          ((data.drop info.name).take length).map (fun b => b % 256) ∧
          mount.length + length - rootLength < 1024) := fun h => hfit h.2
      simp only [if_pos h1, if_neg h2]
  · have h0 : ¬ (r.take rootLength <+:
        ((data.drop info.name).take length).map (fun b => b % 256) ∧
        mount.length + length - rootLength < 1024) := fun h => hp h.1
    simp only [if_neg h0]
    by_cases h1 : (mount.length + length + (2 ^ 64 - rootLength)) % 2 ^ 64 ≥ 1024
    · simp only [if_pos h1]
    · simp only [if_neg h1]
      by_cases h2 : length < rootLength
      · simp only [if_pos h2]
      · simp only [if_neg h2]
        have hdiff : zip_root_differs data info.name r rootLength = .ok true := by
          unfold zip_root_differs
          rw [if_neg (by omega : ¬ info.name + rootLength > data.length)]
          have : ((data.drop info.name).take rootLength).map (fun b => b % 256) ≠
              r.take rootLength := fun h => hp (hpre.mpr ⟨by omega, h⟩)
          exact congrArg Except.ok (decide_eq_true this)
        simp only [hdiff]

/-- The walk returns: with fuel above the length, every value of the lookup
map inside the node array, and a pending node that is either the first one at
a path not yet indexed or one whose first child is in the array. -/
theorem zip_walk_returns (hash64 : List Nat → Nat) (path : List Nat) :
    ∀ (fuel length slash : Nat) (node : zip_node) (nodes : List zip_node) (lookup : map_t),
      0 < fuel → (length ≠ SIZE_MAX → length + 1 < fuel) →
      (∀ kv ∈ lookup, kv.2 < nodes.length) →
      nodes.length + fuel ≤ NONE + 1 →
      (node.firstChild < nodes.length ∨
        map_get lookup (hash64 (path.take length)) = MAP_NIL) →
      ∃ result, zip_walk hash64 path fuel length slash node nodes lookup = .ok result := by
  intro fuel
  induction fuel with
  | zero => intro length slash node nodes lookup h; omega
  | succ fuel ih =>
    intro length slash node nodes lookup _ hfuel hval hsize hnode
    by_cases hlen : length = SIZE_MAX
    · subst hlen
      exact ⟨_, zip_walk_end hash64 path fuel slash node nodes lookup⟩
    · have hf := hfuel hlen
      by_cases habs : map_get lookup (hash64 (path.take length)) = MAP_NIL
      · rw [zip_walk_push hash64 path fuel length slash node nodes lookup hlen habs]
        have hseg := zip_segment_le path length
        have hl64 : length < 2 ^ 64 := by
          unfold NONE at hsize
          omega
        have hdec := zip_walk_decrement (zip_segment path length) (by omega)
        have hmod : nodes.length % 2 ^ 32 = nodes.length := by
          apply Nat.mod_eq_of_lt
          unfold NONE at hsize
          omega
        apply ih
        · omega
        · intro hne
          by_cases hz : zip_segment path length = 0
          · exact absurd (hdec.1 hz) hne
          · rw [(hdec.2 hz).1]
            omega
        · intro kv hkv
          rw [List.length_append, List.length_singleton]
          unfold map_set at hkv
          rcases List.mem_cons.mp hkv with h | h
          · rw [h]
            exact Nat.lt_succ_self _
          · exact Nat.lt_succ_of_lt (hval kv h)
        · rw [List.length_append, List.length_singleton]
          omega
        · left
          rw [List.length_append, List.length_singleton]
          show nodes.length % 2 ^ 32 < nodes.length + 1
          rw [hmod]
          exact Nat.lt_succ_self _
      · have hchild : node.firstChild < nodes.length := by
          rcases hnode with h | h
          · exact h
          · exact absurd h habs
        obtain ⟨kv, hkv, hkv2⟩ := map_get_mem lookup _ habs
        have hidx : map_get lookup (hash64 (path.take length)) < nodes.length := by
          rw [← hkv2]
          exact hval kv hkv
        have hp : nodes[map_get lookup (hash64 (path.take length))]? =
            some (nodes.get ⟨_, hidx⟩) := List.getElem?_eq_getElem hidx
        have hc : nodes[node.firstChild]? = some (nodes.get ⟨_, hchild⟩) :=
          List.getElem?_eq_getElem hchild
        have hidx2 : map_get lookup (hash64 (path.take length)) <
            (nodes.set node.firstChild
              { nodes.get ⟨_, hchild⟩ with
                nextSibling := (nodes.get ⟨_, hidx⟩).firstChild }).length := by
          rw [List.length_set]
          exact hidx
        have hp2 := List.getElem?_eq_getElem hidx2
        simp only [zip_walk, if_pos hlen, if_neg habs, hp, hc, hp2]
        exact ⟨_, rfl⟩

/-- A walk that returns has pushed fewer nodes than it had fuel. -/
theorem zip_walk_length_le (hash64 : List Nat → Nat) (path : List Nat) :
    ∀ (fuel length slash : Nat) (node : zip_node) (nodes : List zip_node) (lookup : map_t)
      (result : List zip_node × map_t),
      zip_walk hash64 path fuel length slash node nodes lookup = .ok result →
      result.1.length + 1 ≤ nodes.length + fuel := by
  intro fuel
  induction fuel with
  | zero =>
    intro length slash node nodes lookup result h
    rw [zip_walk_fuel_zero] at h
    simp at h
  | succ fuel ih =>
    intro length slash node nodes lookup result h
    by_cases hlen : length = SIZE_MAX
    · subst hlen
      rw [zip_walk_end] at h
      simp only [Except.ok.injEq] at h
      rw [← h]
      show nodes.length + 1 ≤ nodes.length + (fuel + 1)
      omega
    · by_cases habs : map_get lookup (hash64 (path.take length)) = MAP_NIL
      · rw [zip_walk_push hash64 path fuel length slash node nodes lookup hlen habs] at h
        have := ih _ _ _ _ _ _ h
        rw [List.length_append, List.length_singleton] at this
        omega
      · obtain ⟨parent, child, hp, hc⟩ :=
          zip_walk_link_inv hash64 path fuel length slash node nodes lookup result hlen habs h
        simp only [zip_walk, if_pos hlen, if_neg habs, hp, hc] at h
        split at h
        · simp at h
        · simp only [Except.ok.injEq] at h
          rw [← h]
          simp only [List.length_set]
          omega

/-- C22, amended.  For the body of the loop of `zip_init` under a root
filter `r` of `rootLength` bytes (the root after its leading and trailing
slashes are stripped) and every entry whose name `e` (after a trailing `/` is
trimmed and the entry classified Directory) lies inside the buffer: the entry
is walked if and only if `e` begins byte for byte with `r` and
`strlen(mountpoint + '/') + len(e) - len(r) < LOVR_PATH_MAX`, a test on the
length before normalization.  A walked entry whose canonical path
`mountpoint + '/' + normalize(e without its first len(r) bytes)` is not
indexed yet is indexed under that path in at least one new node, and
whenever the walk of an entry returns, that path is indexed.  Every other
entry is skipped: nodes and lookup map stay as they were. -/
theorem zip_index_root_filter (hash64 : List Nat → Nat) (data mount r : List Nat)
    (rootLength : Nat) (info : zip_info) (nodes : List zip_node) (lookup : map_t)
    (last length : Nat)
    (hlast : byte_at data (info.name + info.length - 1) = .ok last)
    (hlen : length = if last = 47 then (info.length + (2 ^ 16 - 1)) % 2 ^ 16 else info.length)
    (hinfo : info.length < 2 ^ 16)
    (hname : info.name + length ≤ data.length)
    (hmount : mount.length < LOVR_PATH_MAX)
    (hroot : rootLength ≤ r.length) :
    (r.take rootLength <+: ((data.drop info.name).take length).map (fun b => b % 256) ∧
        mount.length + length - rootLength < LOVR_PATH_MAX →
      ∀ rest, normalize (data.drop (info.name + rootLength)) (length - rootLength) = .ok rest →
        map_get lookup (hash64 (mount ++ rest)) = MAP_NIL →
        (∀ kv ∈ lookup, kv.2 < nodes.length) →
        nodes.length + (mount ++ rest).length + 2 ≤ NONE + 1 →
        ∃ result, zip_index hash64 data mount (some r) rootLength info nodes lookup = .ok result ∧
          zip_indexed hash64 result.2 (mount ++ rest) ∧ nodes.length < result.1.length) ∧
    (r.take rootLength <+: ((data.drop info.name).take length).map (fun b => b % 256) ∧
        mount.length + length - rootLength < LOVR_PATH_MAX →
      ∀ result, zip_index hash64 data mount (some r) rootLength info nodes lookup = .ok result →
        result.1.length ≤ NONE →
        ∃ rest, normalize (data.drop (info.name + rootLength)) (length - rootLength) = .ok rest ∧
          zip_walk hash64 (mount ++ rest) (rest.length + mount.length + 2)
            (rest.length + mount.length) (rest.length + mount.length)
            ⟨NONE, NONE, none, info.offset, ⟨info.size, info.modtime,
              if last = 47 then .FILE_DIRECTORY else .FILE_REGULAR⟩⟩ nodes lookup = .ok result ∧
          zip_indexed hash64 result.2 (mount ++ rest) ∧ nodes.length < result.1.length) ∧
    (¬ (r.take rootLength <+: ((data.drop info.name).take length).map (fun b => b % 256) ∧
        mount.length + length - rootLength < LOVR_PATH_MAX) →
      zip_index hash64 data mount (some r) rootLength info nodes lookup = .ok (nodes, lookup)) := by
  have heq := zip_index_filter hash64 data mount r rootLength info nodes lookup last length
    hlast hlen hinfo hname hmount hroot
  have hl16 : length < 2 ^ 16 := by
    rw [hlen]
    split
    · exact Nat.mod_lt _ (by norm_num)
    · exact hinfo
  have hfirst : ∀ (rest : List Nat) (result : List zip_node × map_t),
      normalize (data.drop (info.name + rootLength)) (length - rootLength) = .ok rest →
      zip_walk hash64 (mount ++ rest) (rest.length + mount.length + 2)
        (rest.length + mount.length) (rest.length + mount.length)
        ⟨NONE, NONE, none, info.offset, ⟨info.size, info.modtime,
          if last = 47 then .FILE_DIRECTORY else .FILE_REGULAR⟩⟩ nodes lookup = .ok result →
      result.1.length ≤ NONE →
      zip_indexed hash64 result.2 (mount ++ rest) ∧ nodes.length < result.1.length := by
    intro rest result hn hres hsize
    have hnl := normalize_length_le _ _ _ hn
    have hne : rest.length + mount.length ≠ SIZE_MAX := by
      unfold LOVR_PATH_MAX at hmount
      unfold SIZE_MAX
      omega
    obtain ⟨h1, h2⟩ := zip_walk_first hash64 (mount ++ rest) _ _ _ _ _ _ _ hres hsize hne rfl
    have ht : (mount ++ rest).take (rest.length + mount.length) = mount ++ rest := by
      apply List.take_of_length_le
      simp
      omega
    rw [ht] at h1
    exact ⟨h1, h2⟩
  refine ⟨?_, ?_, ?_⟩
  · intro hc rest hn habs hval hsize
    rw [heq, if_pos hc]
    simp only [hn]
    have hnl := normalize_length_le _ _ _ hn
    rw [List.length_append] at hsize
    have ht : (mount ++ rest).take (rest.length + mount.length) = mount ++ rest := by
      apply List.take_of_length_le
      simp
      omega
    obtain ⟨result, hres⟩ := zip_walk_returns hash64 (mount ++ rest)
      (rest.length + mount.length + 2) (rest.length + mount.length) (rest.length + mount.length)
      ⟨NONE, NONE, none, info.offset, ⟨info.size, info.modtime,
        if last = 47 then .FILE_DIRECTORY else .FILE_REGULAR⟩⟩ nodes lookup
      (by omega) (fun _ => by omega) hval (by omega) (Or.inr (by rw [ht]; exact habs))
    have hle := zip_walk_length_le hash64 (mount ++ rest) _ _ _ _ _ _ _ hres
    exact ⟨result, hres, hfirst rest result hn hres (by omega)⟩
  · intro hc result hres hsize
    rw [heq, if_pos hc] at hres
    cases hn : normalize (data.drop (info.name + rootLength)) (length - rootLength) with
    | error e => simp [hn] at hres
    | ok rest =>
      simp only [hn] at hres
      obtain ⟨h1, h2⟩ := hfirst rest result hn hres hsize
      exact ⟨rest, rfl, hres, h1, h2⟩
  · intro hc
    rw [heq, if_neg hc]

set_option maxRecDepth 20000 in
/-- Witness for C22: under the root `d` and the mountpoint `m/` the entry
`d/b` is indexed as `m/b` in a new node, the entry `x/b` is skipped. -/
theorem zip_index_root_filter_witness :
    normalize ((str "d/b" ++ [0]).drop (0 + 1)) (3 - 1) = .ok (str "b") ∧
    zip_index sample_hash64 (str "x/b" ++ [0]) (str "m/") (some (str "d")) 1 ⟨0, 0, 0, 0, 3⟩ [] [] =
      .ok ([], []) ∧
    ∃ result, zip_index sample_hash64 (str "d/b" ++ [0]) (str "m/") (some (str "d")) 1
        ⟨0, 0, 0, 0, 3⟩ [] [] = .ok result ∧
      zip_indexed sample_hash64 result.2 (str "m/" ++ str "b") ∧
      ([] : List zip_node).length < result.1.length :=
  ⟨rfl,
    (zip_index_root_filter sample_hash64 (str "x/b" ++ [0]) (str "m/") (str "d") 1
      ⟨0, 0, 0, 0, 3⟩ [] [] 98 3 (by rfl) (by rfl) (by decide) (by decide) (by decide)
      (by decide)).2.2 (by decide),
    (zip_index_root_filter sample_hash64 (str "d/b" ++ [0]) (str "m/") (str "d") 1
      ⟨0, 0, 0, 0, 3⟩ [] [] 98 3 (by rfl) (by rfl) (by decide) (by decide) (by decide)
      (by decide)).1 (by decide) (str "b") (by rfl) (by rfl) (by decide) (by decide)⟩

set_option maxRecDepth 100000 in
/-- C22, counterexample to the original wording.  The entry named `d`, 1021
slashes, `b` begins with the root `d`, and its canonical path `m/b` has three
bytes, far below `LOVR_PATH_MAX`; yet `zip_init` with the mountpoint `m` and
the root `d` indexes nothing, because the length compared with
`LOVR_PATH_MAX` is the one before normalization (2 + 1023 - 1 = 1024). -/
theorem zip_init_root_filter_counterexample :
    (zip_next sample_mktime (sample_zip1 sample_slashes []) 1053).toOption =
      some (some (true, 2122, ⟨0, 0, 124, 1099, 1023⟩)) ∧
    ((sample_zip1 sample_slashes []).drop 1099).take 1023 = sample_slashes ∧
    str "d" <+: sample_slashes ∧
    normalize (sample_slashes.drop 1 ++ [0]) (sample_slashes.drop 1).length = .ok (str "b") ∧
    (str "m/" ++ str "b").length < LOVR_PATH_MAX ∧
    (zip_init sample_hash64 sample_mktime (some (sample_zip1 sample_slashes []))
      (some (str "m")) (some (str "d"))).toOption =
      some (some ⟨[], [], sample_zip1 sample_slashes []⟩) := by
  have hs : ∀ c ∈ sample_slashes.drop 1, 0 < c ∧ c < 256 := by decide!
  have hq : squeeze (sample_slashes.drop 1) = str "b" := by decide!
  refine ⟨?_, ?_, ?_, ?_, ?_, ?_⟩
  · decide!
  · decide!
  · decide!
  · exact (normalize_eq_squeeze (sample_slashes.drop 1) hs).trans (congrArg Except.ok hq)
  · decide
  · decide!

end Lovr
